import Mathlib

/-!
xchedule: the recursive event-tree builder (`parser/base.go`, `types.go`)

A shallow embedding of `NewEvent` and the functions it calls, together with
the parts of its collaborators that decide its behaviour: the configuration
reader (`viper`), Go's `time.ParseInLocation` for the twelve layouts of
`stringToTime`, and the file system as seen by `findEventConfig`.

A key of the reader is a path: it is lower-cased and split at ".", and the
path is followed through nested maps (and, in a loaded document, list indexes),
as the reader's `find` does.  The identifiers of "schedule" are such keys.

Go strings are handled character by character.  Every separator the code looks
for (`~`, space, `.`, the digits) is an ASCII character, so splitting, trimming
and prefix tests agree with Go's byte-wise versions on valid UTF-8 text.
-/

namespace Xchedule

/-! ## Go slices and strings -/

/-- A Go slice value: `null` is the nil slice, `items xs` a non-nil slice. -/
inductive Slice (α : Type) where
  | null : Slice α
  | items (xs : List α) : Slice α
  deriving Repr, DecidableEq

namespace Slice

/-- The elements a `range` loop visits. -/
def toList {α : Type} : Slice α → List α
  | null => []
  | items xs => xs

/-- Go `len`. -/
def len {α : Type} (s : Slice α) : Nat := s.toList.length

/-- Go `s == nil`. -/
def isNil {α : Type} : Slice α → Bool
  | null => true
  | items _ => false

/-- Go `append(s, x)`: the result is never nil. -/
def append {α : Type} (s : Slice α) (x : α) : Slice α := items (s.toList ++ [x])

/-- A slice built by appending the elements of a list one by one, starting
from `s`: the shape of every `for ... { s = append(s, x) }` loop. -/
def appendAll {α : Type} (s : Slice α) : List α → Slice α
  | [] => s
  | x :: xs => appendAll (s.append x) xs

end Slice

/-- Go `strings.Trim(s, cutset)` for a cutset of ASCII characters: leading and
trailing characters that belong to the cutset are removed. -/
def stringsTrim (s : String) (cutset : String) : String :=
  ⟨((s.data.dropWhile (fun c => cutset.data.contains c)).reverse.dropWhile
      (fun c => cutset.data.contains c)).reverse⟩

/-- Splitting a character list at every occurrence of `sep`; the result always
has at least one part. -/
def splitChars (sep : Char) : List Char → List (List Char)
  | [] => [[]]
  | c :: cs =>
    match splitChars sep cs with
    | [] => [[]]
    | p :: ps => if c = sep then [] :: p :: ps else (c :: p) :: ps

/-- Go `strings.Split(s, sep)` for a one-character separator. -/
def stringsSplit (s : String) (sep : Char) : List String :=
  (splitChars sep s.data).map String.mk

/-- Go `strings.HasPrefix(s, pfx)`. -/
def stringsHasPrefix (s pfx : String) : Bool := pfx.data.isPrefixOf s.data

/-- The white space of Go `unicode.IsSpace`: tab, line feed, vertical tab, form
feed, carriage return, space, U+0085, U+00A0, U+1680, U+2000 to U+200A, U+2028,
U+2029, U+202F, U+205F and U+3000. -/
def isSpace (c : Char) : Bool :=
  c = ' ' || c = '\t' || c = '\n' || c = Char.ofNat 11 || c = Char.ofNat 12 || c = '\r'
    || c = Char.ofNat 0x85 || c = Char.ofNat 0xA0 || c = Char.ofNat 0x1680
    || (0x2000 ≤ c.toNat && c.toNat ≤ 0x200A)
    || c = Char.ofNat 0x2028 || c = Char.ofNat 0x2029 || c = Char.ofNat 0x202F
    || c = Char.ofNat 0x205F || c = Char.ofNat 0x3000

/-- Splitting a character list around runs of white space; `cur` is the field
being read, kept reversed. -/
def fieldsAux : List Char → List Char → List (List Char)
  | [], cur => if cur = [] then [] else [cur.reverse]
  | c :: cs, cur =>
    if isSpace c then
      (if cur = [] then fieldsAux cs [] else cur.reverse :: fieldsAux cs [])
    else fieldsAux cs (c :: cur)

/-- Go `strings.Fields`. -/
def stringsFields (s : String) : List String := (fieldsAux s.data []).map String.mk

/-! ## The configuration reader -/

/-- A value of a loaded document (YAML, JSON, TOML after decoding). Floating
point scalars (among them the integers beyond 64 bits, which the decoder reads
as such) and timestamps are not represented, nor is a text that holds a JSON
object, which `cast.ToStringMap` and `cast.ToStringMapStringSlice` would
decode. A `map` is an association list in which the first binding of a key is
the one that counts. -/
inductive Value where
  | null : Value
  | bool (b : Bool) : Value
  | int (n : Int) : Value
  | str (s : String) : Value
  | list (xs : List Value) : Value
  | map (kvs : List (String × Value)) : Value
  deriving Repr

/-- The keys of the reader are case-insensitive: `strings.ToLower` on every
key that is set or looked up (ASCII letters here). -/
def lcase (s : String) : String := ⟨s.data.map Char.toLower⟩

/-- First binding of a key in an association list. -/
def lookupKey {α : Type} (k : String) : List (String × α) → Option α
  | [] => none
  | (k', v) :: rest => if k' = k then some v else lookupKey k rest

/-- The association list without the bindings of key `k`. -/
def eraseKey {α : Type} (k : String) : List (String × α) → List (String × α)
  | [] => []
  | (k', v) :: rest => if k' = k then eraseKey k rest else (k', v) :: eraseKey k rest

/-- The association list with the later bindings of an already bound key
removed: the bindings a Go map built from it holds. -/
def dedupKeys {α : Type} : List (String × α) → List (String × α)
  | [] => []
  | (k, v) :: rest => (k, v) :: eraseKey k (dedupKeys rest)

/-- `cast.ToString`: scalars are printed, everything else gives "". -/
def castToString : Value → String
  | .str s => s
  | .bool b => if b then "true" else "false"
  | .int n => toString n
  | _ => ""

/-- `cast.ToStringSlice`: a list is converted element by element (an empty list
gives the nil slice, nothing being appended), a string is split into fields,
a boolean or integer scalar gives the one-element slice of its text, and nil
or a map (for which `cast.ToString` fails) gives the nil slice. -/
def castToStringSlice : Value → Slice String
  | .list xs => Slice.appendAll .null (xs.map castToString)
  | .str s => .items (stringsFields s)
  | .bool b => .items [castToString (.bool b)]
  | .int n => .items [castToString (.int n)]
  | _ => .null

/-- `cast.ToStringMap`: a map gives its bindings, any other value the empty map.
A text that holds a JSON object, which `cast.ToStringMap` would decode, is not
represented. -/
def castToStringMap : Value → List (String × Value)
  | .map kvs => dedupKeys kvs
  | _ => []

/-- `cast.ToStringMapStringSlice`: for a map, a list value is converted with
`cast.ToStringSlice` and any other value `v` becomes the one-element slice
holding `cast.ToString v`; any other value gives the empty map (a text that
holds a JSON object is not represented). -/
def castToStringMapStringSlice : Value → List (String × Slice String)
  | .map kvs =>
    (dedupKeys kvs).map (fun kv =>
      (kv.1, match kv.2 with
             | .list xs => castToStringSlice (.list xs)
             | v => .items [castToString v]))
  | _ => []

/-- Go `strconv.Atoi`: an optional sign followed by one or more decimal digits,
within the range of `int` (64 bits). -/
def strconvAtoi (s : String) : Option Int :=
  let digits := match s.data with
    | '-' :: rest => rest
    | '+' :: rest => rest
    | cs => cs
  if digits ≠ [] ∧ digits.all (fun c => '0' ≤ c ∧ c ≤ '9') then
    let n : Int := digits.foldl (fun acc c => acc * 10 + ((c.toNat - '0'.toNat : Nat) : Int)) 0
    let n := if s.data.head? = some '-' then -n else n
    if -(2 ^ 63 : Int) ≤ n ∧ n < 2 ^ 63 then some n else none
  else none

mutual
/-- `toCaseInsensitiveValue` (`copyAndInsensitiviseMap`) of the reader: the keys
of a map, and of the maps nested in it as values, are lower-cased. Lists are
left as they are. -/
def insensitivise : Value → Value
  | .map kvs => .map (insensitiviseMap kvs)
  | v => v
/-- The bindings of `copyAndInsensitiviseMap`. -/
def insensitiviseMap : List (String × Value) → List (String × Value)
  | [] => []
  | (k, v) :: rest => (lcase k, insensitivise v) :: insensitiviseMap rest
end

/-- The reader's `searchMap`: the value at a path of keys through nested maps;
`null` when a key is missing or an intermediate value is not a map. -/
def searchMap : List (String × Value) → List String → Value
  | m, [] => .map m
  | m, [k] => (lookupKey k m).getD .null
  | m, k :: rest =>
    match lookupKey k m with
    | some (.map kvs) => searchMap kvs rest
    | _ => .null

/-- The loop of `isPathShadowedInDeepMap` over the lengths `i` of the proper
prefixes of the path. -/
def shadowedFrom (path : List String) (m : List (String × Value)) : List Nat → String
  | [] => ""
  | i :: rest =>
    match searchMap m (path.take i) with
    | .null => ""
    | .map _ => shadowedFrom path m rest
    | _ => String.intercalate "." (path.take i)

/-- The reader's `isPathShadowedInDeepMap`: the first proper prefix of the path
that holds a value which is not a map, "" when there is none. -/
def isPathShadowedInDeepMap (path : List String) (m : List (String × Value)) : String :=
  shadowedFrom path m (List.range' 1 (path.length - 1))

/-- The first result of a search that is not nil; a panic ends the search. -/
def firstFound : List (Except String Value) → Except String Value
  | [] => .ok .null
  | .error msg :: _ => .error msg
  | .ok .null :: rest => firstFound rest
  | .ok v :: _ => .ok v

/-- The reader's `searchIndexableWithPathPrefixes` on a loaded document: the
prefixes of the path are tried as keys from the longest to the shortest, and
the rest of the path is searched in the map or list found there. In a list the
prefix is an index (`strconv.Atoi`); a negative index is a run-time panic, the
`error` of the result. The first argument bounds the recursion; the length of
the path is enough. -/
def searchIndexableWithPathPrefixes : Nat → Value → List String → Except String Value
  | _, source, [] => .ok source
  | 0, _, _ :: _ => .ok .null
  | fuel + 1, source, p :: ps =>
    firstFound ((List.range (p :: ps).length).reverse.map (fun j =>
      let i := j + 1
      let prefixKey := lcase (String.intercalate "." ((p :: ps).take i))
      let descend : Value → Except String Value := fun next =>
        if i = (p :: ps).length then .ok next
        else
          match next with
          | .map kvs => searchIndexableWithPathPrefixes fuel (.map kvs) ((p :: ps).drop i)
          | .list xs => searchIndexableWithPathPrefixes fuel (.list xs) ((p :: ps).drop i)
          | _ => .ok .null
      match source with
      | .map kvs =>
        match lookupKey prefixKey kvs with
        | none => .ok .null
        | some next => descend next
      | .list xs =>
        match strconvAtoi prefixKey with
        | none => .ok .null
        | some index =>
          if (xs.length : Int) ≤ index then .ok .null
          else if index < 0 then
            .error ("runtime error: index out of range [" ++ toString index ++ "]")
          else descend (xs.getD index.toNat .null)
      | _ => .ok .null))

/-- The reader's `deepSearch` followed by the assignment of the last key of the
path: the maps on the way are created, a value on the way that is not a map is
replaced by a new map. -/
def setPath : List (String × Value) → List String → Value → List (String × Value)
  | m, [], _ => m
  | m, [k], x => (k, x) :: eraseKey k m
  | m, k :: rest, x =>
    (k, .map (setPath (match lookupKey k m with
                       | some (.map kvs) => kvs
                       | _ => []) rest x)) :: eraseKey k m

/-- A `*viper.Viper` instance as far as this package uses it: the declared
format (`SetConfigType`), the values assigned with `Set`, and the loaded
document, whose keys are lower-case as the reader leaves them after loading.
Aliases, flags, environment variables, the key/value store and defaults are
empty for a reader made by `viper.New()` and used as this package does. -/
structure Viper where
  configType : String
  override : List (String × Value)
  config : List (String × Value)
  deriving Repr

namespace Viper

/-- `viper.New()`. -/
def New : Viper := ⟨"", [], []⟩

/-- `v.SetConfigType(t)`. -/
def SetConfigType (v : Viper) (t : String) : Viper := { v with configType := t }

/-- `v.Set(key, value)`: the lower-cased key is split at ".", and the value is
assigned at that path of the override map. -/
def Set (v : Viper) (key : String) (value : Value) : Viper :=
  { v with override := setPath v.override (stringsSplit (lcase key) '.') (insensitivise value) }

/-- The reader's `find` for a lower-cased key: the key is split at "." and
searched as a path, first in the assigned values, then in the loaded document.
A path that an assigned value which is not a map shadows is not searched in the
document. The `error` of the result is a run-time panic. -/
def find (v : Viper) (lcaseKey : String) : Except String Value :=
  let path := stringsSplit lcaseKey '.'
  match searchMap v.override path with
  | .null =>
    if path.length > 1 ∧ isPathShadowedInDeepMap path v.override ≠ "" then .ok .null
    else searchIndexableWithPathPrefixes path.length (.map v.config) path
  | val => .ok val

/-- `v.Get(key)`: `null` when the key is found nowhere. A key without "." is a
path of one element and never indexes a list, so its search cannot panic; for
such keys this is all of `Get`. -/
def Get (v : Viper) (key : String) : Value :=
  match v.find (lcase key) with
  | .ok x => x
  | .error _ => .null

/-- `v.GetString(key)`. -/
def GetString (v : Viper) (key : String) : String := castToString (v.Get key)

/-- `v.GetStringSlice(key)`. -/
def GetStringSlice (v : Viper) (key : String) : Slice String := castToStringSlice (v.Get key)

/-- `v.GetStringMap(key)`. -/
def GetStringMap (v : Viper) (key : String) : List (String × Value) := castToStringMap (v.Get key)

/-- `v.GetStringMap(key)` for a key taken from the document: the map, or the
panic of the search. -/
def GetStringMapE (v : Viper) (key : String) : Except String (List (String × Value)) :=
  match v.find (lcase key) with
  | .ok x => .ok (castToStringMap x)
  | .error msg => .error msg

/-- `v.GetStringMapStringSlice(key)`. -/
def GetStringMapStringSlice (v : Viper) (key : String) : List (String × Slice String) :=
  castToStringMapStringSlice (v.Get key)

end Viper

/-! ## Runs: outcome and the calls made to collaborators -/

/-- A time zone (`*time.Location`), identified by its name. -/
structure TimeLocation where
  name : String
  deriving Repr, DecidableEq

/-- `time.Local`. -/
def TimeLocation.Local : TimeLocation := ⟨"Local"⟩

/-- `time.UTC`. -/
def TimeLocation.UTC : TimeLocation := ⟨"UTC"⟩

/-- A call the package makes to one of its collaborators. -/
inductive Effect where
  /-- a `Get...` read of a key of an event source -/
  | get (key : String) : Effect
  /-- `time.LoadLocation(name)` -/
  | loadLocation (name : String) : Effect
  /-- `time.ParseInLocation(layout, value, loc)` -/
  | parseInLocation (layout value : String) (loc : TimeLocation) : Effect
  /-- `ioutil.ReadDir(dir)` -/
  | readDir (dir : String) : Effect
  /-- `ReadInConfig` of the named file -/
  | readInConfig (name : String) : Effect
  deriving Repr, DecidableEq

/-- How a call ends. `fatal` is `log.Fatal...` (the message is logged and the
process exits), `panic` a run-time panic, `outOfFuel` the recursion bound of
the embedding: the call was still descending when the bound was reached. -/
inductive Outcome (α : Type) where
  | ok (a : α) : Outcome α
  | fatal (msg : String) : Outcome α
  | panic (msg : String) : Outcome α
  | outOfFuel : Outcome α
  deriving Repr, DecidableEq

/-- A run of a function: how it ended and the calls to collaborators it made
up to that point, in order. -/
structure Run (α : Type) where
  outcome : Outcome α
  trace : List Effect
  deriving Repr, DecidableEq

namespace Run

/-- A run that returns `a` without calling anything. -/
def ret {α : Type} (a : α) : Run α := ⟨.ok a, []⟩

/-- A collaborator call `e` that returned `a`. -/
def call {α : Type} (e : Effect) (a : α) : Run α := ⟨.ok a, [e]⟩

/-- A collaborator call `e` that returned, or ended in a run-time panic. -/
def callE {α : Type} (e : Effect) : Except String α → Run α
  | .ok a => ⟨.ok a, [e]⟩
  | .error msg => ⟨.panic msg, [e]⟩

/-- `log.Fatal...`. -/
def fatal {α : Type} (msg : String) : Run α := ⟨.fatal msg, []⟩

/-- A run-time panic. -/
def panic {α : Type} (msg : String) : Run α := ⟨.panic msg, []⟩

/-- Sequencing: the second run happens only if the first returned. -/
def bind {α β : Type} (m : Run α) (f : α → Run β) : Run β :=
  match m.outcome with
  | .ok a => ⟨(f a).outcome, m.trace ++ (f a).trace⟩
  | .fatal msg => ⟨.fatal msg, m.trace⟩
  | .panic msg => ⟨.panic msg, m.trace⟩
  | .outOfFuel => ⟨.outOfFuel, m.trace⟩

instance : Monad Run where
  pure := ret
  bind := bind

end Run

/-- The surroundings of a build: the system zone database, the workspace
directory configured on the global reader, the directory listings and the
files that can be loaded. -/
structure World where
  /-- `time.LoadLocation`: an error for a name the zone database does not know -/
  LoadLocation : String → Except String TimeLocation
  /-- `viper.GetString("workspace")` on the global instance -/
  workspace : String
  /-- `ioutil.ReadDir`: the entry names in listing order, or the error -/
  ReadDir : String → Except String (List String)
  /-- `SetConfigFile(name)` followed by `ReadInConfig()` under the declared
  format: the loaded document, or the error -/
  ReadInConfig : String → String → Except String (List (String × Value))

/-! ## Timestamps and `time.ParseInLocation` -/

/-- A `time.Time` as produced by parsing: the arguments of the final
`Date(year, month, day, hour, min, sec, nsec, loc)` call. Equal arguments give
the same instant. -/
structure GoTime where
  year : Nat
  month : Nat
  day : Nat
  hour : Nat
  min : Nat
  sec : Nat
  nsec : Nat
  loc : TimeLocation
  deriving Repr, DecidableEq

/-- The zero `time.Time{}`: January 1, year 1, 00:00:00 UTC. -/
def GoTime.zero : GoTime := ⟨1, 1, 1, 0, 0, 0, 0, TimeLocation.UTC⟩

/-- The layout elements (`std...` constants of package `time`) that the cases
`0 1 2 3 4 5 P` of `nextStdChunk` produce. The remaining cases of that function
(`J M _ p - Z . ,`, and `002` for the day of the year) only fire on spellings,
such as `Jan`, `MST`, `pm`, `-07` or `.000`, that none of the layouts of
`stringToTime` contains. -/
inductive Std where
  | stdLongYear | stdYear | stdZeroMonth | stdNumMonth | stdZeroDay | stdDay
  | stdHour | stdHour12 | stdZeroHour12 | stdZeroMinute | stdMinute
  | stdZeroSecond | stdSecond | stdPM
  deriving Repr, DecidableEq

/-- The switch of `nextStdChunk` at one position of the layout: the element
starting there and the rest of the layout after it. -/
def stdAt : List Char → Option (Std × List Char)
  | '0' :: '1' :: r => some (.stdZeroMonth, r)
  | '0' :: '2' :: r => some (.stdZeroDay, r)
  | '0' :: '3' :: r => some (.stdZeroHour12, r)
  | '0' :: '4' :: r => some (.stdZeroMinute, r)
  | '0' :: '5' :: r => some (.stdZeroSecond, r)
  | '0' :: '6' :: r => some (.stdYear, r)
  | '1' :: '5' :: r => some (.stdHour, r)
  | '1' :: r => some (.stdNumMonth, r)
  | '2' :: '0' :: '0' :: '6' :: r => some (.stdLongYear, r)
  | '2' :: r => some (.stdDay, r)
  | '3' :: r => some (.stdHour12, r)
  | '4' :: r => some (.stdMinute, r)
  | '5' :: r => some (.stdSecond, r)
  | 'P' :: 'M' :: r => some (.stdPM, r)
  | _ => none

/-- Go `nextStdChunk`: the literal text before the first layout element, the
element (`none` when the layout holds no further element) and the layout
after it. -/
def nextStdChunk : List Char → List Char × Option Std × List Char
  | [] => ([], none, [])
  | c :: rest =>
    match stdAt (c :: rest) with
    | some (std, suffix) => ([], some std, suffix)
    | none =>
      match nextStdChunk rest with
      | (p, std, suffix) => (c :: p, std, suffix)

/-- Go `isDigit(s, 0)` on the first character. -/
def isDigit (c : Char) : Bool := decide ('0' ≤ c) && decide (c ≤ '9')

/-- The value `c - 48` of a digit character, 48 being the code of the digit zero. -/
def digitVal (c : Char) : Nat := c.toNat - 48

/-- Go `getnum`: a one- or two-digit number, exactly two digits when `fixed`. -/
def getnum (s : List Char) (fixed : Bool) : Option (Nat × List Char) :=
  match s with
  | [] => none
  | c0 :: r0 =>
    if !isDigit c0 then none
    else match r0 with
      | [] => if fixed then none else some (digitVal c0, r0)
      | c1 :: r1 =>
        if !isDigit c1 then (if fixed then none else some (digitVal c0, r0))
        else some (digitVal c0 * 10 + digitVal c1, r1)

/-- Go `atoi` on text without a sign: all characters must be digits. -/
def atoiDigits : List Char → Nat → Option Nat
  | [], acc => some acc
  | c :: r, acc => if isDigit c then atoiDigits r (acc * 10 + digitVal c) else none

/-- Go `atoi`: an optional sign, then digits only. -/
def atoi : List Char → Option Int
  | '-' :: r => (atoiDigits r 0).map (fun n => -(n : Int))
  | '+' :: r => (atoiDigits r 0).map (fun n => (n : Int))
  | s => (atoiDigits s 0).map (fun n => (n : Int))

/-- Go `cutspace`: leading spaces removed. -/
def cutspace : List Char → List Char
  | ' ' :: r => cutspace r
  | s => s

/-- Go `skip(value, pfx)`: the literal text of the layout is removed from the
front of the value; a run of spaces in the layout matches any run of spaces,
also an empty one when the value has ended. `none` is `errBad`. The flag tells
that the preceding layout character was a space, whose whole run Go consumes
at once. -/
def skipAux : Bool → List Char → List Char → Option (List Char)
  | _, value, [] => some value
  | inSpaces, value, ' ' :: p =>
    if inSpaces then skipAux true value p
    else match value with
      | [] => skipAux true [] p
      | v :: vs => if v ≠ ' ' then none else skipAux true (cutspace (v :: vs)) p
  | _, value, c :: p =>
    match value with
    | [] => none
    | v :: vs => if v ≠ c then none else skipAux false vs p

/-- Go `skip`. -/
def skip (value pfx : List Char) : Option (List Char) := skipAux false value pfx

/-- The variables of `parse` that the layout elements assign. `month` and
`day` start unset (Go: `-1`). -/
structure ParseState where
  year : Nat := 0
  month : Option Nat := none
  day : Option Nat := none
  hour : Nat := 0
  min : Nat := 0
  sec : Nat := 0
  nsec : Nat := 0
  amSet : Bool := false
  pmSet : Bool := false
  deriving Repr, DecidableEq

/-- Go `commaOrPeriod`. -/
def commaOrPeriod (c : Char) : Bool := c = '.' || c = ','

/-- Go `parseNanoseconds(value, nbytes)`: `value` starts with the separator;
at most nine digits after it are read and scaled to nanoseconds. -/
def parseNanoseconds (value : List Char) (nbytes : Nat) : Option Nat :=
  match value with
  | [] => none
  | c :: _ =>
    if !commaOrPeriod c then none
    else
      let n := if nbytes > 10 then 10 else nbytes
      match atoiDigits ((value.take n).drop 1) 0 with
      | none => none
      | some ns => some (ns * 10 ^ (10 - n))

/-- The special case after a seconds field: a fractional second in the value
although the layout has none is read into `nsec`. -/
def fracSecond (value : List Char) (st : ParseState) : Option (ParseState × List Char) :=
  match value with
  | c :: d :: r =>
    if commaOrPeriod c && isDigit d then
      let n := 2 + (r.takeWhile isDigit).length
      match parseNanoseconds value n with
      | none => none
      | some ns => some ({ st with nsec := ns }, value.drop n)
    else some (st, value)
  | _ => some (st, value)

/-- One case of the `switch std & stdMask` of Go `parse`: the element reads
its field from the front of the value. `none` is a parse error (`errBad` or a
field out of range). -/
def parseStd (std : Std) (value : List Char) (st : ParseState) :
    Option (ParseState × List Char) :=
  match std with
  | .stdYear =>
    if value.length < 2 then none
    else match atoi (value.take 2) with
      | none => none
      | some y =>
        some ({ st with year := (if y ≥ 69 then y + 1900 else y + 2000).toNat }, value.drop 2)
  | .stdLongYear =>
    if value.length < 4 then none
    else match value with
      | c :: _ =>
        if !isDigit c then none
        else match atoiDigits (value.take 4) 0 with
          | none => none
          | some y => some ({ st with year := y }, value.drop 4)
      | [] => none
  | .stdNumMonth | .stdZeroMonth =>
    match getnum value (std == .stdZeroMonth) with
    | none => none
    | some (m, rest) => if m ≤ 0 ∨ 12 < m then none else some ({ st with month := some m }, rest)
  | .stdDay | .stdZeroDay =>
    match getnum value (std == .stdZeroDay) with
    | none => none
    | some (d, rest) => some ({ st with day := some d }, rest)
  | .stdHour =>
    match getnum value false with
    | none => none
    | some (h, rest) => if 24 ≤ h then none else some ({ st with hour := h }, rest)
  | .stdHour12 | .stdZeroHour12 =>
    match getnum value (std == .stdZeroHour12) with
    | none => none
    | some (h, rest) => if 12 < h then none else some ({ st with hour := h }, rest)
  | .stdMinute | .stdZeroMinute =>
    match getnum value (std == .stdZeroMinute) with
    | none => none
    | some (m, rest) => if 60 ≤ m then none else some ({ st with min := m }, rest)
  | .stdSecond | .stdZeroSecond =>
    match getnum value (std == .stdZeroSecond) with
    | none => none
    | some (sc, rest) =>
      if 60 ≤ sc then none else fracSecond rest { st with sec := sc }
  | .stdPM =>
    match value with
    | 'P' :: 'M' :: rest => some ({ st with pmSet := true }, rest)
    | 'A' :: 'M' :: rest => some ({ st with amSet := true }, rest)
    | _ => none

/-- The main loop of Go `parse`: literal text is skipped, then the next
element reads its field, until the layout holds no element, at which point
text left in the value is an error. The first argument bounds the number of
rounds; a layout of `n` characters needs at most `n + 1`. -/
def parseLoop : Nat → List Char → List Char → ParseState → Option ParseState
  | 0, _, _, _ => none
  | fuel + 1, layout, value, st =>
    match nextStdChunk layout with
    | (pfx, std, suffix) =>
      match skip value pfx with
      | none => none
      | some value1 =>
        match std with
        | none => if value1.length ≠ 0 then none else some st
        | some sd =>
          match parseStd sd value1 st with
          | none => none
          | some (st1, value2) => parseLoop fuel suffix value2 st1

/-- Go `isLeap`. -/
def isLeap (year : Nat) : Bool := year % 4 == 0 && (year % 100 != 0 || year % 400 == 0)

/-- Go `daysBefore`: the days of a non-leap year before the end of month `m`. -/
def daysBefore : List Nat := [0, 31, 59, 90, 120, 151, 181, 212, 243, 273, 304, 334, 365]

/-- Go `daysIn(m, year)`. -/
def daysIn (m year : Nat) : Nat :=
  if m = 2 ∧ isLeap year then 29 else daysBefore.getD m 0 - daysBefore.getD (m - 1) 0

/-- The end of Go `parse`, for a layout without zone elements: the hour is
adjusted for AM or PM, the day of the month is validated, and the fields are
handed to `Date` in `loc`. `none` is the "day out of range" error. -/
def dateOf (st : ParseState) (loc : TimeLocation) : Option GoTime :=
  let hour := if st.pmSet ∧ st.hour < 12 then st.hour + 12
              else if st.amSet ∧ st.hour = 12 then 0 else st.hour
  let month := st.month.getD 1
  let day := st.day.getD 1
  if day < 1 ∨ day > daysIn month st.year then none
  else some ⟨st.year, month, day, hour, st.min, st.sec, st.nsec, loc⟩

/-- Go `time.ParseInLocation(layout, value, loc)` for a layout without zone
elements. `none` is a parse error. -/
def ParseInLocation (layout value : String) (loc : TimeLocation) : Option GoTime :=
  match parseLoop (layout.data.length + 1) layout.data value.data {} with
  | none => none
  | some st => dateOf st loc

/-! ## Writing a timestamp in a layout (Go `Time.Format`) -/

/-- The decimal digit character of `n % 10`. -/
def digitChar (n : Nat) : Char := Char.ofNat (48 + n % 10)

/-- Go `appendInt(b, n, 2)` for `n < 100`: two digits, zero-padded. -/
def pad2 (n : Nat) : List Char := [digitChar (n / 10), digitChar n]

/-- Go `appendInt(b, n, 4)` for `n < 10000`: four digits, zero-padded. -/
def pad4 (n : Nat) : List Char :=
  [digitChar (n / 1000), digitChar (n / 100), digitChar (n / 10), digitChar n]

/-- Go `appendInt(b, n, 0)` for `n < 100`: one or two digits, no padding. -/
def unpadded (n : Nat) : List Char := if n < 10 then [digitChar n] else pad2 n

/-- The text Go `Time.Format` writes for one layout element. -/
def formatStd (t : GoTime) : Std → List Char
  | .stdLongYear => pad4 t.year
  | .stdYear => pad2 (t.year % 100)
  | .stdZeroMonth => pad2 t.month
  | .stdNumMonth => unpadded t.month
  | .stdZeroDay => pad2 t.day
  | .stdDay => unpadded t.day
  | .stdHour => pad2 t.hour
  | .stdHour12 => unpadded (if t.hour % 12 = 0 then 12 else t.hour % 12)
  | .stdZeroHour12 => pad2 (if t.hour % 12 = 0 then 12 else t.hour % 12)
  | .stdZeroMinute => pad2 t.min
  | .stdMinute => unpadded t.min
  | .stdZeroSecond => pad2 t.sec
  | .stdSecond => unpadded t.sec
  | .stdPM => if t.hour ≥ 12 then ['P', 'M'] else ['A', 'M']

/-- The loop of Go `Time.Format`: literal text is copied, each element is
written from the fields of `t`. The first argument bounds the number of
rounds, as in `parseLoop`. -/
def formatLoop : Nat → List Char → GoTime → List Char
  | 0, _, _ => []
  | fuel + 1, layout, t =>
    match nextStdChunk layout with
    | (pfx, none, _) => pfx
    | (pfx, some sd, suffix) => pfx ++ formatStd t sd ++ formatLoop fuel suffix t

/-- Go `t.Format(layout)` for a four-digit year and a layout without zone
elements: the text that writes the wall-clock instant `t` in that layout. -/
def Format (t : GoTime) (layout : String) : String :=
  ⟨formatLoop (layout.data.length + 1) layout.data t⟩

/-! ## The layouts of `stringToTime`, element by element -/

/-- The rounds of `parseLoop` for a layout given as its (literal, element)
pairs: each round skips the literal and lets the element read its field. -/
def parseElems : List (List Char × Std) → List Char → ParseState → Option (ParseState × List Char)
  | [], value, st => some (st, value)
  | (pfx, sd) :: rest, value, st =>
    match skip value pfx with
    | none => none
    | some v1 =>
      match parseStd sd v1 st with
      | none => none
      | some (st1, v2) => parseElems rest v2 st1

/-- The last round of `parseLoop` for a layout that ends with an element:
text left in the value is an error. -/
def parseEnd : Option (ParseState × List Char) → Option ParseState
  | none => none
  | some (st, value) => if value.length ≠ 0 then none else some st

/-- The (literal, element) pairs of a layout that ends with an element, read
off with `nextStdChunk`; `none` when the layout ends with literal text or the
bound on the rounds is too small. -/
def elemsOf : Nat → List Char → Option (List (List Char × Std))
  | 0, _ => none
  | fuel + 1, layout =>
    match nextStdChunk layout with
    | ([], none, _) => some []
    | (_ :: _, none, _) => none
    | (pfx, some sd, suffix) =>
      match elemsOf fuel suffix with
      | none => none
      | some rest => some ((pfx, sd) :: rest)

/-- The text `formatLoop` writes for a layout given as its pairs. -/
def formatElems (t : GoTime) : List (List Char × Std) → List Char
  | [] => []
  | (pfx, sd) :: rest => pfx ++ formatStd t sd ++ formatElems t rest

/-- The clock forms of the layouts: `15:04`, `3:04PM`, `15:04:05`, `3:04:05PM`. -/
inductive Clock where
  | c24 | c12 | c24s | c12s
  deriving Repr, DecidableEq

/-- The elements of the date part `2006?01?02` for the separator `sep`. -/
def dateElems (sep : Char) : List (List Char × Std) :=
  [([], .stdLongYear), ([sep], .stdZeroMonth), ([sep], .stdZeroDay)]

/-- The elements of the clock part, the space before it included. -/
def clockElems : Clock → List (List Char × Std)
  | .c24 => [([' '], .stdHour), ([':'], .stdZeroMinute)]
  | .c12 => [([' '], .stdHour12), ([':'], .stdZeroMinute), ([], .stdPM)]
  | .c24s => [([' '], .stdHour), ([':'], .stdZeroMinute), ([':'], .stdZeroSecond)]
  | .c12s => [([' '], .stdHour12), ([':'], .stdZeroMinute), ([':'], .stdZeroSecond), ([], .stdPM)]

/-- The layout with date separator `sep` and clock form `k`, as text. -/
def layoutOf (sep : Char) (k : Clock) : String :=
  ⟨['2', '0', '0', '6', sep, '0', '1', sep, '0', '2', ' '] ++
    (match k with
     | .c24 => "15:04".data
     | .c12 => "3:04PM".data
     | .c24s => "15:04:05".data
     | .c12s => "3:04:05PM".data)⟩

/-- The date part of a formatted timestamp. -/
def dateText (sep : Char) (t : GoTime) : List Char :=
  pad4 t.year ++ sep :: pad2 t.month ++ sep :: pad2 t.day

/-- The 12-hour clock reading of an hour. -/
def hour12 (h : Nat) : Nat := if h % 12 = 0 then 12 else h % 12

/-- The clock part of a formatted timestamp, the space before it included. -/
def clockText (t : GoTime) : Clock → List Char
  | .c24 => ' ' :: pad2 t.hour ++ ':' :: pad2 t.min
  | .c12 => ' ' :: unpadded (hour12 t.hour) ++ ':' :: pad2 t.min
      ++ (if t.hour ≥ 12 then ['P', 'M'] else ['A', 'M'])
  | .c24s => ' ' :: pad2 t.hour ++ ':' :: pad2 t.min ++ ':' :: pad2 t.sec
  | .c12s => ' ' :: unpadded (hour12 t.hour) ++ ':' :: pad2 t.min ++ ':' :: pad2 t.sec
      ++ (if t.hour ≥ 12 then ['P', 'M'] else ['A', 'M'])

/-! ## The event types (`types.go`) -/

/-- `xchedule.Time`: a time or a period. -/
structure Time where
  Start : GoTime
  End : GoTime
  Period : Bool
  deriving Repr, DecidableEq

/-- `xchedule.Location`. -/
structure Location where
  Name : String
  Address : String
  LatLng : String
  MapURL : String
  deriving Repr, DecidableEq

/-- `xchedule.Member`. -/
structure Member where
  Name : String
  deriving Repr, DecidableEq

/-- `xchedule.Alert`. -/
structure Alert where
  Times : Slice GoTime
  deriving Repr, DecidableEq

/-- `xchedule.Event`: the unit of schedule. -/
inductive Event where
  | mk (Title : String) (Time : Time) (Locations : Slice Location) (Members : Slice Member)
      (Schedule : Slice Event) (Alert : Alert) (Notes : Slice String) (root : Bool) : Event

namespace Event

/-- Field `Title`. -/
def Title : Event → String
  | mk t _ _ _ _ _ _ _ => t

/-- Field `Time`. -/
def Time : Event → Xchedule.Time
  | mk _ t _ _ _ _ _ _ => t

/-- Field `Locations`. -/
def Locations : Event → Slice Location
  | mk _ _ l _ _ _ _ _ => l

/-- Field `Members`. -/
def Members : Event → Slice Member
  | mk _ _ _ m _ _ _ _ => m

/-- Field `Schedule`. -/
def Schedule : Event → Slice Event
  | mk _ _ _ _ s _ _ _ => s

/-- Field `Alert`. -/
def Alert : Event → Xchedule.Alert
  | mk _ _ _ _ _ a _ _ => a

/-- Field `Notes`. -/
def Notes : Event → Slice String
  | mk _ _ _ _ _ _ n _ => n

/-- `SetRoot`: indicate root event or not. -/
def SetRoot : Event → Bool → Event
  | mk t tm l m s a n _, isRoot => mk t tm l m s a n isRoot

/-- `IsRoot`: true if this event is the root event. -/
def IsRoot : Event → Bool
  | mk _ _ _ _ _ _ _ r => r

end Event

/-! ## The builder (`parser/base.go`) -/

/-- Function `getTitle`: the title, fatal when it is empty. -/
def getTitle (ev : Viper) : Run String := do
  let s ← Run.call (.get "title") (ev.GetString "title")
  if s ≠ "" then pure s else Run.fatal "No title for event"

/-- Function `getTimezone`: the zone named by "timezone", `time.Local` when
the name is empty, fatal when the zone database rejects the name. -/
def getTimezone (w : World) (ev : Viper) : Run TimeLocation := do
  let tzname ← Run.call (.get "timezone") (ev.GetString "timezone")
  if tzname ≠ "" then
    match ← Run.call (.loadLocation tzname) (w.LoadLocation tzname) with
    | .error err => Run.fatal ("Invalid timezone name: " ++ tzname ++ " (" ++ err ++ ")\n")
    | .ok ttz => pure ttz
  else pure TimeLocation.Local

/-- The layouts of `stringToTime`, in the order of the source. -/
def timeFormat : List String :=
  [ "2006/01/02 15:04",
    "2006/01/02 3:04PM",
    "2006-01-02 15:04",
    "2006-01-02 3:04PM",
    "2006.01.02 15:04",
    "2006.01.02 3:04PM",
    "2006/01/02 15:04:05",
    "2006/01/02 3:04:05PM",
    "2006-01-02 15:04:05",
    "2006-01-02 3:04:05PM",
    "2006.01.02 15:04:05",
    "2006.01.02 3:04:05PM" ]

/-- The error `stringToTime` returns when no layout matches. -/
def cantParse (s : String) : String :=
  "Can\x27t parse <" ++ s ++ ">, valid format YYYY/mm/dd HH:MM:SS (digits are concerned).\n"

/-- The `for _, format := range timeFormat` loop of `stringToTime`: the first
layout that parses `s` decides; the error is returned when none is left. -/
def stringToTimeLoop (s : String) (tz : TimeLocation) : List String → Run (Except String GoTime)
  | [] => pure (.error (cantParse s))
  | format :: rest => do
    match ← Run.call (.parseInLocation format s tz) (ParseInLocation format s tz) with
    | some t => pure (.ok t)
    | none => stringToTimeLoop s tz rest

/-- Function `stringToTime`. -/
def stringToTime (w : World) (s : String) (ev : Viper) : Run (Except String GoTime) := do
  let tz ← getTimezone w ev
  let s := stringsTrim s " "
  stringToTimeLoop s tz timeFormat

/-- Function `getTime`. -/
def getTime (w : World) (ev : Viper) : Run Time := do
  let period := stringsSplit (← Run.call (.get "time") (ev.GetString "time")) '~'
  if 1 > period.length ∨ 2 < period.length ∨ (period.length = 1 ∧ period.getD 0 "" = "") then
    Run.fatal "Wrong time present, should be single \x27time.Time\x27 or \x27time.Time\x27 ~ time.Time\x27\n"
  else
    match ← stringToTime w (period.getD 0 "") ev with
    | .error err => Run.fatal ("Error while parsing event start time, err: <" ++ err ++ ">\n")
    | .ok start =>
      let t : Time := { Start := start, End := GoTime.zero, Period := false }
      if period.length = 1 then pure t
      else
        match ← stringToTime w (period.getD 1 "") ev with
        | .error err => Run.fatal ("Error while parsing event end time, err: <" ++ err ++ ">\n")
        | .ok end_ => pure { t with End := end_, Period := true }

/-- Function `getNotes`. -/
def getNotes (ev : Viper) : Run (Slice String) := do
  let notes ← Run.call (.get "notes") (ev.GetStringSlice "notes")
  if notes.len = 0 then pure (.items []) else pure notes

/-- Function `getMembers`. -/
def getMembers (ev : Viper) : Run (Slice Member) := do
  let rawMembers ← Run.call (.get "members") (ev.GetStringSlice "members")
  pure (Slice.appendAll (.items []) (rawMembers.toList.map (fun v => { Name := v })))

/-- The loop of `getAlerts` over the raw alert times. -/
def getAlertsLoop (w : World) (ev : Viper) : List String → Alert → Run Alert
  | [], alerts => pure alerts
  | v :: rest, alerts => do
    match ← stringToTime w v ev with
    | .error err => Run.fatal ("Error while parsing alert time, err: <" ++ err ++ ">\n")
    | .ok alertTime => getAlertsLoop w ev rest { Times := alerts.Times.append alertTime }

/-- Function `getAlerts`. -/
def getAlerts (w : World) (ev : Viper) : Run Alert := do
  let rawAlerts ← Run.call (.get "alerts") (ev.GetStringMapStringSlice "alerts")
  getAlertsLoop w ev ((lookupKey "time" rawAlerts).getD .null).toList { Times := .null }

/-- Function `getLocations`. -/
def getLocations (_ev : Viper) : Run (Slice Location) := pure (.items [])

/-- Go `filepath.Ext` on reversed text: `acc` holds the characters after the
position under inspection. -/
def extAux : List Char → List Char → List Char
  | [], _ => []
  | c :: before, acc =>
    if c = '/' then [] else if c = '.' then '.' :: acc else extAux before (c :: acc)

/-- Go `filepath.Ext(path)`: the suffix that starts at the last dot of the
last path element, empty when there is none. -/
def filepathExt (path : String) : String := ⟨extAux path.data.reverse []⟩

/-- The loop of `findEventConfig` over the directory entries. -/
def findEventConfigLoop (w : World) (pfx : String) : List String → Run (Except String Viper)
  | [] => pure (.error "Can\x27t find event config file")
  | name :: rest =>
    if stringsHasPrefix name pfx then
      if (filepathExt name).data.length < 1 then
        Run.panic "runtime error: slice bounds out of range [1:0]"
      else do
        let ext : String := ⟨(filepathExt name).data.drop 1⟩
        let ev := (Viper.New.SetConfigType ext).Set "configType" (.str ext)
        match ← Run.call (.readInConfig name) (w.ReadInConfig name ext) with
        | .error err => Run.fatal ("Fail to read event config: err:  " ++ err ++ "\n")
        | .ok doc => pure (.ok { ev with config := doc })
    else findEventConfigLoop w pfx rest

/-- Function `findEventConfig`. -/
def findEventConfig (w : World) (pfx : String) : Run (Except String Viper) := do
  match ← Run.call (.readDir w.workspace) (w.ReadDir w.workspace) with
  | .error err =>
    Run.fatal ("Fail to read event under dir: " ++ w.workspace ++ ", error: " ++ err ++ "\n")
  | .ok files => findEventConfigLoop w pfx files

/-- The source `getSchedule` builds for an inline entry: a new reader with
the parent's "configType" as declared format and the bindings of the nested
map assigned one by one, here in the order of the list (Go ranges over the map
in an unspecified order, which shows only when one key is a dotted path below
another). -/
def inlineSource (configType : String) (raw : List (String × Value)) : Viper :=
  raw.foldl (fun subEv kv => subEv.Set kv.1 kv.2) (Viper.New.SetConfigType configType)

/-- The body of the loop of `getSchedule` for one schedule entry `e`; `build`
is the recursive call `NewEvent`. The identifier comes from the document, so
`GetStringMap(e)` follows it as a path and can panic on a negative list index;
the other reads of this package use fixed keys without ".". -/
def scheduleEntry (build : Viper → Bool → Run Event) (w : World) (ev : Viper) (e : String) :
    Run Event := do
  let raw ← Run.callE (.get e) (ev.GetStringMapE e)
  if raw.length ≥ 1 then
    let configType ← Run.call (.get "configType") (ev.GetString "configType")
    build (inlineSource configType raw) false
  else
    match ← findEventConfig w e with
    | .ok subEv => build subEv false
    | .error _ => Run.fatal ("Can\x27t find event: " ++ e ++ "\n")

/-- The loop of `getSchedule`: each built child is appended to `events`. -/
def getScheduleLoop (build : Viper → Bool → Run Event) (w : World) (ev : Viper) :
    List String → Slice Event → Run (Slice Event)
  | [], events => pure events
  | e :: rest, events => do
    let child ← scheduleEntry build w ev e
    getScheduleLoop build w ev rest (events.append child)

/-- Function `getSchedule`; `build` is the recursive call `NewEvent`. -/
def getSchedule (build : Viper → Bool → Run Event) (w : World) (ev : Viper) :
    Run (Slice Event) := do
  let rawEvents ← Run.call (.get "schedule") (ev.GetStringSlice "schedule")
  getScheduleLoop build w ev rawEvents.toList (.items [])

/-- Function `NewEvent`. The first argument bounds the depth of the recursion
through `getSchedule`: a call that would go deeper ends as `outOfFuel`. The
fields are computed in the order of the struct literal. -/
def NewEvent : Nat → World → Viper → Bool → Run Event
  | 0, _, _, _ => ⟨.outOfFuel, []⟩
  | fuel + 1, w, ev0, isRoot => do
    let ev := ev0.Set "isRoot" (.bool isRoot)
    let title ← getTitle ev
    let time ← getTime w ev
    let locations ← getLocations ev
    let members ← getMembers ev
    let alert ← getAlerts w ev
    let notes ← getNotes ev
    let schedule ← getSchedule (NewEvent fuel w) w ev
    pure ((Event.mk title time locations members schedule alert notes false).SetRoot isRoot)

/-- Reachability through `Schedule`: `Descendant e d` when `d` is a child of
`e` or a descendant of one of its children. -/
inductive Descendant : Event → Event → Prop where
  | child {e c : Event} : c ∈ e.Schedule.toList → Descendant e c
  | deeper {e c d : Event} : c ∈ e.Schedule.toList → Descendant c d → Descendant e d

/-! ## The document and workspace of `base_test.go`, and small variations -/

/-- The document `singleEvent` of `base_test.go`, as loaded. -/
def singleEvent : List (String × Value) :=
  [ ("title", .str "Go to Japan"),
    ("timezone", .str "Asia/Taipei"),
    ("time", .str "2016-01-20 10:00 ~ 2016-01-21 11:03PM"),
    ("locations", .str "Japan"),
    ("members", .list [.str "Person A", .str "Slave", .str "Yang man", .str "Ohikiwa"]),
    ("schedule", .list [.str "event1", .str "event2", .str "event3", .str "event4"]),
    ("alerts", .map [("time", .list [.str "2016.01.19 10:00:00"])]),
    ("notes", .list [.str "OK"]),
    ("event1", .map [("title", .str "event1"), ("time", .str "2016-01-20 10:00")]),
    ("event2", .map [("title", .str "event2"), ("time", .str "2016-01-20 12:00")]),
    ("event3", .map [("title", .str "event3"), ("time", .str "2016-01-20 15:00")]) ]

/-- The root source of `TestNewEvent`: format "yaml", read from the buffer. -/
def testSource : Viper := ⟨"yaml", [], singleEvent⟩

/-- The file `event4.yaml` the test finds in its workspace. -/
def event4Doc : List (String × Value) :=
  [("title", .str "event4"), ("time", .str "2016-01-20 19:00")]

/-- The surroundings of `TestNewEvent`: the workspace is the package directory. -/
def testWorld : World where
  LoadLocation := fun n => if n = "Asia/Taipei" then .ok ⟨n⟩ else .error "unknown time zone"
  workspace := "/pwd"
  ReadDir := fun _ => .ok ["base.go", "base_test.go", "event4.yaml"]
  ReadInConfig := fun n _ => if n = "event4.yaml" then .ok event4Doc else .error "open: no such file"

/-- The workspace of the test with a file `event1.yaml` added, whose name
starts with an identifier that `singleEvent` also defines inline. -/
def shadowWorld : World where
  LoadLocation := fun n => if n = "Asia/Taipei" then .ok ⟨n⟩ else .error "unknown time zone"
  workspace := "/pwd"
  ReadDir := fun _ => .ok ["base.go", "base_test.go", "event1.yaml", "event4.yaml"]
  ReadInConfig := fun n _ =>
    if n = "event1.yaml" then .ok [("title", .str "from file"), ("time", .str "2016-01-20 11:00")]
    else if n = "event4.yaml" then .ok event4Doc else .error "open: no such file"

/-- Asia/Taipei. -/
def taipei : TimeLocation := ⟨"Asia/Taipei"⟩

/-- A source holding only a title and a time. -/
def plainSource (title time : String) : Viper :=
  ⟨"yaml", [], [("title", .str title), ("time", .str time)]⟩

/-- A source whose "timezone" names a zone the zone database does not know. -/
def badZoneSource : Viper :=
  ⟨"yaml", [],
    [ ("title", .str "trip"), ("timezone", .str "Nowhere/Zone"),
      ("time", .str "2016-01-20 10:00") ]⟩

/-- A source whose schedule names "event1", bound to an empty nested map. -/
def emptyInlineSource : Viper :=
  ⟨"yaml", [],
    [ ("title", .str "trip"), ("time", .str "2016-01-20 10:00"),
      ("schedule", .list [.str "event1"]),
      ("event1", .map []) ]⟩

/-- A source whose schedule lists an inline entry without a title, then an
entry that is defined nowhere. -/
def brokenChildSource : Viper :=
  ⟨"yaml", [],
    [ ("title", .str "trip"), ("time", .str "2016-01-20 10:00"),
      ("schedule", .list [.str "bad", .str "missing"]),
      ("bad", .map [("time", .str "2016-01-20 10:00")]) ]⟩

/-- A source whose schedule lists a complete inline entry, then an entry that
is defined nowhere. -/
def missingEntrySource : Viper :=
  ⟨"yaml", [],
    [ ("title", .str "trip"), ("time", .str "2016-01-20 10:00"),
      ("schedule", .list [.str "event1", .str "missing"]),
      ("event1", .map [("title", .str "event1"), ("time", .str "2016-01-20 10:00")]) ]⟩

/-- A workspace whose listing is empty. -/
def emptyWorld : World where
  LoadLocation := fun _ => .error "unknown time zone"
  workspace := "/ws"
  ReadDir := fun _ => .ok []
  ReadInConfig := fun _ _ => .error "open: no such file"

/-- The document of a file `loop.yaml` whose schedule names the file itself. -/
def loopDoc : List (String × Value) :=
  [ ("title", .str "loop"), ("time", .str "2016-01-20 10:00"),
    ("schedule", .list [.str "loop"]) ]

/-- A workspace that holds only `loop.yaml`. -/
def loopWorld : World where
  LoadLocation := fun _ => .error "unknown time zone"
  workspace := "/ws"
  ReadDir := fun _ => .ok ["loop.yaml"]
  ReadInConfig := fun n _ => if n = "loop.yaml" then .ok loopDoc else .error "open: no such file"

/-- The source `findEventConfig` returns for `loop.yaml`. -/
def loopSource : Viper := ⟨"yaml", [("configtype", .str "yaml")], loopDoc⟩

/-- A child event as `TestNewEvent` expects it: only a title and a start. -/
def leafEvent (title : String) (start : GoTime) : Event :=
  Event.mk title { Start := start, End := GoTime.zero, Period := false } (.items []) (.items [])
    (.items []) { Times := .null } (.items []) false

/-- The event `TestNewEvent` expects for `singleEvent`. -/
def expectedEvent : Event :=
  Event.mk "Go to Japan"
    { Start := ⟨2016, 1, 20, 10, 0, 0, 0, taipei⟩, End := ⟨2016, 1, 21, 23, 3, 0, 0, taipei⟩,
      Period := true }
    (.items [])
    (.items [⟨"Person A"⟩, ⟨"Slave"⟩, ⟨"Yang man"⟩, ⟨"Ohikiwa"⟩])
    (.items
      [ leafEvent "event1" ⟨2016, 1, 20, 10, 0, 0, 0, TimeLocation.Local⟩,
        leafEvent "event2" ⟨2016, 1, 20, 12, 0, 0, 0, TimeLocation.Local⟩,
        leafEvent "event3" ⟨2016, 1, 20, 15, 0, 0, 0, TimeLocation.Local⟩,
        leafEvent "event4" ⟨2016, 1, 20, 19, 0, 0, 0, TimeLocation.Local⟩ ])
    { Times := .items [⟨2016, 1, 19, 10, 0, 0, 0, taipei⟩] }
    (.items ["OK"])
    true

/-! ## Resolution of schedule entries -/

/-- The source a schedule identifier `e` resolves to in `getSchedule`: the
inline source when the nested map found at the path `e` is not empty, the
source that `findEventConfig` returns when the read of `e` returns no
binding. -/
def Resolves (w : World) (ev : Viper) (e : String) (sub : Viper) : Prop :=
  (1 ≤ (ev.GetStringMap e).length ∧
    sub = inlineSource (ev.GetString "configType") (ev.GetStringMap e)) ∨
  (ev.GetStringMapE e = .ok [] ∧ ∃ tr, findEventConfig w e = ⟨.ok (.ok sub), tr⟩)

/-- The calls of `NewEvent` below a call: `Reaches w fuel ev b fuel1 sub b1` when
`NewEvent fuel1 w sub b1` is the call `NewEvent fuel w ev b` itself or the call
for a schedule entry of it, at any depth. -/
inductive Reaches (w : World) : Nat → Viper → Bool → Nat → Viper → Bool → Prop where
  | self (fuel : Nat) (ev : Viper) (b : Bool) : Reaches w fuel ev b fuel ev b
  | entry {fuel : Nat} {ev : Viper} {b : Bool} {e : String} {sub : Viper}
      {fuel1 : Nat} {sub1 : Viper} {b1 : Bool} :
      e ∈ ((ev.Set "isRoot" (.bool b)).GetStringSlice "schedule").toList →
      Resolves w (ev.Set "isRoot" (.bool b)) e sub →
      Reaches w fuel sub false fuel1 sub1 b1 →
      Reaches w (fuel + 1) ev b fuel1 sub1 b1

/-- The raw texts `getAlerts` loops over: the slice under "time" of the map
under "alerts", the nil slice when either is missing. -/
def alertTexts (ev : Viper) : List String :=
  ((lookupKey "time" (ev.GetStringMapStringSlice "alerts")).getD .null).toList

/-! ## Workspaces and sources for file discovery -/

/-- A source whose schedule names "event1", which it does not define inline. -/
def fileEntrySource : Viper :=
  ⟨"yaml", [],
    [ ("title", .str "trip"), ("time", .str "2016-01-20 10:00"),
      ("schedule", .list [.str "event1"]) ]⟩

/-- A workspace that holds `event1-old.yaml` and `event1.yaml`, listed in the
order of `ioutil.ReadDir` (sorted by name). -/
def crowdedWorld : World where
  LoadLocation := fun _ => .error "unknown time zone"
  workspace := "/ws"
  ReadDir := fun _ => .ok ["event1-old.yaml", "event1.yaml"]
  ReadInConfig := fun n _ =>
    if n = "event1-old.yaml" then
      .ok [("title", .str "old draft"), ("time", .str "2015-12-01 09:00")]
    else if n = "event1.yaml" then
      .ok [("title", .str "event1"), ("time", .str "2016-01-20 10:00")]
    else .error "open: no such file"

/-- A source whose schedule names "days.one": the path of the map nested under
"days", key "one". -/
def nestedSource : Viper :=
  ⟨"yaml", [],
    [ ("title", .str "trip"), ("time", .str "2016-01-20 10:00"),
      ("schedule", .list [.str "days.one"]),
      ("days", .map
        [("one", .map [("title", .str "day one"), ("time", .str "2016-01-21 09:00")])]) ]⟩

/-- A workspace that holds a file `days.one.yaml`. -/
def nestedWorld : World where
  LoadLocation := fun _ => .error "unknown time zone"
  workspace := "/ws"
  ReadDir := fun _ => .ok ["days.one.yaml"]
  ReadInConfig := fun n _ =>
    if n = "days.one.yaml" then
      .ok [("title", .str "from file"), ("time", .str "2016-01-22 09:00")]
    else .error "open: no such file"

/-- A workspace whose only file `event1.yaml` is not a well-formed document. -/
def malformedWorld : World where
  LoadLocation := fun _ => .error "unknown time zone"
  workspace := "/ws"
  ReadDir := fun _ => .ok ["event1.yaml"]
  ReadInConfig := fun _ _ => .error "While parsing config: yaml: did not find expected key"

/-- A workspace that holds a directory `event1` next to the file `event1.yaml`,
listed in the order of `ioutil.ReadDir` (sorted by name). -/
def bareNameWorld : World where
  LoadLocation := fun _ => .error "unknown time zone"
  workspace := "/ws"
  ReadDir := fun _ => .ok ["event1", "event1.yaml"]
  ReadInConfig := fun n _ =>
    if n = "event1.yaml" then .ok [("title", .str "event1"), ("time", .str "2016-01-20 10:00")]
    else .error "read event1: is a directory"

/-! # Theorems -/


/-! ## Runs: basic facts -/

theorem Run.bind_eq {α β : Type} (m : Run α) (f : α → Run β) : (m >>= f) = Run.bind m f := rfl

theorem Run.pure_eq {α : Type} (a : α) : (pure a : Run α) = ⟨.ok a, []⟩ := rfl

theorem Run.bind_of_ok {α β : Type} (m : Run α) (f : α → Run β) (a : α)
    (h : m.outcome = .ok a) : Run.bind m f = ⟨(f a).outcome, m.trace ++ (f a).trace⟩ := by
  simp [Run.bind, h]

theorem Run.call_bind {α β : Type} (e : Effect) (a : α) (f : α → Run β) :
    Run.bind (Run.call e a) f = ⟨(f a).outcome, e :: (f a).trace⟩ := rfl

theorem Run.callE_ok {α : Type} (e : Effect) (a : α) : Run.callE e (.ok a) = Run.call e a := rfl

theorem Run.callE_error_bind {α β : Type} (e : Effect) (msg : String) (f : α → Run β) :
    Run.bind (Run.callE e (.error msg)) f = ⟨.panic msg, [e]⟩ := rfl

theorem Run.bind_outcome_of_ok {α β : Type} (m : Run α) (f : α → Run β) (a : α)
    (h : m.outcome = .ok a) : (Run.bind m f).outcome = (f a).outcome := by
  simp [Run.bind, h]

/-- The number of parts of a split is the number of separators plus one. -/
theorem splitChars_length (sep : Char) (cs : List Char) :
    (splitChars sep cs).length = cs.count sep + 1 := by
  induction cs with
  | nil => rfl
  | cons c cs ih =>
    simp only [splitChars]
    cases hs : splitChars sep cs with
    | nil => simp [hs] at ih
    | cons p ps =>
      rw [hs] at ih
      by_cases hc : c = sep
      · subst hc; simp at ih ⊢; omega
      · simp [hc] at ih ⊢
        rw [List.count_cons_of_ne (Ne.symm hc)]; omega

theorem lookupKey_eraseKey_ne {α : Type} (k k' : String) (h : k' ≠ k) (l : List (String × α)) :
    lookupKey k' (eraseKey k l) = lookupKey k' l := by
  induction l with
  | nil => rfl
  | cons kv l ih =>
    obtain ⟨a, v⟩ := kv
    by_cases ha : a = k
    · subst ha
      have : ¬ a = k' := fun h' => h h'.symm
      simp [eraseKey, lookupKey, this, ih]
    · by_cases hk : a = k'
      · subst hk; simp [eraseKey, lookupKey, ha]
      · simp [eraseKey, lookupKey, ha, hk, ih]

/-! ## The configuration reader: keys of one element -/

theorem toLower_toLower (c : Char) : c.toLower.toLower = c.toLower := by
  by_cases h : 65 ≤ c.toNat ∧ c.toNat ≤ 90
  · have hc : c = Char.ofNat c.toNat := (Char.ofNat_toNat c).symm
    obtain ⟨h1, h2⟩ := h
    generalize c.toNat = n at hc h1 h2
    subst hc
    interval_cases n <;> rfl
  · have hself : c.toLower = c := by
      unfold Char.toLower
      simp only [ge_iff_le, h, if_false]
    rw [hself, hself]

theorem lcase_lcase (s : String) : lcase (lcase s) = lcase s := by
  simp only [lcase, List.map_map]
  congr 1
  apply List.map_congr_left
  intro c _
  exact toLower_toLower c

theorem splitChars_single (sep : Char) (cs p : List Char) (h : splitChars sep cs = [p]) :
    p = cs ∧ sep ∉ cs := by
  induction cs generalizing p with
  | nil => simp [splitChars] at h; exact ⟨h, by simp⟩
  | cons c cs ih =>
    simp only [splitChars] at h
    cases hs : splitChars sep cs with
    | nil => 
      have := splitChars_length sep cs
      rw [hs] at this
      simp at this
    | cons q qs =>
      rw [hs] at h
      by_cases hc : c = sep
      · simp [hc] at h
      · simp only [hc, if_false, List.cons.injEq] at h
        obtain ⟨h1, h2⟩ := h
        subst h2
        obtain ⟨hq, hn⟩ := ih q hs
        subst hq
        exact ⟨h1.symm, by simp [hn, Ne.symm hc]⟩

theorem stringsSplit_single (s t : String) (h : stringsSplit s '.' = [t]) : t = s := by
  simp only [stringsSplit] at h
  cases hs : splitChars '.' s.data with
  | nil => rw [hs] at h; simp at h
  | cons p ps =>
    rw [hs] at h
    simp only [List.map_cons, List.cons.injEq, List.map_eq_nil_iff] at h
    obtain ⟨h1, h2⟩ := h
    subst h2
    have hp := (splitChars_single '.' s.data p hs).1
    rw [← h1, hp]

theorem stringsSplit_ne_nil (s : String) (sep : Char) : stringsSplit s sep ≠ [] := by
  intro h
  have hl := splitChars_length sep s.data
  simp only [stringsSplit, List.map_eq_nil_iff] at h
  rw [h] at hl
  simp at hl

theorem searchMap_head_congr (m m' : List (String × Value)) (k : String) (rest : List String)
    (h : lookupKey k m' = lookupKey k m) : searchMap m' (k :: rest) = searchMap m (k :: rest) := by
  cases rest with
  | nil => simp only [searchMap, h]
  | cons r rs => simp only [searchMap, h]

theorem shadowedFrom_head_congr (m m' : List (String × Value)) (k : String) (rest : List String)
    (h : lookupKey k m' = lookupKey k m) (is : List Nat) (his : ∀ i ∈ is, 1 ≤ i) :
    shadowedFrom (k :: rest) m' is = shadowedFrom (k :: rest) m is := by
  induction is with
  | nil => rfl
  | cons i is ih =>
    obtain ⟨j, rfl⟩ : ∃ j, i = j + 1 := ⟨i - 1, by have := his i (by simp); omega⟩
    simp only [shadowedFrom, List.take_succ_cons, searchMap_head_congr m m' k _ h]
    rw [ih (fun x hx => his x (by simp [hx]))]

theorem isPathShadowedInDeepMap_head_congr (m m' : List (String × Value)) (k : String)
    (rest : List String) (h : lookupKey k m' = lookupKey k m) :
    isPathShadowedInDeepMap (k :: rest) m' = isPathShadowedInDeepMap (k :: rest) m := by
  unfold isPathShadowedInDeepMap
  apply shadowedFrom_head_congr m m' k rest h
  intro i hi
  rw [List.mem_range'_1] at hi
  exact hi.1

/-- The search of a path of one element in a loaded document. -/
theorem searchIndexable_single (config : List (String × Value)) (lk : String)
    (hl : lcase lk = lk) :
    searchIndexableWithPathPrefixes 1 (.map config) [lk]
      = .ok ((lookupKey lk config).getD .null) := by
  have hi : String.intercalate "." [lk] = lk := rfl
  have hr : (List.range 1).reverse = [0] := rfl
  simp only [searchIndexableWithPathPrefixes, List.length_singleton, hr, List.map_cons,
    List.map_nil, Nat.zero_add, List.take_succ_cons, List.take_zero, hi, hl, if_true]
  cases h : lookupKey lk config with
  | none => rfl
  | some x => cases x <;> rfl

/-- The bound of `searchIndexableWithPathPrefixes` plays no part once it reaches
the length of the path. -/
theorem searchIndexable_fuel (n : Nat) :
    ∀ (m : Nat) (source : Value) (path : List String), path.length ≤ n → path.length ≤ m →
      searchIndexableWithPathPrefixes n source path
        = searchIndexableWithPathPrefixes m source path := by
  induction n with
  | zero =>
    intro m source path hn _
    cases path with
    | nil => cases m <;> rfl
    | cons p ps => simp at hn
  | succ n ih =>
    intro m source path hn hm
    cases path with
    | nil => cases m <;> rfl
    | cons p ps =>
      cases m with
      | zero => simp at hm
      | succ m =>
        simp only [searchIndexableWithPathPrefixes]
        congr 1
        apply List.map_congr_left
        intro j hj
        have hj2 : j < (p :: ps).length := by simpa using hj
        have hlen : ((p :: ps).drop (j + 1)).length ≤ n := by
          simp only [List.length_drop, List.length_cons] at hn ⊢
          omega
        have hlen2 : ((p :: ps).drop (j + 1)).length ≤ m := by
          simp only [List.length_drop, List.length_cons] at hm ⊢
          omega
        simp only [ih m _ _ hlen hlen2]

/-- A key without "." is looked up whole: in the assigned values, then in the
loaded document; its search never panics. -/
theorem Viper.find_plain (v : Viper) (lk : String) (h : stringsSplit lk '.' = [lk])
    (hl : lcase lk = lk) :
    v.find lk = .ok (match (lookupKey lk v.override).getD .null with
      | .null => (lookupKey lk v.config).getD .null
      | x => x) := by
  simp only [Viper.find, h, searchMap, List.length_singleton, searchIndexable_single _ lk hl]
  cases (lookupKey lk v.override).getD .null <;> simp

theorem Viper.Get_plain (v : Viper) (k : String) (h : stringsSplit (lcase k) '.' = [lcase k]) :
    v.Get k = match (lookupKey (lcase k) v.override).getD .null with
      | .null => (lookupKey (lcase k) v.config).getD .null
      | x => x := by
  simp only [Viper.Get, Viper.find_plain v (lcase k) h (lcase_lcase k)]

theorem Viper.GetStringMapE_plain (v : Viper) (k : String)
    (h : stringsSplit (lcase k) '.' = [lcase k]) :
    v.GetStringMapE k = .ok (v.GetStringMap k) := by
  simp only [Viper.GetStringMapE, Viper.GetStringMap, Viper.Get,
    Viper.find_plain v (lcase k) h (lcase_lcase k)]

/-- A map that `GetStringMap` gives is the map that the search returned. -/
theorem Viper.GetStringMapE_of_ne_nil (v : Viper) (e : String)
    (h : 1 ≤ (v.GetStringMap e).length) : v.GetStringMapE e = .ok (v.GetStringMap e) := by
  simp only [Viper.GetStringMapE, Viper.GetStringMap, Viper.Get] at h ⊢
  cases hf : v.find (lcase e) with
  | ok x => rfl
  | error msg => rw [hf] at h; simp [castToStringMap] at h

theorem Viper.GetStringMap_of_E (v : Viper) (e : String) (m : List (String × Value))
    (h : v.GetStringMapE e = .ok m) : v.GetStringMap e = m := by
  simp only [Viper.GetStringMapE, Viper.GetStringMap, Viper.Get] at h ⊢
  cases hf : v.find (lcase e) with
  | ok x => rw [hf] at h; simpa using h
  | error msg => rw [hf] at h; cases h

theorem Viper.Set_plain (v : Viper) (k : String) (x : Value)
    (h : stringsSplit (lcase k) '.' = [lcase k]) :
    v.Set k x =
      { v with override := (lcase k, insensitivise x) :: eraseKey (lcase k) v.override } := by
  simp only [Viper.Set, h, setPath]

theorem Viper.Set_isRoot (ev : Viper) (b : Bool) :
    ev.Set "isRoot" (.bool b) =
      { ev with override := ("isroot", .bool b) :: eraseKey "isroot" ev.override } := rfl

/-- Assigning "isRoot" does not change the search of a path that does not start
with it. -/
theorem Viper.find_setRoot_of_head_ne (ev : Viper) (b : Bool) (lk : String)
    (h : (stringsSplit lk '.').head? ≠ some "isroot") :
    (ev.Set "isRoot" (.bool b)).find lk = ev.find lk := by
  cases hp : stringsSplit lk '.' with
  | nil => exact absurd hp (stringsSplit_ne_nil lk '.')
  | cons k rest =>
    rw [hp] at h
    have hk : ¬ "isroot" = k := fun heq => h (by simp [heq])
    have hlook : lookupKey k (("isroot", Value.bool b) :: eraseKey "isroot" ev.override)
        = lookupKey k ev.override := by
      simp only [lookupKey, hk, if_false]
      exact lookupKey_eraseKey_ne "isroot" k (fun heq => hk heq.symm) _
    simp only [Viper.find, Viper.Set_isRoot, hp, searchMap_head_congr _ _ k rest hlook,
      isPathShadowedInDeepMap_head_congr _ _ k rest hlook]

/-- Under an assigned "isRoot", a path that starts with it finds the boolean or
nothing. -/
theorem Viper.find_setRoot_of_head (ev : Viper) (b : Bool) (lk : String)
    (h : (stringsSplit lk '.').head? = some "isroot") :
    (ev.Set "isRoot" (.bool b)).find lk = .ok (.bool b) ∨
      (ev.Set "isRoot" (.bool b)).find lk = .ok .null := by
  cases hp : stringsSplit lk '.' with
  | nil => exact absurd hp (stringsSplit_ne_nil lk '.')
  | cons k rest =>
    rw [hp] at h
    simp only [List.head?_cons, Option.some.injEq] at h
    subst h
    cases rest with
    | nil =>
      left
      simp [Viper.find, Viper.Set_isRoot, hp, searchMap, lookupKey]
    | cons r rs =>
      right
      have hsh : isPathShadowedInDeepMap ("isroot" :: r :: rs)
          (("isroot", Value.bool b) :: eraseKey "isroot" ev.override) = "isroot" := by
        simp only [isPathShadowedInDeepMap, List.length_cons, Nat.add_sub_cancel]
        rw [List.range'_succ]
        simp only [shadowedFrom, List.take_succ_cons, List.take_zero, searchMap, lookupKey,
          if_true, Option.getD_some]
        rfl
      simp only [Viper.find, Viper.Set_isRoot, hp, searchMap, lookupKey, if_true, hsh]
      simp

theorem GetStringMapE_setRoot_nil (ev : Viper) (b : Bool) (e : String)
    (h : ev.GetStringMapE e = .ok []) : (ev.Set "isRoot" (.bool b)).GetStringMapE e = .ok [] := by
  by_cases hh : (stringsSplit (lcase e) '.').head? = some "isroot"
  · rcases Viper.find_setRoot_of_head ev b (lcase e) hh with h1 | h1 <;>
      simp only [Viper.GetStringMapE, h1, castToStringMap]
  · simp only [Viper.GetStringMapE, Viper.find_setRoot_of_head_ne ev b (lcase e) hh] at h ⊢
    exact h

theorem Get_setRoot (ev : Viper) (b : Bool) (k : String)
    (h : stringsSplit (lcase k) '.' = [lcase k] ∧ lcase k ≠ lcase "isRoot") :
    (ev.Set "isRoot" (.bool b)).Get k = ev.Get k := by
  have hh : (stringsSplit (lcase k) '.').head? ≠ some "isroot" := by
    rw [h.1]
    simp only [List.head?_cons, ne_eq, Option.some.injEq]
    exact h.2
  simp only [Viper.Get, Viper.find_setRoot_of_head_ne ev b (lcase k) hh]

theorem GetString_setRoot (ev : Viper) (b : Bool) (k : String)
    (h : stringsSplit (lcase k) '.' = [lcase k] ∧ lcase k ≠ lcase "isRoot") :
    (ev.Set "isRoot" (.bool b)).GetString k = ev.GetString k := by
  simp only [Viper.GetString, Get_setRoot ev b k h]

theorem GetStringSlice_setRoot (ev : Viper) (b : Bool) (k : String)
    (h : stringsSplit (lcase k) '.' = [lcase k] ∧ lcase k ≠ lcase "isRoot") :
    (ev.Set "isRoot" (.bool b)).GetStringSlice k = ev.GetStringSlice k := by
  simp only [Viper.GetStringSlice, Get_setRoot ev b k h]

/-! ## The source of an inline entry -/

theorem lookupKey_setPath (k : String) (m : List (String × Value)) (p : List String) (x : Value)
    (hp : p ≠ [k]) :
    lookupKey k (setPath m p x) = lookupKey k m ∨
      ∃ kvs, lookupKey k (setPath m p x) = some (.map kvs) := by
  cases p with
  | nil => left; rfl
  | cons s rest =>
    by_cases hs : s = k
    · subst hs
      cases rest with
      | nil => exact absurd rfl hp
      | cons r rs =>
        right
        refine ⟨setPath (match lookupKey s m with
          | some (.map kvs) => kvs
          | _ => []) (r :: rs) x, ?_⟩
        simp [setPath, lookupKey]
    · left
      cases rest with
      | nil =>
        simp only [setPath, lookupKey, hs, if_false]
        exact lookupKey_eraseKey_ne s k (fun h => hs h.symm) m
      | cons r rs =>
        simp only [setPath, lookupKey, hs, if_false]
        exact lookupKey_eraseKey_ne s k (fun h => hs h.symm) m

/-- Over the bindings of a nested map that has no key `k`, the assignments of
`getSchedule` leave `k` unbound or bound to a map. -/
theorem foldl_Set_lookup (k : String) (raw : List (String × Value))
    (hno : ∀ kv ∈ raw, lcase kv.1 ≠ lcase k) :
    ∀ acc : Viper, acc.config = [] →
      (lookupKey (lcase k) acc.override = none ∨
        ∃ kvs, lookupKey (lcase k) acc.override = some (.map kvs)) →
      (raw.foldl (fun subEv kv => subEv.Set kv.1 kv.2) acc).config = [] ∧
      (lookupKey (lcase k) (raw.foldl (fun subEv kv => subEv.Set kv.1 kv.2) acc).override = none ∨
        ∃ kvs, lookupKey (lcase k)
          (raw.foldl (fun subEv kv => subEv.Set kv.1 kv.2) acc).override = some (.map kvs)) := by
  induction raw with
  | nil => intro acc h1 h2; exact ⟨h1, h2⟩
  | cons kv raw ih =>
    intro acc h1 h2
    simp only [List.foldl_cons]
    refine ih (fun x hx => hno x (by simp [hx])) (acc.Set kv.1 kv.2) h1 ?_
    have hp : stringsSplit (lcase kv.1) '.' ≠ [lcase k] := fun heq =>
      hno kv (by simp) (stringsSplit_single _ _ heq).symm
    rcases lookupKey_setPath (lcase k) acc.override _ (insensitivise kv.2) hp with h | ⟨kvs, h⟩
    · simp only [Viper.Set, h]
      exact h2
    · exact Or.inr ⟨kvs, h⟩

/-- A key without "." that the nested map does not bind reads as the empty text
in the source of the inline entry. -/
theorem inlineSource_GetString_empty (ct k : String) (raw : List (String × Value))
    (hk : stringsSplit (lcase k) '.' = [lcase k])
    (hno : ∀ kv ∈ raw, lcase kv.1 ≠ lcase k) : (inlineSource ct raw).GetString k = "" := by
  obtain ⟨hc, ho⟩ := foldl_Set_lookup k raw hno (Viper.New.SetConfigType ct) rfl (Or.inl rfl)
  simp only [Viper.GetString, Viper.Get_plain _ k hk]
  change (inlineSource ct raw).config = [] at hc
  change lookupKey (lcase k) (inlineSource ct raw).override = none ∨
    ∃ kvs, lookupKey (lcase k) (inlineSource ct raw).override = some (.map kvs) at ho
  rcases ho with h | ⟨kvs, h⟩
  · simp [h, hc, lookupKey, castToString]
  · simp [h, castToString]

theorem Run.bind_ok_inv {α β : Type} (m : Run α) (f : α → Run β) (b : β)
    (h : (Run.bind m f).outcome = .ok b) : ∃ a, m.outcome = .ok a ∧ (f a).outcome = .ok b := by
  unfold Run.bind at h
  cases hm : m.outcome with
  | ok a => rw [hm] at h; exact ⟨a, rfl, h⟩
  | fatal msg => rw [hm] at h; cases h
  | panic msg => rw [hm] at h; cases h
  | outOfFuel => rw [hm] at h; cases h

theorem Run.bind_not_ok {α β : Type} (m : Run α) (f : α → Run β)
    (h : ∀ a, m.outcome ≠ .ok a) : ∀ b, (Run.bind m f).outcome ≠ .ok b := by
  intro b hb
  obtain ⟨a, ha, _⟩ := Run.bind_ok_inv m f b hb
  exact h a ha

/-- A successful `NewEvent` is the struct literal of its successfully read fields. -/
theorem NewEvent_ok_inv (fuel : Nat) (w : World) (ev : Viper) (isRoot : Bool) (e : Event)
    (h : (NewEvent (fuel + 1) w ev isRoot).outcome = .ok e) :
    ∃ title time members alert notes schedule,
      (getTitle (ev.Set "isRoot" (.bool isRoot))).outcome = .ok title ∧
      (getTime w (ev.Set "isRoot" (.bool isRoot))).outcome = .ok time ∧
      (getMembers (ev.Set "isRoot" (.bool isRoot))).outcome = .ok members ∧
      (getAlerts w (ev.Set "isRoot" (.bool isRoot))).outcome = .ok alert ∧
      (getNotes (ev.Set "isRoot" (.bool isRoot))).outcome = .ok notes ∧
      (getSchedule (NewEvent fuel w) w (ev.Set "isRoot" (.bool isRoot))).outcome = .ok schedule ∧
      e = Event.mk title time (.items []) members schedule alert notes isRoot := by
  simp only [NewEvent, Run.bind_eq] at h
  obtain ⟨title, h1, h⟩ := Run.bind_ok_inv _ _ _ h
  obtain ⟨time, h2, h⟩ := Run.bind_ok_inv _ _ _ h
  obtain ⟨locs, h3, h⟩ := Run.bind_ok_inv _ _ _ h
  obtain ⟨members, h4, h⟩ := Run.bind_ok_inv _ _ _ h
  obtain ⟨alert, h5, h⟩ := Run.bind_ok_inv _ _ _ h
  obtain ⟨notes, h6, h⟩ := Run.bind_ok_inv _ _ _ h
  obtain ⟨schedule, h7, h⟩ := Run.bind_ok_inv _ _ _ h
  simp only [getLocations, Run.pure_eq, Outcome.ok.injEq] at h3
  subst h3
  simp only [Run.pure_eq, Outcome.ok.injEq, Event.SetRoot] at h
  exact ⟨title, time, members, alert, notes, schedule, h1, h2, h4, h5, h6, h7, h.symm⟩

theorem getTitle_eq (ev : Viper) :
    getTitle ev = if ev.GetString "title" ≠ "" then ⟨.ok (ev.GetString "title"), [.get "title"]⟩
      else ⟨.fatal "No title for event", [.get "title"]⟩ := by
  simp only [getTitle, Run.bind_eq, Run.call_bind]
  split <;> rfl

theorem findEventConfigLoop_no_match (w : World) (pfx : String) (files : List String)
    (h : ∀ f ∈ files, stringsHasPrefix f pfx = false) :
    findEventConfigLoop w pfx files = ⟨.ok (.error "Can\x27t find event config file"), []⟩ := by
  induction files with
  | nil => rfl
  | cons f files ih =>
    have hf : stringsHasPrefix f pfx = false := h f (by simp)
    simp only [findEventConfigLoop, hf]
    exact ih (fun g hg => h g (by simp [hg]))

theorem findEventConfig_no_match (w : World) (pfx : String) (files : List String)
    (hdir : w.ReadDir w.workspace = .ok files)
    (h : ∀ f ∈ files, stringsHasPrefix f pfx = false) :
    findEventConfig w pfx =
      ⟨.ok (.error "Can\x27t find event config file"), [.readDir w.workspace]⟩ := by
  simp only [findEventConfig, Run.bind_eq, Run.call_bind, hdir,
    findEventConfigLoop_no_match w pfx files h]

/-- The loop body of `getSchedule` for an identifier with a non-empty nested
map. -/
theorem scheduleEntry_inline (build : Viper → Bool → Run Event) (w : World) (ev : Viper)
    (e : String) (h : 1 ≤ (ev.GetStringMap e).length) :
    scheduleEntry build w ev e =
      ⟨(build (inlineSource (ev.GetString "configType") (ev.GetStringMap e)) false).outcome,
        [.get e, .get "configType"] ++
          (build (inlineSource (ev.GetString "configType") (ev.GetStringMap e)) false).trace⟩ := by
  simp only [scheduleEntry, Run.bind_eq, Viper.GetStringMapE_of_ne_nil ev e h, Run.callE_ok,
    Run.call_bind]
  simp [h]

theorem scheduleEntry_unresolved (build : Viper → Bool → Run Event) (w : World) (ev : Viper)
    (e : String) (files : List String) (hmap : ev.GetStringMapE e = .ok [])
    (hdir : w.ReadDir w.workspace = .ok files)
    (h : ∀ f ∈ files, stringsHasPrefix f e = false) :
    scheduleEntry build w ev e =
      ⟨.fatal ("Can\x27t find event: " ++ e ++ "\n"), [.get e, .readDir w.workspace]⟩ := by
  simp only [scheduleEntry, Run.bind_eq, hmap, Run.callE_ok, Run.call_bind,
    findEventConfig_no_match w e files hdir h]
  rfl

theorem getScheduleLoop_append_not_ok (build : Viper → Bool → Run Event) (w : World) (ev : Viper)
    (e : String) (files : List String) (hmap : ev.GetStringMapE e = .ok [])
    (hdir : w.ReadDir w.workspace = .ok files)
    (h : ∀ f ∈ files, stringsHasPrefix f e = false) (pre post : List String) :
    ∀ events s, (getScheduleLoop build w ev (pre ++ e :: post) events).outcome ≠ .ok s := by
  induction pre with
  | nil =>
    intro events s
    simp [getScheduleLoop, Run.bind_eq, scheduleEntry_unresolved build w ev e files hmap hdir h,
      Run.bind]
  | cons x pre ih =>
    intro events s hs
    simp only [List.cons_append, getScheduleLoop, Run.bind_eq] at hs
    obtain ⟨c, _, hc⟩ := Run.bind_ok_inv _ _ _ hs
    exact ih _ _ hc

theorem getScheduleLoop_append_fatal (build : Viper → Bool → Run Event) (w : World) (ev : Viper)
    (e : String) (files : List String) (hmap : ev.GetStringMapE e = .ok [])
    (hdir : w.ReadDir w.workspace = .ok files)
    (h : ∀ f ∈ files, stringsHasPrefix f e = false) (pre post : List String)
    (hpre : ∀ x ∈ pre, ∃ c, (scheduleEntry build w ev x).outcome = .ok c) :
    ∀ events, (getScheduleLoop build w ev (pre ++ e :: post) events).outcome
      = .fatal ("Can\x27t find event: " ++ e ++ "\n") := by
  induction pre with
  | nil =>
    intro events
    simp [getScheduleLoop, Run.bind_eq, scheduleEntry_unresolved build w ev e files hmap hdir h,
      Run.bind]
  | cons x pre ih =>
    intro events
    obtain ⟨c, hc⟩ := hpre x (by simp)
    simp only [List.cons_append, getScheduleLoop, Run.bind_eq]
    rw [Run.bind_outcome_of_ok _ _ c hc]
    exact ih (fun y hy => hpre y (by simp [hy])) _

/-- A schedule entry that resolves is the result of the recursive call, with
`isRoot` false, on some source. -/
theorem scheduleEntry_ok_inv (build : Viper → Bool → Run Event) (w : World) (ev : Viper)
    (e : String) (c : Event) (h : (scheduleEntry build w ev e).outcome = .ok c) :
    ∃ sub, (build sub false).outcome = .ok c := by
  simp only [scheduleEntry, Run.bind_eq] at h
  cases hm : ev.GetStringMapE e with
  | error msg =>
    rw [hm, Run.callE_error_bind] at h
    cases h
  | ok m =>
    rw [hm] at h
    simp only [Run.callE_ok, Run.call_bind] at h
    by_cases hraw : m.length ≥ 1
    · simp only [hraw, if_true] at h
      exact ⟨_, h⟩
    · simp only [hraw, if_false] at h
      obtain ⟨r, _, hr⟩ := Run.bind_ok_inv _ _ _ h
      cases r with
      | ok sub => exact ⟨sub, hr⟩
      | error err => simp [Run.fatal] at hr

theorem getScheduleLoop_ok_inv (build : Viper → Bool → Run Event) (w : World) (ev : Viper)
    (ids : List String) :
    ∀ events s, (getScheduleLoop build w ev ids events).outcome = .ok s →
      (events.isNil = false → s.isNil = false) ∧
      ∀ c ∈ s.toList, c ∈ events.toList ∨ ∃ sub, (build sub false).outcome = .ok c := by
  induction ids with
  | nil =>
    intro events s h
    simp only [getScheduleLoop, Run.pure_eq, Outcome.ok.injEq] at h
    subst h
    exact ⟨id, fun c hc => Or.inl hc⟩
  | cons e ids ih =>
    intro events s h
    simp only [getScheduleLoop, Run.bind_eq] at h
    obtain ⟨child, hchild, hrest⟩ := Run.bind_ok_inv _ _ _ h
    obtain ⟨hnil, hmem⟩ := ih _ _ hrest
    refine ⟨fun _ => hnil rfl, fun c hc => ?_⟩
    rcases hmem c hc with hin | hbuilt
    · simp only [Slice.append, Slice.toList, List.mem_append, List.mem_singleton] at hin
      rcases hin with hin | rfl
      · exact Or.inl hin
      · exact Or.inr (scheduleEntry_ok_inv build w ev e c hchild)
    · exact Or.inr hbuilt

theorem getSchedule_ok_inv (build : Viper → Bool → Run Event) (w : World) (ev : Viper)
    (s : Slice Event) (h : (getSchedule build w ev).outcome = .ok s) :
    s.isNil = false ∧ ∀ c ∈ s.toList, ∃ sub, (build sub false).outcome = .ok c := by
  simp only [getSchedule, Run.bind_eq, Run.call_bind] at h
  obtain ⟨hnil, hmem⟩ := getScheduleLoop_ok_inv build w ev _ _ s h
  refine ⟨hnil rfl, fun c hc => ?_⟩
  rcases hmem c hc with hin | hb
  · simp [Slice.toList] at hin
  · exact hb

/-- Every descendant of a built event was itself built by `NewEvent` with
`isRoot` false. -/
theorem descendant_built (w : World) :
    ∀ fuel ev b e, (NewEvent fuel w ev b).outcome = .ok e →
      ∀ d, Descendant e d → ∃ fuel1 sub, (NewEvent fuel1 w sub false).outcome = .ok d := by
  intro fuel
  induction fuel with
  | zero => intro ev b e h; simp [NewEvent] at h
  | succ fuel ih =>
    intro ev b e h d hd
    obtain ⟨title, time, members, alert, notes, schedule, _, _, _, _, _, h7, rfl⟩ :=
      NewEvent_ok_inv fuel w ev b e h
    obtain ⟨_, hmem⟩ := getSchedule_ok_inv _ w _ schedule h7
    cases hd with
    | child hc =>
      obtain ⟨sub, hsub⟩ := hmem d hc
      exact ⟨fuel, sub, hsub⟩
    | deeper hc hcd =>
      obtain ⟨sub, hsub⟩ := hmem _ hc
      exact ih sub false _ hsub d hcd

theorem NewEvent_isRoot (fuel : Nat) (w : World) (ev : Viper) (b : Bool) (e : Event)
    (h : (NewEvent fuel w ev b).outcome = .ok e) : e.IsRoot = b := by
  cases fuel with
  | zero => simp [NewEvent] at h
  | succ fuel =>
    obtain ⟨_, _, _, _, _, _, _, _, _, _, _, _, rfl⟩ := NewEvent_ok_inv fuel w ev b e h
    rfl

theorem Slice.appendAll_isNil {α : Type} (xs : List α) :
    ∀ s : Slice α, s.isNil = false → (Slice.appendAll s xs).isNil = false := by
  induction xs with
  | nil => intro s h; exact h
  | cons x xs ih => intro s _; exact ih _ rfl

theorem getMembers_eq (ev : Viper) :
    getMembers ev = ⟨.ok (Slice.appendAll (.items [])
      ((ev.GetStringSlice "members").toList.map (fun v => { Name := v }))), [.get "members"]⟩ := rfl

theorem getNotes_eq (ev : Viper) :
    getNotes ev = ⟨.ok (if (ev.GetStringSlice "notes").len = 0 then .items []
      else ev.GetStringSlice "notes"), [.get "notes"]⟩ := by
  simp only [getNotes, Run.bind_eq, Run.call_bind, Run.pure_eq]
  split <;> rfl

/-- The sequence fields of a built event: never nil, and empty when the key
is not bound in the source. -/
theorem NewEvent_sequences (fuel : Nat) (w : World) (ev : Viper) (b : Bool) (e : Event)
    (h : (NewEvent fuel w ev b).outcome = .ok e) :
    (e.Members.isNil = false ∧ e.Notes.isNil = false ∧ e.Locations.isNil = false ∧
      e.Schedule.isNil = false) ∧
    (ev.Get "members" = .null → e.Members = .items []) ∧
    (ev.Get "notes" = .null → e.Notes = .items []) ∧
    e.Locations = .items [] ∧
    (ev.Get "schedule" = .null → e.Schedule = .items []) := by
  cases fuel with
  | zero => simp [NewEvent] at h
  | succ fuel =>
    obtain ⟨title, time, members, alert, notes, schedule, _, _, h4, _, h6, h7, rfl⟩ :=
      NewEvent_ok_inv fuel w ev b e h
    rw [getMembers_eq] at h4
    rw [getNotes_eq] at h6
    simp only [Outcome.ok.injEq] at h4 h6
    subst h4 h6
    have hs := (getSchedule_ok_inv _ w _ schedule h7).1
    refine ⟨⟨?_, ?_, rfl, hs⟩, ?_, ?_, rfl, ?_⟩
    · exact Slice.appendAll_isNil _ _ rfl
    · simp only [Event.Notes]
      split
      · rfl
      · rename_i hne
        cases hn : (ev.Set "isRoot" (.bool b)).GetStringSlice "notes" with
        | null => simp [hn, Slice.len, Slice.toList] at hne
        | items xs => rfl
    · intro hm
      simp [Event.Members, Viper.GetStringSlice, Get_setRoot ev b "members" (by decide), hm,
        castToStringSlice, Slice.toList, Slice.appendAll]
    · intro hm
      simp [Event.Notes, Viper.GetStringSlice, Get_setRoot ev b "notes" (by decide), hm,
        castToStringSlice, Slice.len, Slice.toList]
    · intro hm
      simp only [getSchedule, Run.bind_eq, Run.call_bind, Viper.GetStringSlice,
        Get_setRoot ev b "schedule" (by decide), hm, castToStringSlice, Slice.toList,
        getScheduleLoop, Run.pure_eq, Outcome.ok.injEq] at h7
      simp [Event.Schedule, ← h7]

theorem stringToTimeLoop_first (s : String) (tz : TimeLocation) (f : String) (post : List String)
    (t : GoTime) (hf : ParseInLocation f s tz = some t) :
    ∀ pre : List String, (∀ g ∈ pre, ParseInLocation g s tz = none) →
      stringToTimeLoop s tz (pre ++ f :: post) =
        ⟨.ok (.ok t), (pre ++ [f]).map (fun g => .parseInLocation g s tz)⟩ := by
  intro pre
  induction pre with
  | nil =>
    intro _
    simp only [List.nil_append, stringToTimeLoop, Run.bind_eq, Run.call_bind, hf]
    rfl
  | cons g pre ih =>
    intro hpre
    have hg : ParseInLocation g s tz = none := hpre g (by simp)
    have ih1 := ih (fun x hx => hpre x (by simp [hx]))
    simp only [List.cons_append, stringToTimeLoop, Run.bind_eq, Run.call_bind, hg,
      List.append_eq]
    rw [ih1]
    rfl

theorem stringToTimeLoop_error_iff (s : String) (tz : TimeLocation) (fs : List String) :
    (∃ t, (stringToTimeLoop s tz fs).outcome = .ok (.ok t)) ∨
      (stringToTimeLoop s tz fs).outcome = .ok (.error (cantParse s)) ∧
        ∀ f ∈ fs, ParseInLocation f s tz = none := by
  induction fs with
  | nil => right; exact ⟨rfl, by simp⟩
  | cons f fs ih =>
    simp only [stringToTimeLoop, Run.bind_eq, Run.call_bind]
    cases hf : ParseInLocation f s tz with
    | some t => left; exact ⟨t, rfl⟩
    | none =>
      rcases ih with ⟨t, ht⟩ | ⟨he, hall⟩
      · left; exact ⟨t, ht⟩
      · right
        refine ⟨he, fun g hg => ?_⟩
        rcases List.mem_cons.mp hg with rfl | hg
        · exact hf
        · exact hall g hg

theorem stringToTime_eq (w : World) (s : String) (ev : Viper) (tz : TimeLocation)
    (trz : List Effect) (htz : getTimezone w ev = ⟨.ok tz, trz⟩) :
    stringToTime w s ev =
      ⟨(stringToTimeLoop (stringsTrim s " ") tz timeFormat).outcome,
        trz ++ (stringToTimeLoop (stringsTrim s " ") tz timeFormat).trace⟩ := by
  simp only [stringToTime, Run.bind_eq, htz]
  rfl

theorem timeFormat_eq : timeFormat =
    [ layoutOf '/' .c24, layoutOf '/' .c12, layoutOf '-' .c24, layoutOf '-' .c12,
      layoutOf '.' .c24, layoutOf '.' .c12, layoutOf '/' .c24s, layoutOf '/' .c12s,
      layoutOf '-' .c24s, layoutOf '-' .c12s, layoutOf '.' .c24s, layoutOf '.' .c12s ] := by
  decide

theorem parseLoop_eq_parseElems (fuel : Nat) :
    ∀ layout elems value st, elemsOf fuel layout = some elems →
      parseLoop fuel layout value st = parseEnd (parseElems elems value st) := by
  induction fuel with
  | zero => intro layout elems value st h; simp [elemsOf] at h
  | succ fuel ih =>
    intro layout elems value st h
    simp only [elemsOf] at h
    simp only [parseLoop]
    rcases hc : nextStdChunk layout with ⟨pfx, std, suffix⟩
    rw [hc] at h
    cases std with
    | none =>
      cases pfx with
      | nil =>
        simp only [Option.some.injEq] at h
        subst h
        simp [skip, skipAux, parseElems, parseEnd]
      | cons c p => simp at h
    | some sd =>
      simp only at h
      cases he : elemsOf fuel suffix with
      | none => rw [he] at h; simp at h
      | some rest =>
        rw [he] at h
        simp only [Option.some.injEq] at h
        subst h
        simp only [parseElems]
        cases hs : skip value pfx with
        | none => simp [parseEnd]
        | some v1 =>
          simp only
          cases hp : parseStd sd v1 st with
          | none => simp [parseEnd]
          | some r =>
            obtain ⟨st1, v2⟩ := r
            simp only
            exact ih suffix rest v2 st1 he

theorem formatLoop_eq_formatElems (fuel : Nat) :
    ∀ layout elems t, elemsOf fuel layout = some elems →
      formatLoop fuel layout t = formatElems t elems := by
  induction fuel with
  | zero => intro layout elems t h; simp [elemsOf] at h
  | succ fuel ih =>
    intro layout elems t h
    simp only [elemsOf] at h
    simp only [formatLoop]
    rcases hc : nextStdChunk layout with ⟨pfx, std, suffix⟩
    rw [hc] at h
    cases std with
    | none =>
      cases pfx with
      | nil =>
        simp only [Option.some.injEq] at h
        subst h
        simp [formatElems]
      | cons c p => simp at h
    | some sd =>
      simp only at h
      cases he : elemsOf fuel suffix with
      | none => rw [he] at h; simp at h
      | some rest =>
        rw [he] at h
        simp only [Option.some.injEq] at h
        subst h
        simp only [formatElems]
        rw [ih suffix rest t he]

theorem elemsOf_layoutOf (sep : Char) (hsep : sep = '/' ∨ sep = '-' ∨ sep = '.') (k : Clock) :
    elemsOf ((layoutOf sep k).data.length + 1) (layoutOf sep k).data
      = some (dateElems sep ++ clockElems k) := by
  rcases hsep with rfl | rfl | rfl <;> cases k <;> rfl

theorem ParseInLocation_layoutOf (sep : Char) (hsep : sep = '/' ∨ sep = '-' ∨ sep = '.')
    (k : Clock) (value : String) (loc : TimeLocation) :
    ParseInLocation (layoutOf sep k) value loc =
      match parseEnd (parseElems (dateElems sep ++ clockElems k) value.data {}) with
      | none => none
      | some st => dateOf st loc := by
  simp only [ParseInLocation, parseLoop_eq_parseElems _ _ _ _ _ (elemsOf_layoutOf sep hsep k)]

theorem formatElems_append (t : GoTime) (xs ys : List (List Char × Std)) :
    formatElems t (xs ++ ys) = formatElems t xs ++ formatElems t ys := by
  induction xs with
  | nil => rfl
  | cons x xs ih => obtain ⟨p, sd⟩ := x; simp [formatElems, ih]

theorem Format_layoutOf (sep : Char) (hsep : sep = '/' ∨ sep = '-' ∨ sep = '.')
    (k : Clock) (t : GoTime) :
    Format t (layoutOf sep k) = ⟨dateText sep t ++ clockText t k⟩ := by
  simp only [Format, formatLoop_eq_formatElems _ _ _ t (elemsOf_layoutOf sep hsep k),
    formatElems_append]
  congr 1
  cases k <;> simp [formatElems, dateElems, clockElems, formatStd, dateText, clockText, hour12]

/-! ### Digits -/

theorem digit_facts : ∀ k, k < 10 →
    isDigit (Char.ofNat (48 + k)) = true ∧ digitVal (Char.ofNat (48 + k)) = k ∧
    Char.ofNat (48 + k) ≠ ' ' ∧ Char.ofNat (48 + k) ≠ '/' ∧ Char.ofNat (48 + k) ≠ '-' ∧
    Char.ofNat (48 + k) ≠ '.' ∧ Char.ofNat (48 + k) ≠ ':' := by
  decide

theorem isDigit_digitChar (n : Nat) : isDigit (digitChar n) = true :=
  (digit_facts (n % 10) (Nat.mod_lt _ (by decide))).1

theorem digitVal_digitChar (n : Nat) : digitVal (digitChar n) = n % 10 :=
  (digit_facts (n % 10) (Nat.mod_lt _ (by decide))).2.1

theorem ne_of_isDigit {c d : Char} (hc : isDigit c = true) (hd : isDigit d = false) : c ≠ d := by
  rintro rfl; rw [hc] at hd; cases hd

theorem digitChar_ne (n : Nat) (c : Char) (hc : isDigit c = false) : digitChar n ≠ c :=
  ne_of_isDigit (isDigit_digitChar n) hc

theorem cutspace_of_ne (c : Char) (r : List Char) (h : c ≠ ' ') : cutspace (c :: r) = c :: r := by
  unfold cutspace
  split
  · rename_i heq; simp at heq; exact absurd heq.1 h
  · rfl

theorem getnum_two (a b : Nat) (r : List Char) (fixed : Bool) :
    getnum (digitChar a :: digitChar b :: r) fixed = some (a % 10 * 10 + b % 10, r) := by
  simp [getnum, isDigit_digitChar, digitVal_digitChar]

theorem getnum_one (a : Nat) (c : Char) (r : List Char) (hc : isDigit c = false) :
    getnum (digitChar a :: c :: r) false = some (a % 10, c :: r) := by
  simp [getnum, isDigit_digitChar, digitVal_digitChar, hc]

theorem getnum_pad2 (n : Nat) (hn : n < 100) (r : List Char) (fixed : Bool) :
    getnum (pad2 n ++ r) fixed = some (n, r) := by
  simp only [pad2, List.cons_append, List.nil_append, getnum_two]
  congr 2; omega

theorem getnum_unpadded (n : Nat) (hn : n < 100) (c : Char) (r : List Char)
    (hc : isDigit c = false) : getnum (unpadded n ++ c :: r) false = some (n, c :: r) := by
  unfold unpadded
  split
  · rename_i h
    simp only [List.cons_append, List.nil_append, getnum_one _ _ _ hc]
    congr 2; omega
  · exact getnum_pad2 n hn _ _

theorem atoiDigits_pad4 (n : Nat) (hn : n < 10000) : atoiDigits (pad4 n) 0 = some n := by
  simp only [pad4, atoiDigits, isDigit_digitChar, digitVal_digitChar, if_true]
  congr 1; omega

/-! ### Elements reading the fields that `formatStd` wrote -/

theorem parseStd_longYear (y : Nat) (hy : y < 10000) (r : List Char) (st : ParseState) :
    parseStd .stdLongYear (pad4 y ++ r) st = some ({ st with year := y }, r) := by
  have h4 : (pad4 y ++ r).take 4 = pad4 y := by simp [pad4]
  have hd : (pad4 y ++ r).drop 4 = r := by simp [pad4]
  have hl : ¬ (pad4 y ++ r).length < 4 := by simp [pad4]
  simp only [parseStd, hl, if_false, h4, hd, atoiDigits_pad4 y hy]
  simp [pad4, isDigit_digitChar]

theorem parseStd_zeroMonth (m : Nat) (h1 : 1 ≤ m) (h12 : m ≤ 12) (r : List Char)
    (st : ParseState) :
    parseStd .stdZeroMonth (pad2 m ++ r) st = some ({ st with month := some m }, r) := by
  have h0 : ¬ m = 0 := by omega
  simp [parseStd, getnum_pad2 m (by omega), h0, h12]

theorem parseStd_zeroDay (d : Nat) (hd : d < 100) (r : List Char) (st : ParseState) :
    parseStd .stdZeroDay (pad2 d ++ r) st = some ({ st with day := some d }, r) := by
  simp [parseStd, getnum_pad2 d hd]

theorem parseStd_hour (h : Nat) (hh : h < 24) (r : List Char) (st : ParseState) :
    parseStd .stdHour (pad2 h ++ r) st = some ({ st with hour := h }, r) := by
  have : ¬ 24 ≤ h := by omega
  simp [parseStd, getnum_pad2 h (by omega), this]

theorem parseStd_zeroMinute (m : Nat) (hm : m < 60) (r : List Char) (st : ParseState) :
    parseStd .stdZeroMinute (pad2 m ++ r) st = some ({ st with min := m }, r) := by
  have : ¬ 60 ≤ m := by omega
  simp [parseStd, getnum_pad2 m (by omega), this]

theorem parseStd_hour12 (h : Nat) (hh : h ≤ 12) (c : Char) (r : List Char)
    (hc : isDigit c = false) (st : ParseState) :
    parseStd .stdHour12 (unpadded h ++ c :: r) st = some ({ st with hour := h }, c :: r) := by
  have : ¬ 12 < h := by omega
  have hb : (Std.stdHour12 == Std.stdZeroHour12) = false := by decide
  simp [parseStd, hb, getnum_unpadded h (by omega) c r hc, this]

theorem hour12_le (h : Nat) : hour12 h ≤ 12 := by
  unfold hour12; split <;> omega

theorem parseElems_append (xs ys : List (List Char × Std)) :
    ∀ value st, parseElems (xs ++ ys) value st =
      match parseElems xs value st with
      | none => none
      | some (st1, v1) => parseElems ys v1 st1 := by
  induction xs with
  | nil => intro value st; rfl
  | cons x xs ih =>
    intro value st
    obtain ⟨p, sd⟩ := x
    simp only [List.cons_append, parseElems]
    cases skip value p with
    | none => rfl
    | some v1 =>
      simp only
      cases parseStd sd v1 st with
      | none => rfl
      | some r => obtain ⟨st1, v2⟩ := r; exact ih v2 st1

theorem skip_nil (value : List Char) : skip value [] = some value := by
  cases value <;> rfl

theorem skip_sep (sep : Char) (hsep : sep = '/' ∨ sep = '-' ∨ sep = '.' ∨ sep = ':')
    (c : Char) (r : List Char) :
    skip (c :: r) [sep] = if c = sep then some r else none := by
  rcases hsep with rfl | rfl | rfl | rfl <;>
  · simp only [skip, skipAux]
    split <;> simp_all

theorem skip_sep_nil (sep : Char) (hsep : sep = '/' ∨ sep = '-' ∨ sep = '.' ∨ sep = ':') :
    skip [] [sep] = none := by
  rcases hsep with rfl | rfl | rfl | rfl <;> rfl

theorem skip_space_digit (n : Nat) (r : List Char) :
    skip (' ' :: digitChar n :: r) [' '] = some (digitChar n :: r) := by
  have h : digitChar n ≠ ' ' := digitChar_ne n ' ' (by decide)
  simp [skip, skipAux, cutspace, cutspace_of_ne _ _ h]

/-- The state after the date elements. -/
theorem parseElems_date (sep : Char) (hsep : sep = '/' ∨ sep = '-' ∨ sep = '.') (t : GoTime)
    (hy : t.year < 10000) (hm1 : 1 ≤ t.month) (hm : t.month ≤ 12) (hd : t.day < 100)
    (r : List Char) (st : ParseState) :
    parseElems (dateElems sep) (dateText sep t ++ r) st =
      some ({ st with year := t.year, month := some t.month, day := some t.day }, r) := by
  have hsep' : sep = '/' ∨ sep = '-' ∨ sep = '.' ∨ sep = ':' := by
    rcases hsep with h | h | h <;> simp [h]
  simp only [dateElems, dateText, parseElems, skip_nil, List.append_assoc, List.cons_append,
    parseStd_longYear t.year hy, skip_sep sep hsep', if_true,
    parseStd_zeroMonth t.month hm1 hm, parseStd_zeroDay t.day hd]

theorem parseElems_date_mismatch (sep sep1 : Char) (hsep : sep1 = '/' ∨ sep1 = '-' ∨ sep1 = '.')
    (hne : sep ≠ sep1) (t : GoTime) (hy : t.year < 10000)
    (r : List Char) (st : ParseState) :
    parseElems (dateElems sep1) (dateText sep t ++ r) st = none := by
  have hsep' : sep1 = '/' ∨ sep1 = '-' ∨ sep1 = '.' ∨ sep1 = ':' := by
    rcases hsep with h | h | h <;> simp [h]
  simp only [dateElems, dateText, parseElems, skip_nil, List.append_assoc, List.cons_append,
    parseStd_longYear t.year hy, skip_sep sep1 hsep', if_neg hne]

theorem skip_space_pad2 (n : Nat) (r : List Char) :
    skip (' ' :: (pad2 n ++ r)) [' '] = some (pad2 n ++ r) := by
  simp only [pad2, List.cons_append, List.nil_append, skip_space_digit]

theorem skip_space_unpadded (n : Nat) (r : List Char) :
    skip (' ' :: (unpadded n ++ r)) [' '] = some (unpadded n ++ r) := by
  unfold unpadded
  split
  · simp only [List.cons_append, List.nil_append, skip_space_digit]
  · exact skip_space_pad2 n r

theorem parseStd_zeroSecond_end (s : Nat) (hs : s < 60) (r : List Char)
    (hr : r = [] ∨ r = ['P', 'M'] ∨ r = ['A', 'M']) (st : ParseState) :
    parseStd .stdZeroSecond (pad2 s ++ r) st = some ({ st with sec := s }, r) := by
  have : ¬ 60 ≤ s := by omega
  have h0 := getnum_pad2 s (by omega) [] true
  rw [List.append_nil] at h0
  rcases hr with rfl | rfl | rfl <;>
    simp [parseStd, getnum_pad2 s (by omega), h0, this, fracSecond, commaOrPeriod]

theorem dateOf_valid (st : ParseState) (t : GoTime) (loc : TimeLocation)
    (hd1 : 1 ≤ t.day) (hd : t.day ≤ daysIn t.month t.year)
    (hyear : st.year = t.year) (hmonth : st.month = some t.month) (hday : st.day = some t.day)
    (hmin : st.min = t.min) (hsec : st.sec = t.sec) (hnsec : st.nsec = t.nsec)
    (hhour : (if st.pmSet = true ∧ st.hour < 12 then st.hour + 12
      else if st.amSet = true ∧ st.hour = 12 then 0 else st.hour) = t.hour) :
    dateOf st loc = some { t with loc := loc } := by
  have h : ¬ (t.day < 1 ∨ t.day > daysIn t.month t.year) := by omega
  simp only [dateOf, hyear, hmonth, hday, hmin, hsec, hnsec, Option.getD_some, h, if_false, hhour]

theorem hour12_adjust : ∀ h, h < 24 →
    (if decide (h ≥ 12) = true ∧ hour12 h < 12 then hour12 h + 12
      else if decide (h ≥ 12) = false ∧ hour12 h = 12 then 0 else hour12 h) = h := by
  decide

theorem daysIn_le (m y : Nat) : daysIn m y ≤ 31 := by
  unfold daysIn
  split
  · omega
  · by_cases hm : m ≤ 12
    · interval_cases m <;> simp [daysBefore]
    · have : daysBefore.getD m 0 = 0 := by
        simp [daysBefore, List.getD]
        rw [List.getElem?_eq_none] <;> simp; omega
      omega

theorem parseStd_PM (st : ParseState) :
    parseStd .stdPM ['P', 'M'] st = some ({ st with pmSet := true }, []) := rfl

theorem parseStd_AM (st : ParseState) :
    parseStd .stdPM ['A', 'M'] st = some ({ st with amSet := true }, []) := rfl

/-- What the clock elements `k1` make of the clock text written in form `k`. -/
theorem parse_clock_own (k : Clock) (t : GoTime) (hh : t.hour < 24) (hmin : t.min < 60)
    (hs : t.sec = 0) (st : ParseState) :
    parseEnd (parseElems (clockElems k) (clockText t k) st) =
      match k with
      | .c24 => some { st with hour := t.hour, min := t.min }
      | .c12 => some { st with hour := hour12 t.hour, min := t.min,
                               pmSet := if t.hour ≥ 12 then true else st.pmSet,
                               amSet := if t.hour ≥ 12 then st.amSet else true }
      | .c24s => some { st with hour := t.hour, min := t.min, sec := 0 }
      | .c12s => some { st with hour := hour12 t.hour, min := t.min, sec := 0,
                                pmSet := if t.hour ≥ 12 then true else st.pmSet,
                                amSet := if t.hour ≥ 12 then st.amSet else true } := by
  have hc : isDigit ':' = false := by decide
  have hcolon : ':' = '/' ∨ ':' = '-' ∨ ':' = '.' ∨ ':' = ':' := by simp
  have hm0 := parseStd_zeroMinute t.min hmin []
  rw [List.append_nil] at hm0
  cases k
  · simp [clockElems, clockText, parseElems, skip_space_pad2, parseStd_hour t.hour hh,
      skip_sep ':' hcolon, hm0, parseEnd]
  · by_cases hpm : t.hour ≥ 12
    · simp [clockElems, clockText, parseElems, skip_space_unpadded, hpm,
        parseStd_hour12 _ (hour12_le t.hour) ':' _ hc, skip_sep ':' hcolon,
        parseStd_zeroMinute t.min hmin, skip_nil, parseStd_PM, parseStd_AM, parseEnd]
    · simp [clockElems, clockText, parseElems, skip_space_unpadded, hpm,
        parseStd_hour12 _ (hour12_le t.hour) ':' _ hc, skip_sep ':' hcolon,
        parseStd_zeroMinute t.min hmin, skip_nil, parseStd_PM, parseStd_AM, parseEnd]
  · have hs0 := parseStd_zeroSecond_end 0 (by decide) [] (by simp)
    rw [List.append_nil] at hs0
    simp [clockElems, clockText, parseElems, skip_space_pad2, parseStd_hour t.hour hh,
      skip_sep ':' hcolon, parseStd_zeroMinute t.min hmin, hs, hs0, parseEnd]
  · by_cases hpm : t.hour ≥ 12
    · simp [clockElems, clockText, parseElems, skip_space_unpadded, hpm,
        parseStd_hour12 _ (hour12_le t.hour) ':' _ hc, skip_sep ':' hcolon,
        parseStd_zeroMinute t.min hmin, hs,
        parseStd_zeroSecond_end 0 (by decide) ['P', 'M'] (by simp), skip_nil, parseStd_PM, parseStd_AM, parseEnd]
    · simp [clockElems, clockText, parseElems, skip_space_unpadded, hpm,
        parseStd_hour12 _ (hour12_le t.hour) ':' _ hc, skip_sep ':' hcolon,
        parseStd_zeroMinute t.min hmin, hs,
        parseStd_zeroSecond_end 0 (by decide) ['A', 'M'] (by simp), skip_nil, parseStd_PM, parseStd_AM, parseEnd]

theorem parseStd_hour_unpadded (h : Nat) (hh : h ≤ 12) (r : List Char) (st : ParseState) :
    parseStd .stdHour (unpadded h ++ ':' :: r) st = some ({ st with hour := h }, ':' :: r) := by
  have : ¬ 24 ≤ h := by omega
  simp [parseStd, getnum_unpadded h (by omega) ':' r (by decide), this]

theorem parseStd_hour12_pad2 (h : Nat) (hh : h < 24) (r : List Char) (st : ParseState) :
    parseStd .stdHour12 (pad2 h ++ r) st =
      if 12 < h then none else some ({ st with hour := h }, r) := by
  have hb : (Std.stdHour12 == Std.stdZeroHour12) = false := by decide
  simp [parseStd, hb, getnum_pad2 h (by omega)]

theorem parseStd_PM_nil (st : ParseState) : parseStd .stdPM [] st = none := rfl

theorem parseStd_PM_colon (r : List Char) (st : ParseState) :
    parseStd .stdPM (':' :: r) st = none := by
  simp [parseStd]

theorem parse_clock_other (k k1 : Clock) (hk : k1 ≠ k) (t : GoTime) (hh : t.hour < 24)
    (hmin : t.min < 60) (hs : t.sec = 0) (st : ParseState) :
    parseEnd (parseElems (clockElems k1) (clockText t k) st) = none := by
  have hc : isDigit ':' = false := by decide
  have hcolon : ':' = '/' ∨ ':' = '-' ∨ ':' = '.' ∨ ':' = ':' := by simp
  have hm0 := parseStd_zeroMinute t.min hmin []
  rw [List.append_nil] at hm0
  have hs0 := parseStd_zeroSecond_end 0 (by decide) [] (by simp)
  rw [List.append_nil] at hs0
  have hsP := parseStd_zeroSecond_end 0 (by decide) ['P', 'M'] (by simp)
  have hsA := parseStd_zeroSecond_end 0 (by decide) ['A', 'M'] (by simp)
  have h12 := hour12_le t.hour
  cases k <;> cases k1 <;> first
    | exact absurd rfl hk
    | (by_cases hpm : t.hour ≥ 12 <;> by_cases hgt : 12 < t.hour <;>
        simp [clockElems, clockText, parseElems, skip_space_pad2, skip_space_unpadded, hpm, hgt,
          parseStd_hour t.hour hh, parseStd_hour12_pad2 t.hour hh,
          parseStd_hour12 _ h12 ':' _ hc, parseStd_hour_unpadded _ h12,
          skip_sep ':' hcolon, skip_sep_nil ':' hcolon, parseStd_zeroMinute t.min hmin, hm0, hs,
          hs0, hsP, hsA, skip_nil, parseStd_PM, parseStd_AM, parseStd_PM_nil, parseStd_PM_colon,
          parseEnd])

theorem dropWhile_eq_self {p : Char → Bool} (l : List Char)
    (h : ∀ a ∈ l.head?, p a = false) : l.dropWhile p = l := by
  cases l with
  | nil => rfl
  | cons a r => simp [List.dropWhile, h a (by simp)]

theorem stringsTrim_eq_self (l : List Char) (h1 : ∀ a ∈ l.head?, a ≠ ' ')
    (h2 : ∀ z ∈ l.getLast?, z ≠ ' ') : stringsTrim ⟨l⟩ " " = ⟨l⟩ := by
  have hp : ∀ c : Char, c ≠ ' ' → (" ".data.contains c) = false := by
    intro c hc
    have hb : (c == ' ') = false := by simpa using hc
    simp [List.contains, List.elem, hb]
  unfold stringsTrim
  simp only
  rw [dropWhile_eq_self l (fun a ha => hp a (h1 a ha))]
  rw [dropWhile_eq_self l.reverse (fun a ha => hp a (h2 a (by simpa using ha)))]
  simp

theorem clockText_getLast (t : GoTime) (k : Clock) :
    ∃ z, (clockText t k).getLast? = some z ∧ z ≠ ' ' := by
  have hd : ∀ n, digitChar n ≠ ' ' := fun n => digitChar_ne n ' ' (by decide)
  cases k
  · exact ⟨digitChar t.min, by simp [clockText, pad2, List.getLast?_append], hd _⟩
  · by_cases hpm : t.hour ≥ 12
    · exact ⟨'M', by simp only [clockText, unpadded]; split <;> simp [pad2, List.getLast?_append, hpm], by decide⟩
    · exact ⟨'M', by simp only [clockText, unpadded]; split <;> simp [pad2, List.getLast?_append, hpm], by decide⟩
  · exact ⟨digitChar t.sec, by simp [clockText, pad2, List.getLast?_append], hd _⟩
  · by_cases hpm : t.hour ≥ 12
    · exact ⟨'M', by simp only [clockText, unpadded]; split <;> simp [pad2, List.getLast?_append, hpm], by decide⟩
    · exact ⟨'M', by simp only [clockText, unpadded]; split <;> simp [pad2, List.getLast?_append, hpm], by decide⟩

theorem stringsTrim_text (sep : Char) (t : GoTime) (k : Clock) :
    stringsTrim ⟨dateText sep t ++ clockText t k⟩ " " = ⟨dateText sep t ++ clockText t k⟩ := by
  apply stringsTrim_eq_self
  · intro a ha
    simp [dateText, pad4] at ha
    subst ha
    exact digitChar_ne _ ' ' (by decide)
  · intro z hz
    obtain ⟨z1, hz1, hne⟩ := clockText_getLast t k
    rw [List.getLast?_append, hz1] at hz
    simp at hz
    subst hz
    exact hne

/-- What a layout of `stringToTime` makes of the text written in another one:
only the layout the text was written in parses it. -/
theorem ParseInLocation_text (sep sep1 : Char) (hsep : sep = '/' ∨ sep = '-' ∨ sep = '.')
    (hsep1 : sep1 = '/' ∨ sep1 = '-' ∨ sep1 = '.') (k k1 : Clock) (t : GoTime)
    (hy : t.year < 10000) (hm1 : 1 ≤ t.month) (hm : t.month ≤ 12) (hd1 : 1 ≤ t.day)
    (hd : t.day ≤ daysIn t.month t.year) (hh : t.hour < 24) (hmin : t.min < 60)
    (hs : t.sec = 0) (hns : t.nsec = 0) (loc : TimeLocation) :
    ParseInLocation (layoutOf sep1 k1) ⟨dateText sep t ++ clockText t k⟩ loc =
      if sep1 = sep ∧ k1 = k then some { t with loc := loc } else none := by
  have hd100 : t.day < 100 := by have := daysIn_le t.month t.year; omega
  rw [ParseInLocation_layoutOf sep1 hsep1, parseElems_append]
  by_cases hse : sep1 = sep
  · subst hse
    rw [parseElems_date sep1 hsep t hy hm1 hm hd100]
    simp only
    by_cases hk : k1 = k
    · subst hk
      rw [parse_clock_own k1 t hh hmin hs]
      simp only [true_and, if_true]
      have hadj := hour12_adjust t.hour hh
      cases k1
      · exact dateOf_valid _ t loc hd1 hd rfl rfl rfl rfl hs.symm hns.symm (by simp)
      · exact dateOf_valid _ t loc hd1 hd rfl rfl rfl rfl hs.symm hns.symm (by
          by_cases hpm : t.hour ≥ 12 <;> simp [hpm] at hadj ⊢ <;> exact hadj)
      · exact dateOf_valid _ t loc hd1 hd rfl rfl rfl rfl hs.symm hns.symm (by simp)
      · exact dateOf_valid _ t loc hd1 hd rfl rfl rfl rfl hs.symm hns.symm (by
          by_cases hpm : t.hour ≥ 12 <;> simp [hpm] at hadj ⊢ <;> exact hadj)
    · rw [parse_clock_other k k1 hk t hh hmin hs]
      simp [hk]
  · rw [parseElems_date_mismatch sep sep1 hsep1 (Ne.symm hse) t hy]
    simp [hse, parseEnd]

theorem stringToTimeLoop_agree (s : String) (tz : TimeLocation) (t : GoTime) (fs : List String)
    (hall : ∀ g ∈ fs, ParseInLocation g s tz = some t ∨ ParseInLocation g s tz = none)
    (hex : ∃ f ∈ fs, ParseInLocation f s tz = some t) :
    (stringToTimeLoop s tz fs).outcome = .ok (.ok t) := by
  induction fs with
  | nil => obtain ⟨f, hf, _⟩ := hex; cases hf
  | cons g fs ih =>
    simp only [stringToTimeLoop, Run.bind_eq, Run.call_bind]
    rcases hall g (by simp) with hg | hg
    · rw [hg]; rfl
    · rw [hg]
      apply ih (fun x hx => hall x (by simp [hx]))
      obtain ⟨f, hf, hft⟩ := hex
      rcases List.mem_cons.mp hf with rfl | hf
      · rw [hg] at hft; cases hft
      · exact ⟨f, hf, hft⟩

theorem mem_timeFormat (layout : String) (h : layout ∈ timeFormat) :
    ∃ sep k, (sep = '/' ∨ sep = '-' ∨ sep = '.') ∧ layout = layoutOf sep k := by
  rw [timeFormat_eq] at h
  simp only [List.mem_cons, List.mem_singleton, List.not_mem_nil, or_false] at h
  rcases h with h | h | h | h | h | h | h | h | h | h | h | h <;>
    exact ⟨_, _, by simp, h⟩

theorem scheduleEntry_file (build : Viper → Bool → Run Event) (w : World) (ev : Viper)
    (e : String) (sub : Viper) (tr : List Effect) (hmap : ev.GetStringMapE e = .ok [])
    (hfind : findEventConfig w e = ⟨.ok (.ok sub), tr⟩) :
    scheduleEntry build w ev e = ⟨(build sub false).outcome, .get e :: (tr ++ (build sub false).trace)⟩ := by
  simp only [scheduleEntry, Run.bind_eq, hmap, Run.callE_ok, Run.call_bind, hfind]
  simp [Run.bind]

theorem stringToTimeLoop_none (s : String) (tz : TimeLocation) (fs : List String)
    (hfs : ∀ f ∈ fs, ParseInLocation f s tz = none) :
    ∀ t, (stringToTimeLoop s tz fs).outcome ≠ .ok (.ok t) := by
  induction fs with
  | nil => intro t h; cases h
  | cons f fs ih =>
    intro t h
    simp only [stringToTimeLoop, Run.bind_eq, Run.call_bind, hfs f (by simp)] at h
    exact ih (fun g hg => hfs g (by simp [hg])) t h

/-- The outcome of `NewEvent` once title, time and alerts have been read: that
of `getSchedule` followed by the struct literal. -/
theorem NewEvent_outcome_of_fields (fuel : Nat) (w : World) (ev : Viper) (b : Bool)
    (t : String) (tm : Time) (a : Alert)
    (ht : (getTitle (ev.Set "isRoot" (.bool b))).outcome = .ok t)
    (htm : (getTime w (ev.Set "isRoot" (.bool b))).outcome = .ok tm)
    (ha : (getAlerts w (ev.Set "isRoot" (.bool b))).outcome = .ok a) :
    (NewEvent (fuel + 1) w ev b).outcome =
      (Run.bind (getSchedule (NewEvent fuel w) w (ev.Set "isRoot" (.bool b)))
        (fun schedule => Run.ret (Event.mk t tm (.items [])
          (Slice.appendAll (.items [])
            (((ev.Set "isRoot" (.bool b)).GetStringSlice "members").toList.map
              (fun v => { Name := v })))
          schedule a
          (if ((ev.Set "isRoot" (.bool b)).GetStringSlice "notes").len = 0 then .items []
            else (ev.Set "isRoot" (.bool b)).GetStringSlice "notes") b))).outcome := by
  simp only [NewEvent, Run.bind_eq]
  rw [Run.bind_outcome_of_ok _ _ t ht, Run.bind_outcome_of_ok _ _ tm htm]
  simp only [getLocations, Run.pure_eq]
  rw [Run.bind_outcome_of_ok _ _ _ rfl, getMembers_eq, Run.bind_outcome_of_ok _ _ _ rfl,
    Run.bind_outcome_of_ok _ _ a ha, getNotes_eq, Run.bind_outcome_of_ok _ _ _ rfl]
  rfl

/-- A file whose schedule starts with the identifier that resolves to the file
itself: every call of `NewEvent` on its source is still descending when the
recursion bound is reached, whatever the bound. -/
theorem NewEvent_self_reference (w : World) (fs : Viper) (e : String) (rest : List String)
    (tr : List Effect)
    (hfind : findEventConfig w e = ⟨.ok (.ok fs), tr⟩)
    (hsched : (fs.GetStringSlice "schedule").toList = e :: rest)
    (hmap : fs.GetStringMapE e = .ok [])
    (htitle : ∀ b, ∃ t, (getTitle (fs.Set "isRoot" (.bool b))).outcome = .ok t)
    (htime : ∀ b, ∃ t, (getTime w (fs.Set "isRoot" (.bool b))).outcome = .ok t)
    (halerts : ∀ b, ∃ a, (getAlerts w (fs.Set "isRoot" (.bool b))).outcome = .ok a) :
    ∀ fuel b, (NewEvent fuel w fs b).outcome = .outOfFuel := by
  intro fuel
  induction fuel with
  | zero => intro b; rfl
  | succ fuel ih =>
    intro b
    obtain ⟨t, ht⟩ := htitle b
    obtain ⟨tm, htm⟩ := htime b
    obtain ⟨a, ha⟩ := halerts b
    have hout := NewEvent_outcome_of_fields fuel w fs b t tm a ht htm ha
    rw [hout]
    simp only [getSchedule, Run.bind_eq, Run.call_bind,
      GetStringSlice_setRoot fs b "schedule" (by decide), hsched, getScheduleLoop]
    rw [scheduleEntry_file _ w _ e fs tr (GetStringMapE_setRoot_nil fs b e hmap) hfind]
    simp [Run.bind, ih false]

/-! ## The claims -/

/-- Claim C1: when the "time" text splits on `~` into exactly one non-empty part
that parses, `getTime` returns `Period = false`, `Start` the parsed timestamp and
`End` the zero `time.Time`; when it splits into exactly two parts that both
parse, it returns `Period = true`, `Start` the parse of the first part and `End`
the parse of the second. -/
theorem getTime_instant_or_period (w : World) (ev : Viper) :
    (∀ p t, stringsSplit (ev.GetString "time") '~' = [p] → p ≠ "" →
        (stringToTime w p ev).outcome = .ok (.ok t) →
        (getTime w ev).outcome = .ok { Start := t, End := GoTime.zero, Period := false }) ∧
    (∀ p q t u, stringsSplit (ev.GetString "time") '~' = [p, q] →
        (stringToTime w p ev).outcome = .ok (.ok t) →
        (stringToTime w q ev).outcome = .ok (.ok u) →
        (getTime w ev).outcome = .ok { Start := t, End := u, Period := true }) := by
  constructor
  · intro p t hsplit hp hparse
    simp only [getTime, Run.bind_eq, Run.call_bind, hsplit]
    simp [hp, Run.bind_outcome_of_ok _ _ _ hparse, Run.pure_eq]
  · intro p q t u hsplit hp hq
    simp only [getTime, Run.bind_eq, Run.call_bind, hsplit]
    simp [Run.bind_of_ok _ _ _ hp, Run.bind_outcome_of_ok _ _ _ hq, Run.pure_eq]

/-- Claim C1, the example of the test: the period of `singleEvent` in Asia/Taipei,
and the instant of its first child. -/
theorem getTime_instant_or_period_witness :
    (getTime testWorld testSource).outcome =
      .ok { Start := ⟨2016, 1, 20, 10, 0, 0, 0, taipei⟩,
            End := ⟨2016, 1, 21, 23, 3, 0, 0, taipei⟩, Period := true } ∧
    (getTime testWorld (plainSource "event1" "2016-01-20 10:00")).outcome =
      .ok { Start := ⟨2016, 1, 20, 10, 0, 0, 0, TimeLocation.Local⟩,
            End := GoTime.zero, Period := false } :=
  ⟨(getTime_instant_or_period testWorld testSource).2 "2016-01-20 10:00 " " 2016-01-21 11:03PM"
      _ _ (by decide) rfl rfl,
   (getTime_instant_or_period testWorld (plainSource "event1" "2016-01-20 10:00")).1
      "2016-01-20 10:00" _ (by decide) (by decide) rfl⟩

/-- Claim C2: a "time" text with two or more `~` separators, and an absent or
empty "time" text, make `getTime` end in the fatal "Wrong time present" error
after the single read of "time": no zone is looked up and no timestamp parse
is attempted. -/
theorem getTime_rejects_malformed (w : World) (ev : Viper)
    (h : 2 ≤ (ev.GetString "time").data.count '~' ∨ ev.GetString "time" = "" ∨
      ev.Get "time" = .null) :
    getTime w ev =
      ⟨.fatal "Wrong time present, should be single \x27time.Time\x27 or \x27time.Time\x27 ~ time.Time\x27\n",
        [.get "time"]⟩ := by
  have hlen : (stringsSplit (ev.GetString "time") '~').length
      = (ev.GetString "time").data.count '~' + 1 := by
    simp [stringsSplit, splitChars_length]
  have hempty : ev.GetString "time" = "" →
      getTime w ev = ⟨.fatal "Wrong time present, should be single \x27time.Time\x27 or \x27time.Time\x27 ~ time.Time\x27\n",
        [.get "time"]⟩ := by
    intro h
    simp only [getTime, Run.bind_eq, Run.call_bind]
    simp [h, stringsSplit, splitChars, Run.fatal]
  rcases h with h | h | h
  · have : 2 < (stringsSplit (ev.GetString "time") '~').length := by omega
    simp only [getTime, Run.bind_eq, Run.call_bind]
    simp [this, Run.fatal]
  · exact hempty h
  · exact hempty (by simp [Viper.GetString, h, castToString])

/-- Claim C2 on the text `a ~ b ~ c` and on a source without "time". -/
theorem getTime_rejects_malformed_witness :
    getTime testWorld (plainSource "trip" "a ~ b ~ c") =
      ⟨.fatal "Wrong time present, should be single \x27time.Time\x27 or \x27time.Time\x27 ~ time.Time\x27\n",
        [.get "time"]⟩ ∧
    getTime testWorld ⟨"yaml", [], [("title", .str "trip")]⟩ =
      ⟨.fatal "Wrong time present, should be single \x27time.Time\x27 or \x27time.Time\x27 ~ time.Time\x27\n",
        [.get "time"]⟩ :=
  ⟨getTime_rejects_malformed testWorld (plainSource "trip" "a ~ b ~ c") (Or.inl (by decide)),
   getTime_rejects_malformed testWorld ⟨"yaml", [], [("title", .str "trip")]⟩
     (Or.inr (Or.inr rfl))⟩

/-- Claim C3, as stated, fails for an empty nested map: `emptyInlineSource` has
a nested map under "event1", the workspace holds `event1.yaml`, and the entry
is resolved by listing the directory and loading the file. -/
theorem inline_over_file_counterexample :
    emptyInlineSource.Get "event1" = .map [] ∧
    "event1" ∈ (emptyInlineSource.GetStringSlice "schedule").toList ∧
    scheduleEntry (NewEvent 1 shadowWorld) shadowWorld emptyInlineSource "event1" =
      ⟨.ok (leafEvent "from file" ⟨2016, 1, 20, 11, 0, 0, 0, TimeLocation.Local⟩),
        [.get "event1", .readDir "/pwd", .readInConfig "event1.yaml",
         .get "title", .get "time", .get "timezone",
         .parseInLocation "2006/01/02 15:04" "2016-01-20 11:00" TimeLocation.Local,
         .parseInLocation "2006/01/02 3:04PM" "2016-01-20 11:00" TimeLocation.Local,
         .parseInLocation "2006-01-02 15:04" "2016-01-20 11:00" TimeLocation.Local,
         .get "members", .get "alerts", .get "notes", .get "schedule"]⟩ :=
  ⟨rfl, by decide, rfl⟩

/-- Claim C3, amended: when the source `getSchedule` works on has a non-empty
nested map under a schedule identifier (the identifier read as a key path, so
"days.one" is the map under "days", key "one"), the entry is resolved by
reading that map and "configType" and building the child from the inline
source; the result does not depend on the workspace, and the directory is not
listed for it. This holds at every position of the schedule loop. When the
read of the identifier returns an empty map (or there is none) the entry goes
to `findEventConfig`. -/
theorem inline_over_file (build : Viper → Bool → Run Event) (w : World) (ev : Viper)
    (e : String) :
    (1 ≤ (ev.GetStringMap e).length →
      scheduleEntry build w ev e =
        ⟨(build (inlineSource (ev.GetString "configType") (ev.GetStringMap e)) false).outcome,
          [.get e, .get "configType"] ++
            (build (inlineSource (ev.GetString "configType") (ev.GetStringMap e)) false).trace⟩ ∧
      ∀ w1, scheduleEntry build w1 ev e = scheduleEntry build w ev e) ∧
    (ev.GetStringMapE e = .ok [] →
      scheduleEntry build w ev e =
        Run.bind (Run.call (.get e) ()) (fun _ =>
          Run.bind (findEventConfig w e) (fun r =>
            match r with
            | .ok subEv => build subEv false
            | .error _ => Run.fatal ("Can\x27t find event: " ++ e ++ "\n")))) ∧
    (∀ rest events, getScheduleLoop build w ev (e :: rest) events =
      Run.bind (scheduleEntry build w ev e)
        (fun child => getScheduleLoop build w ev rest (events.append child))) := by
  refine ⟨fun h => ?_, fun h => ?_, fun _ _ => rfl⟩
  · have key : ∀ w1, scheduleEntry build w1 ev e =
        ⟨(build (inlineSource (ev.GetString "configType") (ev.GetStringMap e)) false).outcome,
          [.get e, .get "configType"] ++
            (build (inlineSource (ev.GetString "configType") (ev.GetStringMap e)) false).trace⟩ := by
      intro w1
      exact scheduleEntry_inline build w1 ev e h
    exact ⟨key w, fun w1 => (key w1).trans (key w).symm⟩
  · simp only [scheduleEntry, Run.bind_eq, h, Run.callE_ok, Run.call_bind]
    rfl

/-- Claim C3, amended, on the test document in a workspace that also holds a
file `event1.yaml`, and on the nested identifier "days.one" in a workspace
that holds `days.one.yaml`: the child is the inline one and the directory is
not listed. -/
theorem inline_over_file_witness :
    scheduleEntry (NewEvent 1 shadowWorld) shadowWorld testSource "event1" =
      ⟨.ok (leafEvent "event1" ⟨2016, 1, 20, 10, 0, 0, 0, TimeLocation.Local⟩),
        [.get "event1", .get "configType", .get "title", .get "time", .get "timezone",
         .parseInLocation "2006/01/02 15:04" "2016-01-20 10:00" TimeLocation.Local,
         .parseInLocation "2006/01/02 3:04PM" "2016-01-20 10:00" TimeLocation.Local,
         .parseInLocation "2006-01-02 15:04" "2016-01-20 10:00" TimeLocation.Local,
         .get "members", .get "alerts", .get "notes", .get "schedule"]⟩ ∧
    scheduleEntry (NewEvent 1 nestedWorld) nestedWorld nestedSource "days.one" =
      ⟨.ok (leafEvent "day one" ⟨2016, 1, 21, 9, 0, 0, 0, TimeLocation.Local⟩),
        [.get "days.one", .get "configType", .get "title", .get "time", .get "timezone",
         .parseInLocation "2006/01/02 15:04" "2016-01-21 09:00" TimeLocation.Local,
         .parseInLocation "2006/01/02 3:04PM" "2016-01-21 09:00" TimeLocation.Local,
         .parseInLocation "2006-01-02 15:04" "2016-01-21 09:00" TimeLocation.Local,
         .get "members", .get "alerts", .get "notes", .get "schedule"]⟩ :=
  ⟨((inline_over_file (NewEvent 1 shadowWorld) shadowWorld testSource "event1").1
      (by decide)).1,
    ((inline_over_file (NewEvent 1 nestedWorld) nestedWorld nestedSource "days.one").1
      (by decide)).1⟩

/-- Claim C4, as stated, fails: the schedule of `brokenChildSource` lists
"missing", which has neither an inline map nor a file, yet `getSchedule` and
`NewEvent` end in the title error of the entry before it, not in the
unresolved-entry error. -/
theorem unresolved_entry_counterexample :
    "missing" ∈ (brokenChildSource.GetStringSlice "schedule").toList ∧
    brokenChildSource.GetStringMapE "missing" = .ok [] ∧
    emptyWorld.ReadDir emptyWorld.workspace = .ok [] ∧
    (getSchedule (NewEvent 1 emptyWorld) emptyWorld brokenChildSource).outcome
      = .fatal "No title for event" ∧
    (NewEvent 2 emptyWorld brokenChildSource true).outcome = .fatal "No title for event" ∧
    "No title for event" ≠ "Can\x27t find event: missing\n" :=
  ⟨by decide, rfl, rfl, rfl, rfl, by decide⟩

/-- Claim C4, amended: when a schedule identifier has neither an inline map in
the source (the read of the identifier, as a key path, returns no binding) nor
a file in the workspace listing whose name starts with it,
`getSchedule` and `NewEvent` return no event, at any recursion bound; the
failure is the "Can't find event" error for that identifier whenever the
entries before it resolve (and, for `NewEvent`, title, time and alerts are
read without error). -/
theorem unresolved_entry (w : World) (ev : Viper) (pre post : List String) (e : String)
    (files : List String)
    (hs : (ev.GetStringSlice "schedule").toList = pre ++ e :: post)
    (hmap : ev.GetStringMapE e = .ok [])
    (hdir : w.ReadDir w.workspace = .ok files)
    (hfiles : ∀ f ∈ files, stringsHasPrefix f e = false) :
    (∀ build s, (getSchedule build w ev).outcome ≠ .ok s) ∧
    (∀ fuel b x, (NewEvent fuel w ev b).outcome ≠ .ok x) ∧
    (∀ build, (∀ x ∈ pre, ∃ c, (scheduleEntry build w ev x).outcome = .ok c) →
      (getSchedule build w ev).outcome = .fatal ("Can\x27t find event: " ++ e ++ "\n")) ∧
    (∀ fuel b,
      (∃ t, (getTitle (ev.Set "isRoot" (.bool b))).outcome = .ok t) →
      (∃ t, (getTime w (ev.Set "isRoot" (.bool b))).outcome = .ok t) →
      (∃ a, (getAlerts w (ev.Set "isRoot" (.bool b))).outcome = .ok a) →
      (∀ x ∈ pre, ∃ c,
        (scheduleEntry (NewEvent fuel w) w (ev.Set "isRoot" (.bool b)) x).outcome = .ok c) →
      (NewEvent (fuel + 1) w ev b).outcome = .fatal ("Can\x27t find event: " ++ e ++ "\n")) := by
  refine ⟨?_, ?_, ?_, ?_⟩
  · intro build s
    simp only [getSchedule, Run.bind_eq, Run.call_bind, hs]
    exact getScheduleLoop_append_not_ok build w ev e files hmap hdir hfiles pre post _ s
  · intro fuel b x hx
    cases fuel with
    | zero => simp [NewEvent] at hx
    | succ fuel =>
      obtain ⟨_, _, _, _, _, schedule, _, _, _, _, _, h7, _⟩ := NewEvent_ok_inv fuel w ev b x hx
      simp only [getSchedule, Run.bind_eq, Run.call_bind,
        GetStringSlice_setRoot ev b "schedule" (by decide), hs] at h7
      exact getScheduleLoop_append_not_ok _ w _ e files (GetStringMapE_setRoot_nil ev b e hmap)
        hdir hfiles pre post _ schedule h7
  · intro build hpre
    simp only [getSchedule, Run.bind_eq, Run.call_bind, hs]
    exact getScheduleLoop_append_fatal build w ev e files hmap hdir hfiles pre post hpre _
  · intro fuel b ⟨t, ht⟩ ⟨tm, htm⟩ ⟨a, ha⟩ hpre
    have hout := NewEvent_outcome_of_fields fuel w ev b t tm a ht htm ha
    rw [hout]
    have := getScheduleLoop_append_fatal (NewEvent fuel w) w _ e files
      (GetStringMapE_setRoot_nil ev b e hmap) hdir hfiles pre post hpre (.items [])
    simp only [getSchedule, Run.bind_eq, Run.call_bind,
      GetStringSlice_setRoot ev b "schedule" (by decide), hs]
    simp [Run.bind, this]

/-- Claim C4, amended, on `missingEntrySource`: the inline entry before
"missing" builds, and the build ends in the unresolved-entry error. -/
theorem unresolved_entry_witness :
    (getSchedule (NewEvent 1 emptyWorld) emptyWorld missingEntrySource).outcome
      = .fatal "Can\x27t find event: missing\n" ∧
    (NewEvent 2 emptyWorld missingEntrySource true).outcome
      = .fatal "Can\x27t find event: missing\n" :=
  have h := unresolved_entry emptyWorld missingEntrySource ["event1"] [] "missing" []
    (by decide) rfl rfl (by simp)
  ⟨h.2.2.1 (NewEvent 1 emptyWorld) (by
      intro x hx
      rw [List.mem_singleton] at hx
      subst hx
      exact ⟨_, rfl⟩),
   h.2.2.2 1 true ⟨_, rfl⟩ ⟨_, rfl⟩ ⟨_, rfl⟩ (by
      intro x hx
      rw [List.mem_singleton] at hx
      subst hx
      exact ⟨_, rfl⟩)⟩

/-- Claim C5: a source whose "title" is absent or empty makes `NewEvent` end in
the fatal "No title for event" error with "title" the only key read; and the
`Title` of an event that `NewEvent` returns is the non-empty "title" text of
its source. -/
theorem title_first (fuel : Nat) (w : World) (ev : Viper) (isRoot : Bool) :
    ((ev.GetString "title" = "" ∨ ev.Get "title" = .null) →
      NewEvent (fuel + 1) w ev isRoot = ⟨.fatal "No title for event", [.get "title"]⟩) ∧
    (∀ e, (NewEvent fuel w ev isRoot).outcome = .ok e →
      e.Title = ev.GetString "title" ∧ ev.GetString "title" ≠ "") := by
  have hk : (ev.Set "isRoot" (.bool isRoot)).GetString "title" = ev.GetString "title" :=
    GetString_setRoot ev isRoot "title" (by decide)
  constructor
  · intro h
    have h0 : ev.GetString "title" = "" := by
      rcases h with h | h
      · exact h
      · simp [Viper.GetString, h, castToString]
    simp only [NewEvent, Run.bind_eq]
    rw [getTitle_eq, hk]
    simp [h0, Run.bind]
  · intro e he
    cases fuel with
    | zero => simp [NewEvent] at he
    | succ fuel =>
      obtain ⟨title, time, members, alert, notes, schedule, h1, _, _, _, _, _, rfl⟩ :=
        NewEvent_ok_inv fuel w ev isRoot e he
      rw [getTitle_eq, hk] at h1
      by_cases ht : ev.GetString "title" = ""
      · simp [ht] at h1
      · simp [ht] at h1
        exact ⟨h1.symm, ht⟩

/-- Claim C5 on a source with an empty title and an unparsable time, and on
the test document. -/
theorem title_first_witness :
    NewEvent 3 testWorld (plainSource "" "not a time") true =
      ⟨.fatal "No title for event", [.get "title"]⟩ ∧
    expectedEvent.Title = "Go to Japan" :=
  ⟨(title_first 2 testWorld (plainSource "" "not a time") true).1 (Or.inl rfl),
   ((title_first 2 testWorld testSource true).2 expectedEvent rfl).1⟩

/-- Claim C6: format invariance of `stringToTime`. For every valid calendar date
with a four-digit year, every hour and minute (seconds zero) and every zone the
source resolves to, the text that writes that wall-clock instant in any of the
twelve layouts parses to the same timestamp. -/
theorem format_invariance (w : World) (ev : Viper) (tz : TimeLocation) (trz : List Effect)
    (htz : getTimezone w ev = ⟨.ok tz, trz⟩) (t : GoTime)
    (hy : t.year ≤ 9999) (hm1 : 1 ≤ t.month) (hm : t.month ≤ 12) (hd1 : 1 ≤ t.day)
    (hd : t.day ≤ daysIn t.month t.year) (hh : t.hour < 24) (hmin : t.min < 60)
    (hs : t.sec = 0) (hns : t.nsec = 0) (hloc : t.loc = tz) :
    ∀ layout ∈ timeFormat, (stringToTime w (Format t layout) ev).outcome = .ok (.ok t) := by
  intro layout hl
  obtain ⟨sep, k, hsep, rfl⟩ := mem_timeFormat layout hl
  rw [stringToTime_eq w _ ev tz trz htz, Format_layoutOf sep hsep k t, stringsTrim_text]
  have ht : ({ t with loc := tz } : GoTime) = t := by cases t; simp_all
  apply stringToTimeLoop_agree
  · intro g hg
    obtain ⟨sep1, k1, hsep1, rfl⟩ := mem_timeFormat g hg
    rw [ParseInLocation_text sep sep1 hsep hsep1 k k1 t (by omega) hm1 hm hd1 hd hh hmin hs hns tz,
      ht]
    split
    · exact Or.inl rfl
    · exact Or.inr rfl
  · refine ⟨layoutOf sep k, hl, ?_⟩
    rw [ParseInLocation_text sep sep hsep hsep k k t (by omega) hm1 hm hd1 hd hh hmin hs hns tz, ht]
    simp

/-- Claim C6 on 2016-01-21 23:03 in Asia/Taipei, written in a 12-hour layout
and in a 24-hour layout with seconds. -/
theorem format_invariance_witness :
    (stringToTime testWorld "2016-01-21 11:03PM" testSource).outcome
      = .ok (.ok ⟨2016, 1, 21, 23, 3, 0, 0, taipei⟩) ∧
    (stringToTime testWorld "2016/01/21 23:03:00" testSource).outcome
      = .ok (.ok ⟨2016, 1, 21, 23, 3, 0, 0, taipei⟩) :=
  ⟨format_invariance testWorld testSource taipei _ rfl ⟨2016, 1, 21, 23, 3, 0, 0, taipei⟩
      (by decide) (by decide) (by decide) (by decide) (by decide) (by decide) (by decide)
      rfl rfl rfl "2006-01-02 3:04PM" (by decide),
   format_invariance testWorld testSource taipei _ rfl ⟨2016, 1, 21, 23, 3, 0, 0, taipei⟩
      (by decide) (by decide) (by decide) (by decide) (by decide) (by decide) (by decide)
      rfl rfl rfl "2006/01/02 15:04:05" (by decide)⟩

/-- Claim C7, as stated, fails when the zone of the source does not resolve:
the third layout parses the text, yet `stringToTime` on `badZoneSource` returns
nothing and tries no layout, the process ending in the invalid-timezone error;
and for a text that no layout parses it returns no error either. -/
theorem stringToTime_counterexample :
    ParseInLocation "2006-01-02 15:04" "2016-01-20 10:00" TimeLocation.Local
      = some ⟨2016, 1, 20, 10, 0, 0, 0, TimeLocation.Local⟩ ∧
    stringToTime testWorld "2016-01-20 10:00" badZoneSource =
      ⟨.fatal "Invalid timezone name: Nowhere/Zone (unknown time zone)\n",
        [.get "timezone", .loadLocation "Nowhere/Zone"]⟩ ∧
    (∀ f ∈ timeFormat, ∀ tz, ParseInLocation f "garbage" tz = none) ∧
    stringToTime testWorld "garbage" badZoneSource =
      ⟨.fatal "Invalid timezone name: Nowhere/Zone (unknown time zone)\n",
        [.get "timezone", .loadLocation "Nowhere/Zone"]⟩ := by
  refine ⟨rfl, rfl, ?_, rfl⟩
  intro f hf tz
  simp only [timeFormat, List.mem_cons, List.mem_singleton, List.not_mem_nil, or_false] at hf
  rcases hf with h | h | h | h | h | h | h | h | h | h | h | h <;> subst h <;> rfl

/-- Claim C7, amended: when the zone of the source resolves, `stringToTime` tries
the layouts in list order on the space-trimmed text and returns the result of
the first one that parses it; it returns an error exactly when no layout
parses the text, and that error is the "Can't parse" message, which contains
the trimmed text and the expected shape. When the zone does not resolve, the
run ends in the fatal error of `getTimezone` and no layout is tried. -/
theorem stringToTime_first_match (w : World) (s : String) (ev : Viper) :
    (∀ tz trz, getTimezone w ev = ⟨.ok tz, trz⟩ →
      (∀ pre f post t, timeFormat = pre ++ f :: post →
        (∀ g ∈ pre, ParseInLocation g (stringsTrim s " ") tz = none) →
        ParseInLocation f (stringsTrim s " ") tz = some t →
        stringToTime w s ev = ⟨.ok (.ok t),
          trz ++ (pre ++ [f]).map (fun g => .parseInLocation g (stringsTrim s " ") tz)⟩) ∧
      ((∃ err, (stringToTime w s ev).outcome = .ok (.error err)) ↔
        ∀ f ∈ timeFormat, ParseInLocation f (stringsTrim s " ") tz = none) ∧
      (∀ err, (stringToTime w s ev).outcome = .ok (.error err) →
        err = cantParse (stringsTrim s " ") ∧
        (stringsTrim s " ").data <:+: err.data ∧
        "valid format YYYY/mm/dd HH:MM:SS".data <:+: err.data)) ∧
    (∀ msg trz, getTimezone w ev = ⟨.fatal msg, trz⟩ →
      stringToTime w s ev = ⟨.fatal msg, trz⟩) := by
  refine ⟨fun tz trz htz => ?_, fun msg trz htz => ?_⟩
  · have hinfix : (stringsTrim s " ").data <:+: (cantParse (stringsTrim s " ")).data ∧
        "valid format YYYY/mm/dd HH:MM:SS".data <:+: (cantParse (stringsTrim s " ")).data := by
      constructor
      · exact ⟨"Can\x27t parse <".data,
          ">, valid format YYYY/mm/dd HH:MM:SS (digits are concerned).\n".data, by
            simp [cantParse, String.data_append]⟩
      · exact ⟨"Can\x27t parse <".data ++ (stringsTrim s " ").data ++ ">, ".data,
          " (digits are concerned).\n".data, by simp [cantParse, String.data_append]⟩
    rw [stringToTime_eq w s ev tz trz htz]
    refine ⟨?_, ?_, ?_⟩
    · intro pre f post t hsplit hpre hf
      rw [hsplit, stringToTimeLoop_first _ tz f post t hf pre hpre]
    · constructor
      · rintro ⟨err, herr⟩
        rcases stringToTimeLoop_error_iff (stringsTrim s " ") tz timeFormat with
          ⟨t, ht⟩ | ⟨_, hall⟩
        · simp only [ht, Outcome.ok.injEq] at herr; cases herr
        · exact hall
      · intro hall
        rcases stringToTimeLoop_error_iff (stringsTrim s " ") tz timeFormat with
          ⟨t, ht⟩ | ⟨he, _⟩
        · exact absurd ht (stringToTimeLoop_none _ tz timeFormat hall t)
        · exact ⟨_, he⟩
    · intro err herr
      rcases stringToTimeLoop_error_iff (stringsTrim s " ") tz timeFormat with ⟨t, ht⟩ | ⟨he, _⟩
      · simp only [ht, Outcome.ok.injEq] at herr; cases herr
      · simp only [he, Outcome.ok.injEq, Except.error.injEq] at herr
        subst herr
        exact ⟨rfl, hinfix⟩
  · simp only [stringToTime, Run.bind_eq, htz]
    rfl

/-- Claim C7, amended, on the end of the test period, padded with spaces: the
fourth layout is the first that parses it, after three failed attempts. -/
theorem stringToTime_first_match_witness :
    stringToTime testWorld "  2016-01-21 11:03PM " testSource =
      ⟨.ok (.ok ⟨2016, 1, 21, 23, 3, 0, 0, taipei⟩),
        [.get "timezone", .loadLocation "Asia/Taipei"] ++
          (["2006/01/02 15:04", "2006/01/02 3:04PM", "2006-01-02 15:04"] ++ ["2006-01-02 3:04PM"]).map
            (fun g => .parseInLocation g (stringsTrim "  2016-01-21 11:03PM " " ") taipei)⟩ :=
  ((stringToTime_first_match testWorld "  2016-01-21 11:03PM " testSource).1 taipei _ rfl).1
    ["2006/01/02 15:04", "2006/01/02 3:04PM", "2006-01-02 15:04"] "2006-01-02 3:04PM" _ _
    rfl (by decide) rfl

/-- Claim C8, as stated, fails: `loop.yaml` names itself in its schedule, and the
build of its source is still descending at every recursion bound; it never
ends in an error, a cycle error included. -/
theorem cycle_counterexample :
    findEventConfig loopWorld "loop"
      = ⟨.ok (.ok loopSource), [.readDir "/ws", .readInConfig "loop.yaml"]⟩ ∧
    (loopSource.GetStringSlice "schedule").toList = ["loop"] ∧
    ¬ ∃ fuel, (NewEvent fuel loopWorld loopSource true).outcome ≠ .outOfFuel := by
  refine ⟨rfl, rfl, ?_⟩
  rintro ⟨fuel, h⟩
  exact h (NewEvent_self_reference loopWorld loopSource "loop" [] _ rfl rfl rfl
    (fun b => by cases b <;> exact ⟨_, rfl⟩) (fun b => by cases b <;> exact ⟨_, rfl⟩)
    (fun b => by cases b <;> exact ⟨_, rfl⟩) fuel true)

/-- Claim C8, amended: the code has no cycle guard. When an identifier resolves
to a file whose own schedule starts with that identifier (the read of the
identifier, as a key path, returns no inline map in that file; title, time and
alerts readable), `NewEvent` on that file's source does not end in a cycle
error: at every recursion bound it is still descending. -/
theorem self_reference_diverges (w : World) (fs : Viper) (e : String) (rest : List String)
    (tr : List Effect)
    (hfind : findEventConfig w e = ⟨.ok (.ok fs), tr⟩)
    (hsched : (fs.GetStringSlice "schedule").toList = e :: rest)
    (hmap : fs.GetStringMapE e = .ok [])
    (htitle : ∀ b, ∃ t, (getTitle (fs.Set "isRoot" (.bool b))).outcome = .ok t)
    (htime : ∀ b, ∃ t, (getTime w (fs.Set "isRoot" (.bool b))).outcome = .ok t)
    (halerts : ∀ b, ∃ a, (getAlerts w (fs.Set "isRoot" (.bool b))).outcome = .ok a) :
    ∀ fuel b, (NewEvent fuel w fs b).outcome = .outOfFuel :=
  NewEvent_self_reference w fs e rest tr hfind hsched hmap htitle htime halerts

/-- Claim C8, amended, on `loop.yaml` at recursion bound 5. -/
theorem self_reference_diverges_witness :
    (NewEvent 5 loopWorld loopSource false).outcome = .outOfFuel :=
  self_reference_diverges loopWorld loopSource "loop" [] _ rfl rfl rfl
    (fun b => by cases b <;> exact ⟨_, rfl⟩) (fun b => by cases b <;> exact ⟨_, rfl⟩)
    (fun b => by cases b <;> exact ⟨_, rfl⟩) 5 false

/-- Claim C9: an event that `NewEvent(source, b)` returns has `IsRoot() = b`, and
every event reachable from it through `Schedule`, at any depth, has
`IsRoot() = false`. -/
theorem root_only_at_top (fuel : Nat) (w : World) (ev : Viper) (b : Bool) (e : Event)
    (h : (NewEvent fuel w ev b).outcome = .ok e) :
    e.IsRoot = b ∧ ∀ d, Descendant e d → d.IsRoot = false := by
  refine ⟨NewEvent_isRoot fuel w ev b e h, fun d hd => ?_⟩
  obtain ⟨fuel1, sub, hsub⟩ := descendant_built w fuel ev b e h d hd
  exact NewEvent_isRoot fuel1 w sub false d hsub

/-- Claim C9 on the event of the test. -/
theorem root_only_at_top_witness :
    expectedEvent.IsRoot = true ∧ ∀ d, Descendant expectedEvent d → d.IsRoot = false :=
  root_only_at_top 2 testWorld testSource true expectedEvent rfl

/-- Claim C10: in an event that `NewEvent` returns and in each of its
descendants, `Members`, `Notes`, `Locations` and `Schedule` are non-nil; and
each of them is the empty sequence when the key is missing from the source the
event was built from (`Locations` always). -/
theorem sequences_present (fuel : Nat) (w : World) (ev : Viper) (b : Bool) (e : Event)
    (h : (NewEvent fuel w ev b).outcome = .ok e) :
    (∀ d, d = e ∨ Descendant e d →
      d.Members.isNil = false ∧ d.Notes.isNil = false ∧ d.Locations.isNil = false ∧
        d.Schedule.isNil = false) ∧
    ((ev.Get "members" = .null → e.Members = .items []) ∧
      (ev.Get "notes" = .null → e.Notes = .items []) ∧
      e.Locations = .items [] ∧
      (ev.Get "schedule" = .null → e.Schedule = .items [])) ∧
    (∀ d, Descendant e d → ∃ fuel1 sub, (NewEvent fuel1 w sub false).outcome = .ok d ∧
      (sub.Get "members" = .null → d.Members = .items []) ∧
      (sub.Get "notes" = .null → d.Notes = .items []) ∧
      d.Locations = .items [] ∧
      (sub.Get "schedule" = .null → d.Schedule = .items [])) := by
  refine ⟨?_, (NewEvent_sequences fuel w ev b e h).2, ?_⟩
  · rintro d (rfl | hd)
    · exact (NewEvent_sequences fuel w ev b d h).1
    · obtain ⟨fuel1, sub, hsub⟩ := descendant_built w fuel ev b e h d hd
      exact (NewEvent_sequences fuel1 w sub false d hsub).1
  · intro d hd
    obtain ⟨fuel1, sub, hsub⟩ := descendant_built w fuel ev b e h d hd
    exact ⟨fuel1, sub, hsub, (NewEvent_sequences fuel1 w sub false d hsub).2⟩

/-- Claim C10 on a source that holds only a title and a time: the four
sequences of the built event are empty and not nil. -/
theorem sequences_present_witness :
    (leafEvent "event1" ⟨2016, 1, 20, 10, 0, 0, 0, TimeLocation.Local⟩).Members = .items [] ∧
    (leafEvent "event1" ⟨2016, 1, 20, 10, 0, 0, 0, TimeLocation.Local⟩).Notes = .items [] ∧
    (leafEvent "event1" ⟨2016, 1, 20, 10, 0, 0, 0, TimeLocation.Local⟩).Locations = .items [] ∧
    (leafEvent "event1" ⟨2016, 1, 20, 10, 0, 0, 0, TimeLocation.Local⟩).Schedule = .items [] :=
  have h := (sequences_present 1 testWorld (plainSource "event1" "2016-01-20 10:00") false
    (leafEvent "event1" ⟨2016, 1, 20, 10, 0, 0, 0, TimeLocation.Local⟩) rfl).2.1
  ⟨h.1 rfl, h.2.1 rfl, h.2.2.1, h.2.2.2 rfl⟩

/-! ## Schedule entries, one by one -/

theorem scheduleEntry_of_resolves (build : Viper → Bool → Run Event) (w : World) (ev : Viper)
    (e : String) (sub : Viper) (h : Resolves w ev e sub) :
    (scheduleEntry build w ev e).outcome = (build sub false).outcome := by
  rcases h with ⟨hlen, rfl⟩ | ⟨hmap, tr, hfind⟩
  · rw [scheduleEntry_inline build w ev e hlen]
  · rw [scheduleEntry_file build w ev e sub tr hmap hfind]

theorem scheduleEntry_ok_resolves (build : Viper → Bool → Run Event) (w : World) (ev : Viper)
    (e : String) (c : Event) (h : (scheduleEntry build w ev e).outcome = .ok c) :
    ∃ sub, Resolves w ev e sub ∧ (build sub false).outcome = .ok c := by
  by_cases hraw : 1 ≤ (ev.GetStringMap e).length
  · refine ⟨_, Or.inl ⟨hraw, rfl⟩, ?_⟩
    rw [← scheduleEntry_of_resolves build w ev e _ (Or.inl ⟨hraw, rfl⟩)]
    exact h
  · have hmap : ev.GetStringMapE e = .ok [] := by
      cases hE : ev.GetStringMapE e with
      | error msg =>
        simp only [scheduleEntry, Run.bind_eq, hE, Run.callE_error_bind] at h
        cases h
      | ok m =>
        have hm := Viper.GetStringMap_of_E ev e m hE
        cases m with
        | nil => rfl
        | cons a l => rw [hm] at hraw; simp at hraw
    simp only [scheduleEntry, Run.bind_eq, hmap, Run.callE_ok, Run.call_bind] at h
    obtain ⟨r, hr, hb⟩ := Run.bind_ok_inv _ _ _ h
    cases r with
    | error err => simp [Run.fatal] at hb
    | ok sub =>
      have hres : Resolves w ev e sub :=
        Or.inr ⟨hmap, (findEventConfig w e).trace, by
          cases hf : findEventConfig w e with
          | mk o t => rw [hf] at hr; simp only at hr; subst hr; rfl⟩
      exact ⟨sub, hres, hb⟩

/-- A loop of `getSchedule` that returns has appended one built child per
identifier, in order. -/
theorem getScheduleLoop_ok_forall2 (build : Viper → Bool → Run Event) (w : World) (ev : Viper)
    (ids : List String) :
    ∀ events s, (getScheduleLoop build w ev ids events).outcome = .ok s →
      ∃ cs, s.toList = events.toList ++ cs ∧
        List.Forall₂ (fun e c => (scheduleEntry build w ev e).outcome = .ok c) ids cs := by
  induction ids with
  | nil =>
    intro events s h
    simp only [getScheduleLoop, Run.pure_eq, Outcome.ok.injEq] at h
    subst h
    exact ⟨[], by simp, List.Forall₂.nil⟩
  | cons e ids ih =>
    intro events s h
    simp only [getScheduleLoop, Run.bind_eq] at h
    obtain ⟨child, hchild, hrest⟩ := Run.bind_ok_inv _ _ _ h
    obtain ⟨cs, hcs, hall⟩ := ih _ _ hrest
    refine ⟨child :: cs, ?_, List.Forall₂.cons hchild hall⟩
    rw [hcs]
    simp [Slice.append, Slice.toList]

theorem getSchedule_ok_forall2 (build : Viper → Bool → Run Event) (w : World) (ev : Viper)
    (s : Slice Event) (h : (getSchedule build w ev).outcome = .ok s) :
    List.Forall₂ (fun e c => (scheduleEntry build w ev e).outcome = .ok c)
      (ev.GetStringSlice "schedule").toList s.toList := by
  simp only [getSchedule, Run.bind_eq, Run.call_bind] at h
  obtain ⟨cs, hcs, hall⟩ := getScheduleLoop_ok_forall2 build w ev _ _ s h
  simp only [Slice.toList, List.nil_append] at hcs
  rw [show s.toList = cs from hcs]
  exact hall

/-- The schedule of an event that `NewEvent` returns, entry by entry. -/
theorem NewEvent_schedule_forall2 (fuel : Nat) (w : World) (ev : Viper) (b : Bool) (e : Event)
    (h : (NewEvent (fuel + 1) w ev b).outcome = .ok e) :
    List.Forall₂
      (fun id c => ∃ sub, Resolves w (ev.Set "isRoot" (.bool b)) id sub ∧
        (NewEvent fuel w sub false).outcome = .ok c)
      (ev.GetStringSlice "schedule").toList e.Schedule.toList := by
  obtain ⟨title, time, members, alert, notes, schedule, _, _, _, _, _, h7, rfl⟩ :=
    NewEvent_ok_inv fuel w ev b e h
  have h2 := getSchedule_ok_forall2 _ w _ schedule h7
  rw [GetStringSlice_setRoot ev b "schedule" (by decide)] at h2
  exact h2.imp (fun {id c} hc => scheduleEntry_ok_resolves _ w _ id c hc)

/-- The first schedule entry that does not return decides how the loop ends. -/
theorem getScheduleLoop_first_failure (build : Viper → Bool → Run Event) (w : World) (ev : Viper)
    (e : String) (post : List String) (pre : List String)
    (hpre : ∀ x ∈ pre, ∃ c, (scheduleEntry build w ev x).outcome = .ok c) :
    ∀ events,
      (∀ msg, (scheduleEntry build w ev e).outcome = .fatal msg →
        (getScheduleLoop build w ev (pre ++ e :: post) events).outcome = .fatal msg) ∧
      ((∀ c, (scheduleEntry build w ev e).outcome ≠ .ok c) →
        ∀ s, (getScheduleLoop build w ev (pre ++ e :: post) events).outcome ≠ .ok s) := by
  induction pre with
  | nil =>
    intro events
    constructor
    · intro msg hmsg
      simp [getScheduleLoop, Run.bind_eq, Run.bind, hmsg]
    · intro hno s hs
      simp only [List.nil_append, getScheduleLoop, Run.bind_eq] at hs
      obtain ⟨c, hc, _⟩ := Run.bind_ok_inv _ _ _ hs
      exact hno c hc
  | cons x pre ih =>
    intro events
    obtain ⟨c, hc⟩ := hpre x (by simp)
    have ih1 := ih (fun y hy => hpre y (by simp [hy])) (events.append c)
    simp only [List.cons_append, getScheduleLoop, Run.bind_eq]
    rw [Run.bind_outcome_of_ok _ _ c hc]
    exact ih1

theorem forall2_of_mem_left {α β : Type} {R : α → β → Prop} {l1 : List α} {l2 : List β}
    (h : List.Forall₂ R l1 l2) (x : α) (hx : x ∈ l1) : ∃ y, y ∈ l2 ∧ R x y := by
  induction h with
  | nil => cases hx
  | cons hr _ ih =>
    rcases List.mem_cons.mp hx with rfl | hx
    · exact ⟨_, by simp, hr⟩
    · obtain ⟨y, hy, hxy⟩ := ih hx
      exact ⟨y, by simp [hy], hxy⟩

theorem forall2_of_mem_right {α β : Type} {R : α → β → Prop} {l1 : List α} {l2 : List β}
    (h : List.Forall₂ R l1 l2) (y : β) (hy : y ∈ l2) : ∃ x, x ∈ l1 ∧ R x y := by
  induction h with
  | nil => cases hy
  | cons hr _ ih =>
    rcases List.mem_cons.mp hy with rfl | hy
    · exact ⟨_, by simp, hr⟩
    · obtain ⟨x, hx, hxy⟩ := ih hy
      exact ⟨x, by simp [hx], hxy⟩

/-- A schedule entry that does not return leaves the loop without result,
wherever it stands in the list. -/
theorem getScheduleLoop_not_ok_of_mem (build : Viper → Bool → Run Event) (w : World) (ev : Viper)
    (e : String) (hno : ∀ c, (scheduleEntry build w ev e).outcome ≠ .ok c) (ids : List String)
    (hmem : e ∈ ids) :
    ∀ events s, (getScheduleLoop build w ev ids events).outcome ≠ .ok s := by
  intro events s hs
  obtain ⟨cs, _, hall⟩ := getScheduleLoop_ok_forall2 build w ev ids events s hs
  obtain ⟨c, _, hc⟩ := forall2_of_mem_left hall e hmem
  exact hno c hc

/-- A call below a call of `NewEvent` that returns no event leaves that call
without event too. -/
theorem NewEvent_not_ok_of_reaches (w : World) (fuel : Nat) (ev : Viper) (b : Bool)
    (fuel1 : Nat) (sub1 : Viper) (b1 : Bool) (hr : Reaches w fuel ev b fuel1 sub1 b1)
    (hno : ∀ x, (NewEvent fuel1 w sub1 b1).outcome ≠ .ok x) :
    ∀ x, (NewEvent fuel w ev b).outcome ≠ .ok x := by
  induction hr with
  | self fuel ev b => exact hno
  | @entry fuel ev b e sub fuel1 sub1 b1 hmem hres _ ih =>
    intro x hx
    obtain ⟨_, _, _, _, _, schedule, _, _, _, _, _, h7, _⟩ := NewEvent_ok_inv fuel w ev b x hx
    simp only [getSchedule, Run.bind_eq, Run.call_bind] at h7
    refine getScheduleLoop_not_ok_of_mem (NewEvent fuel w) w _ e ?_ _ hmem _ schedule h7
    intro c hc
    rw [scheduleEntry_of_resolves _ w _ e sub hres] at hc
    exact ih hno c hc

/-! ## Zones, times and alerts -/

theorem Run.eq_of_outcome {α : Type} (m : Run α) (o : Outcome α) (h : m.outcome = o) :
    m = ⟨o, m.trace⟩ := by
  cases m; simp_all

theorem Run.bind_outcome_of_fatal {α β : Type} (m : Run α) (f : α → Run β) (msg : String)
    (h : m.outcome = .fatal msg) : (Run.bind m f).outcome = .fatal msg := by
  simp [Run.bind, h]

theorem getTimezone_eq (w : World) (ev : Viper) :
    getTimezone w ev =
      if ev.GetString "timezone" ≠ "" then
        match w.LoadLocation (ev.GetString "timezone") with
        | .error err =>
          ⟨.fatal ("Invalid timezone name: " ++ ev.GetString "timezone" ++ " (" ++ err ++ ")\n"),
            [.get "timezone", .loadLocation (ev.GetString "timezone")]⟩
        | .ok ttz => ⟨.ok ttz, [.get "timezone", .loadLocation (ev.GetString "timezone")]⟩
      else ⟨.ok TimeLocation.Local, [.get "timezone"]⟩ := by
  simp only [getTimezone, Run.bind_eq, Run.call_bind]
  split
  · cases w.LoadLocation (ev.GetString "timezone") <;> rfl
  · rfl

/-- How `getTimezone` ends: with a zone or with the fatal error. -/
theorem getTimezone_outcome (w : World) (ev : Viper) :
    (∃ tz, (getTimezone w ev).outcome = .ok tz) ∨
      ∃ msg, (getTimezone w ev).outcome = .fatal msg := by
  rw [getTimezone_eq]
  split
  · cases w.LoadLocation (ev.GetString "timezone") with
    | error err => exact Or.inr ⟨_, rfl⟩
    | ok z => exact Or.inl ⟨_, rfl⟩
  · exact Or.inl ⟨_, rfl⟩

theorem dateOf_loc (st : ParseState) (loc : TimeLocation) (t : GoTime)
    (h : dateOf st loc = some t) : t.loc = loc := by
  unfold dateOf at h
  simp only at h
  split at h
  · cases h
  · simp only [Option.some.injEq] at h
    rw [← h]

theorem ParseInLocation_loc (f s : String) (tz : TimeLocation) (t : GoTime)
    (h : ParseInLocation f s tz = some t) : t.loc = tz := by
  unfold ParseInLocation at h
  split at h
  · cases h
  · exact dateOf_loc _ _ _ h

theorem stringToTimeLoop_loc (s : String) (tz : TimeLocation) (fs : List String) (t : GoTime)
    (h : (stringToTimeLoop s tz fs).outcome = .ok (.ok t)) : t.loc = tz := by
  induction fs with
  | nil => simp [stringToTimeLoop, Run.pure_eq] at h
  | cons f fs ih =>
    simp only [stringToTimeLoop, Run.bind_eq, Run.call_bind] at h
    cases hf : ParseInLocation f s tz with
    | some u =>
      rw [hf] at h
      simp only [Run.pure_eq, Outcome.ok.injEq, Except.ok.injEq] at h
      subst h
      exact ParseInLocation_loc f s tz u hf
    | none =>
      rw [hf] at h
      exact ih h

/-- A timestamp that `stringToTime` returns lies in the zone of the source. -/
theorem stringToTime_loc (w : World) (s : String) (ev : Viper) (tz : TimeLocation)
    (htz : (getTimezone w ev).outcome = .ok tz) (t : GoTime)
    (h : (stringToTime w s ev).outcome = .ok (.ok t)) : t.loc = tz := by
  rw [stringToTime_eq w s ev tz _ (Run.eq_of_outcome _ _ htz)] at h
  exact stringToTimeLoop_loc _ tz timeFormat t h

/-- How `stringToTime` ends: it returns, or the zone is fatal. -/
theorem stringToTime_outcome (w : World) (s : String) (ev : Viper) :
    (∃ r, (stringToTime w s ev).outcome = .ok r) ∨
      ∃ msg, (stringToTime w s ev).outcome = .fatal msg ∧
        (getTimezone w ev).outcome = .fatal msg := by
  rcases getTimezone_outcome w ev with ⟨tz, htz⟩ | ⟨msg, hmsg⟩
  · left
    rw [stringToTime_eq w s ev tz _ (Run.eq_of_outcome _ _ htz)]
    rcases stringToTimeLoop_error_iff (stringsTrim s " ") tz timeFormat with ⟨t, ht⟩ | ⟨he, _⟩
    · exact ⟨_, ht⟩
    · exact ⟨_, he⟩
  · right
    refine ⟨msg, ?_, hmsg⟩
    simp only [stringToTime, Run.bind_eq]
    simp [Run.bind, hmsg]

/-- How `getTime` ends: with a time or with a fatal error. -/
theorem getTime_outcome (w : World) (ev : Viper) :
    (∃ tm, (getTime w ev).outcome = .ok tm) ∨ ∃ msg, (getTime w ev).outcome = .fatal msg := by
  simp only [getTime, Run.bind_eq, Run.call_bind]
  split
  · exact Or.inr ⟨_, rfl⟩
  · rcases stringToTime_outcome w ((stringsSplit (ev.GetString "time") '~').getD 0 "") ev with
      ⟨r, hr⟩ | ⟨msg, hmsg, _⟩
    · rw [Run.bind_outcome_of_ok _ _ r hr]
      cases r with
      | error err => exact Or.inr ⟨_, rfl⟩
      | ok start =>
        simp only
        split
        · exact Or.inl ⟨_, rfl⟩
        · rcases stringToTime_outcome w ((stringsSplit (ev.GetString "time") '~').getD 1 "") ev
            with ⟨r2, hr2⟩ | ⟨msg, hmsg, _⟩
          · rw [Run.bind_outcome_of_ok _ _ r2 hr2]
            cases r2 with
            | error err => exact Or.inr ⟨_, rfl⟩
            | ok end_ => exact Or.inl ⟨_, rfl⟩
          · exact Or.inr ⟨msg, Run.bind_outcome_of_fatal _ _ msg hmsg⟩
    · exact Or.inr ⟨msg, Run.bind_outcome_of_fatal _ _ msg hmsg⟩

/-- The zone of the start and, for a period, of the end that `getTime` returns. -/
theorem getTime_loc (w : World) (ev : Viper) (tz : TimeLocation)
    (htz : (getTimezone w ev).outcome = .ok tz) (tm : Time)
    (h : (getTime w ev).outcome = .ok tm) :
    tm.Start.loc = tz ∧ (tm.Period = true → tm.End.loc = tz) := by
  simp only [getTime, Run.bind_eq, Run.call_bind] at h
  split at h
  · cases h
  · obtain ⟨r, hr, h⟩ := Run.bind_ok_inv _ _ _ h
    cases r with
    | error err => simp [Run.fatal] at h
    | ok start =>
      have hs := stringToTime_loc w _ ev tz htz start hr
      simp only at h
      split at h
      · simp only [Run.pure_eq, Outcome.ok.injEq] at h
        subst h
        exact ⟨hs, by simp⟩
      · obtain ⟨r2, hr2, h⟩ := Run.bind_ok_inv _ _ _ h
        cases r2 with
        | error err => simp [Run.fatal] at h
        | ok end_ =>
          have he := stringToTime_loc w _ ev tz htz end_ hr2
          simp only [Run.pure_eq, Outcome.ok.injEq] at h
          subst h
          exact ⟨hs, fun _ => he⟩

theorem getAlerts_eq (w : World) (ev : Viper) :
    getAlerts w ev =
      ⟨(getAlertsLoop w ev (alertTexts ev) { Times := .null }).outcome,
        .get "alerts" :: (getAlertsLoop w ev (alertTexts ev) { Times := .null }).trace⟩ := rfl

/-- A loop of `getAlerts` that returns has appended the parsed time of each
raw text, in order. -/
theorem getAlertsLoop_ok (w : World) (ev : Viper) (raw : List String) :
    ∀ alerts a, (getAlertsLoop w ev raw alerts).outcome = .ok a →
      ∃ ts, a.Times.toList = alerts.Times.toList ++ ts ∧
        List.Forall₂ (fun v t => (stringToTime w v ev).outcome = .ok (.ok t)) raw ts := by
  induction raw with
  | nil =>
    intro alerts a h
    simp only [getAlertsLoop, Run.pure_eq, Outcome.ok.injEq] at h
    subst h
    exact ⟨[], by simp, List.Forall₂.nil⟩
  | cons v raw ih =>
    intro alerts a h
    simp only [getAlertsLoop, Run.bind_eq] at h
    obtain ⟨r, hr, h⟩ := Run.bind_ok_inv _ _ _ h
    cases r with
    | error err => simp [Run.fatal] at h
    | ok t =>
      obtain ⟨ts, hts, hall⟩ := ih _ _ h
      refine ⟨t :: ts, ?_, List.Forall₂.cons hr hall⟩
      rw [hts]
      simp [Slice.append, Slice.toList]

/-- The loop of `getAlerts` returns when every raw text parses. -/
theorem getAlertsLoop_returns (w : World) (ev : Viper) (raw : List String)
    (hall : ∀ v ∈ raw, ∃ t, (stringToTime w v ev).outcome = .ok (.ok t)) :
    ∀ alerts, ∃ a, (getAlertsLoop w ev raw alerts).outcome = .ok a := by
  induction raw with
  | nil => intro alerts; exact ⟨alerts, rfl⟩
  | cons v raw ih =>
    intro alerts
    obtain ⟨t, ht⟩ := hall v (by simp)
    simp only [getAlertsLoop, Run.bind_eq]
    rw [Run.bind_outcome_of_ok _ _ _ ht]
    exact ih (fun x hx => hall x (by simp [hx])) _

/-- The loop of `getAlerts` is fatal when some raw text does not parse. -/
theorem getAlertsLoop_fatal (w : World) (ev : Viper) (raw : List String)
    (hbad : ∃ v ∈ raw, ∀ t, (stringToTime w v ev).outcome ≠ .ok (.ok t)) :
    ∀ alerts, ∃ msg, (getAlertsLoop w ev raw alerts).outcome = .fatal msg := by
  induction raw with
  | nil => obtain ⟨v, hv, _⟩ := hbad; cases hv
  | cons x raw ih =>
    intro alerts
    simp only [getAlertsLoop, Run.bind_eq]
    rcases stringToTime_outcome w x ev with ⟨r, hr⟩ | ⟨msg, hmsg, _⟩
    · rw [Run.bind_outcome_of_ok _ _ r hr]
      cases r with
      | error err => exact ⟨_, rfl⟩
      | ok t =>
        simp only
        apply ih
        obtain ⟨v, hv, hno⟩ := hbad
        rcases List.mem_cons.mp hv with rfl | hv
        · exact absurd hr (hno t)
        · exact ⟨v, hv, hno⟩
    · exact ⟨msg, Run.bind_outcome_of_fatal _ _ msg hmsg⟩

/-- How `getAlerts` ends: with the alerts or with a fatal error. -/
theorem getAlerts_outcome (w : World) (ev : Viper) :
    (∃ a, (getAlerts w ev).outcome = .ok a) ∨ ∃ msg, (getAlerts w ev).outcome = .fatal msg := by
  rw [getAlerts_eq]
  by_cases hall : ∀ v ∈ alertTexts ev, ∃ t, (stringToTime w v ev).outcome = .ok (.ok t)
  · exact Or.inl (getAlertsLoop_returns w ev _ hall _)
  · right
    apply getAlertsLoop_fatal
    push_neg at hall
    exact hall

theorem getAlerts_loc (w : World) (ev : Viper) (tz : TimeLocation)
    (htz : (getTimezone w ev).outcome = .ok tz) (a : Alert)
    (h : (getAlerts w ev).outcome = .ok a) : ∀ t ∈ a.Times.toList, t.loc = tz := by
  rw [getAlerts_eq] at h
  obtain ⟨ts, hts, hall⟩ := getAlertsLoop_ok w ev _ _ a h
  intro t ht
  rw [hts] at ht
  simp only [Slice.toList, List.nil_append] at ht
  obtain ⟨v, _, hv⟩ := forall2_of_mem_right hall t ht
  exact stringToTime_loc w v ev tz htz t hv

/-! ## What assigning "isRoot" leaves unchanged -/

theorem getTimezone_setRoot (w : World) (ev : Viper) (b : Bool) :
    getTimezone w (ev.Set "isRoot" (.bool b)) = getTimezone w ev := by
  rw [getTimezone_eq, getTimezone_eq, GetString_setRoot ev b "timezone" (by decide)]

theorem stringToTime_setRoot (w : World) (s : String) (ev : Viper) (b : Bool) :
    stringToTime w s (ev.Set "isRoot" (.bool b)) = stringToTime w s ev := by
  simp only [stringToTime, getTimezone_setRoot]

theorem getTitle_setRoot (ev : Viper) (b : Bool) :
    getTitle (ev.Set "isRoot" (.bool b)) = getTitle ev := by
  rw [getTitle_eq, getTitle_eq, GetString_setRoot ev b "title" (by decide)]

theorem getTime_setRoot (w : World) (ev : Viper) (b : Bool) :
    getTime w (ev.Set "isRoot" (.bool b)) = getTime w ev := by
  simp only [getTime, stringToTime_setRoot, GetString_setRoot ev b "time" (by decide)]

theorem getAlertsLoop_setRoot (w : World) (ev : Viper) (b : Bool) (raw : List String) :
    ∀ alerts, getAlertsLoop w (ev.Set "isRoot" (.bool b)) raw alerts
      = getAlertsLoop w ev raw alerts := by
  induction raw with
  | nil => intro alerts; rfl
  | cons v raw ih =>
    intro alerts
    simp only [getAlertsLoop, stringToTime_setRoot, ih]

theorem alertTexts_setRoot (ev : Viper) (b : Bool) :
    alertTexts (ev.Set "isRoot" (.bool b)) = alertTexts ev := by
  simp only [alertTexts, Viper.GetStringMapStringSlice, Get_setRoot ev b "alerts" (by decide)]

theorem getAlerts_setRoot (w : World) (ev : Viper) (b : Bool) :
    getAlerts w (ev.Set "isRoot" (.bool b)) = getAlerts w ev := by
  rw [getAlerts_eq, getAlerts_eq, alertTexts_setRoot, getAlertsLoop_setRoot]

/-! ## How `NewEvent` ends before the schedule -/

theorem getTitle_outcome (ev : Viper) :
    (∃ t, (getTitle ev).outcome = .ok t) ∨ ∃ msg, (getTitle ev).outcome = .fatal msg := by
  rw [getTitle_eq]
  split
  · exact Or.inl ⟨_, rfl⟩
  · exact Or.inr ⟨_, rfl⟩

/-- A fatal `getTime` makes `NewEvent` fatal. -/
theorem NewEvent_fatal_of_time (fuel : Nat) (w : World) (ev : Viper) (b : Bool)
    (h : ∃ msg, (getTime w ev).outcome = .fatal msg) :
    ∃ msg, (NewEvent (fuel + 1) w ev b).outcome = .fatal msg := by
  obtain ⟨msg, hmsg⟩ := h
  simp only [NewEvent, Run.bind_eq, getTitle_setRoot, getTime_setRoot]
  rcases getTitle_outcome ev with ⟨t, ht⟩ | ⟨m, hm⟩
  · rw [Run.bind_outcome_of_ok _ _ t ht]
    exact ⟨msg, Run.bind_outcome_of_fatal _ _ msg hmsg⟩
  · exact ⟨m, Run.bind_outcome_of_fatal _ _ m hm⟩

/-- A fatal `getAlerts` makes `NewEvent` fatal. -/
theorem NewEvent_fatal_of_alerts (fuel : Nat) (w : World) (ev : Viper) (b : Bool)
    (h : ∃ msg, (getAlerts w ev).outcome = .fatal msg) :
    ∃ msg, (NewEvent (fuel + 1) w ev b).outcome = .fatal msg := by
  obtain ⟨msg, hmsg⟩ := h
  rcases getTime_outcome w ev with ⟨tm, htm⟩ | hfatal
  · simp only [NewEvent, Run.bind_eq, getTitle_setRoot, getTime_setRoot, getAlerts_setRoot]
    rcases getTitle_outcome ev with ⟨t, ht⟩ | ⟨m, hm⟩
    · rw [Run.bind_outcome_of_ok _ _ t ht, Run.bind_outcome_of_ok _ _ tm htm]
      simp only [getLocations, Run.pure_eq]
      rw [Run.bind_outcome_of_ok _ _ _ rfl, getMembers_eq, Run.bind_outcome_of_ok _ _ _ rfl]
      exact ⟨msg, Run.bind_outcome_of_fatal _ _ msg hmsg⟩
    · exact ⟨m, Run.bind_outcome_of_fatal _ _ m hm⟩
  · exact NewEvent_fatal_of_time fuel w ev b hfatal

/-- The zone of every timestamp of an event that `NewEvent` returns is the zone
`getTimezone` gives for its source. -/
theorem NewEvent_times_loc (fuel : Nat) (w : World) (ev : Viper) (b : Bool) (tz : TimeLocation)
    (htz : (getTimezone w ev).outcome = .ok tz) (e : Event)
    (h : (NewEvent fuel w ev b).outcome = .ok e) :
    e.Time.Start.loc = tz ∧ (e.Time.Period = true → e.Time.End.loc = tz) ∧
      ∀ t ∈ e.Alert.Times.toList, t.loc = tz := by
  cases fuel with
  | zero => simp [NewEvent] at h
  | succ fuel =>
    obtain ⟨title, time, members, alert, notes, schedule, _, h2, _, h5, _, _, rfl⟩ :=
      NewEvent_ok_inv fuel w ev b e h
    rw [getTime_setRoot] at h2
    rw [getAlerts_setRoot] at h5
    obtain ⟨hs, he⟩ := getTime_loc w ev tz htz time h2
    exact ⟨hs, he, getAlerts_loc w ev tz htz alert h5⟩

theorem stringToTime_fatal_of_zone (w : World) (s : String) (ev : Viper) (msg : String)
    (h : (getTimezone w ev).outcome = .fatal msg) :
    (stringToTime w s ev).outcome = .fatal msg := by
  simp only [stringToTime, Run.bind_eq]
  exact Run.bind_outcome_of_fatal _ _ msg h

/-- A fatal `getTimezone` makes `getTime` fatal. -/
theorem getTime_fatal_of_zone (w : World) (ev : Viper) (msg : String)
    (h : (getTimezone w ev).outcome = .fatal msg) :
    ∃ m, (getTime w ev).outcome = .fatal m := by
  simp only [getTime, Run.bind_eq, Run.call_bind]
  split
  · exact ⟨_, rfl⟩
  · exact ⟨msg, Run.bind_outcome_of_fatal _ _ msg (stringToTime_fatal_of_zone w _ ev msg h)⟩

theorem getTimezone_of_empty (w : World) (ev : Viper) (h : ev.GetString "timezone" = "") :
    getTimezone w ev = ⟨.ok TimeLocation.Local, [.get "timezone"]⟩ := by
  rw [getTimezone_eq]
  simp [h]

theorem alertTexts_of_absent (ev : Viper) :
    (ev.Get "alerts" = .null → alertTexts ev = []) ∧
    (lookupKey "time" (ev.GetStringMapStringSlice "alerts") = none → alertTexts ev = []) := by
  constructor
  · intro h
    simp [alertTexts, Viper.GetStringMapStringSlice, h, castToStringMapStringSlice, lookupKey,
      Slice.toList]
  · intro h
    simp [alertTexts, h, Slice.toList]

theorem getAlerts_of_no_texts (w : World) (ev : Viper) (h : alertTexts ev = []) :
    getAlerts w ev = ⟨.ok { Times := .null }, [.get "alerts"]⟩ := by
  rw [getAlerts_eq, h]
  rfl

/-! ## File discovery: the first entry with the prefix -/

theorem findEventConfigLoop_skip (w : World) (pfx : String) (pre rest : List String)
    (h : ∀ f ∈ pre, stringsHasPrefix f pfx = false) :
    findEventConfigLoop w pfx (pre ++ rest) = findEventConfigLoop w pfx rest := by
  induction pre with
  | nil => rfl
  | cons f pre ih =>
    have hf : stringsHasPrefix f pfx = false := h f (by simp)
    simp only [List.cons_append, findEventConfigLoop, hf]
    exact ih (fun g hg => h g (by simp [hg]))

/-- What the loop of `findEventConfig` does at an entry that has the prefix. -/
theorem findEventConfigLoop_match (w : World) (pfx name : String) (rest : List String)
    (hname : stringsHasPrefix name pfx = true) :
    findEventConfigLoop w pfx (name :: rest) =
      if (filepathExt name).data.length < 1 then
        ⟨.panic "runtime error: slice bounds out of range [1:0]", []⟩
      else
        match w.ReadInConfig name ⟨(filepathExt name).data.drop 1⟩ with
        | .error err =>
          ⟨.fatal ("Fail to read event config: err:  " ++ err ++ "\n"), [.readInConfig name]⟩
        | .ok doc =>
          ⟨.ok (.ok ⟨⟨(filepathExt name).data.drop 1⟩,
            [("configtype", .str ⟨(filepathExt name).data.drop 1⟩)], doc⟩),
            [.readInConfig name]⟩ := by
  simp only [findEventConfigLoop, hname, if_true]
  split
  · rfl
  · simp only [Run.bind_eq, Run.call_bind]
    cases w.ReadInConfig name ⟨(filepathExt name).data.drop 1⟩ <;> rfl

/-- The loop of `findEventConfig` returns an error only when no entry has the
prefix. -/
theorem findEventConfigLoop_error_inv (w : World) (pfx : String) (files : List String)
    (m : String) (h : (findEventConfigLoop w pfx files).outcome = .ok (.error m)) :
    ∀ f ∈ files, stringsHasPrefix f pfx = false := by
  induction files with
  | nil => simp
  | cons name rest ih =>
    cases hname : stringsHasPrefix name pfx with
    | true =>
      rw [findEventConfigLoop_match w pfx name rest hname] at h
      split at h
      · cases h
      · cases hr : w.ReadInConfig name ⟨(filepathExt name).data.drop 1⟩ with
        | error err => rw [hr] at h; cases h
        | ok doc => rw [hr] at h; cases h
    | false =>
      simp only [findEventConfigLoop, hname] at h
      intro f hf
      rcases List.mem_cons.mp hf with rfl | hf
      · exact hname
      · exact ih (by simpa using h) f hf

/-- A source that the loop of `findEventConfig` returns was read from the first
entry that has the prefix, under the extension of its name. -/
theorem findEventConfigLoop_ok_inv (w : World) (pfx : String) (files : List String)
    (sub : Viper) (tr : List Effect)
    (h : findEventConfigLoop w pfx files = ⟨.ok (.ok sub), tr⟩) :
    ∃ pre name post doc, files = pre ++ name :: post ∧
      (∀ f ∈ pre, stringsHasPrefix f pfx = false) ∧ stringsHasPrefix name pfx = true ∧
      (filepathExt name).data = '.' :: sub.configType.data ∧
      w.ReadInConfig name sub.configType = .ok doc ∧
      sub = ⟨sub.configType, [("configtype", .str sub.configType)], doc⟩ ∧
      tr = [.readInConfig name] := by
  induction files with
  | nil => simp [findEventConfigLoop, Run.pure_eq] at h
  | cons name rest ih =>
    cases hname : stringsHasPrefix name pfx with
    | true =>
      rw [findEventConfigLoop_match w pfx name rest hname] at h
      split at h
      · cases h
      · rename_i hlen
        cases hr : w.ReadInConfig name ⟨(filepathExt name).data.drop 1⟩ with
        | error err => rw [hr] at h; cases h
        | ok doc =>
          rw [hr] at h
          simp only [Run.mk.injEq, Outcome.ok.injEq, Except.ok.injEq] at h
          obtain ⟨hsub, htr⟩ := h
          subst hsub
          refine ⟨[], name, rest, doc, rfl, by simp, hname, ?_, hr, rfl, htr.symm⟩
          simp only
          cases hd : (filepathExt name).data with
          | nil => rw [hd] at hlen; simp at hlen
          | cons c cs =>
            have hc : c = '.' := by
              have hext : ∀ l acc, extAux l acc = [] ∨ ∃ r, extAux l acc = '.' :: r := by
                intro l
                induction l with
                | nil => intro acc; exact Or.inl rfl
                | cons x l ihl =>
                  intro acc
                  simp only [extAux]
                  split
                  · exact Or.inl rfl
                  · split
                    · exact Or.inr ⟨_, rfl⟩
                    · exact ihl _
              rcases hext name.data.reverse [] with h0 | ⟨r, hr2⟩
              · simp only [filepathExt] at hd
                rw [h0] at hd
                cases hd
              · simp only [filepathExt] at hd
                rw [hr2] at hd
                simp only [List.cons.injEq] at hd
                exact hd.1.symm
            rw [hc]
            rfl
    | false =>
      simp only [findEventConfigLoop, hname] at h
      obtain ⟨pre, n, post, doc, hfiles, hpre, hn, hext, hread, hsub, htr⟩ := ih (by simpa using h)
      refine ⟨name :: pre, n, post, doc, by rw [hfiles]; rfl, ?_, hn, hext, hread, hsub, htr⟩
      intro f hf
      rcases List.mem_cons.mp hf with rfl | hf
      · exact hname
      · exact hpre f hf

/-- Go `filepath.Ext` of a name whose last dot is followed by `b`. -/
theorem extAux_of_dot (b : List Char) (hdot : '.' ∉ b) (hsep : '/' ∉ b) (rest : List Char) :
    ∀ acc, extAux (b.reverse ++ '.' :: rest) acc = '.' :: (b ++ acc) := by
  induction b using List.reverseRecOn with
  | nil => intro acc; simp [extAux]
  | append_singleton b c ih =>
    intro acc
    have hc1 : c ≠ '/' := fun h => hsep (by simp [h])
    have hc2 : c ≠ '.' := fun h => hdot (by simp [h])
    simp only [List.reverse_append, List.reverse_cons, List.reverse_nil, List.nil_append,
      List.singleton_append, List.cons_append, extAux, hc1, hc2, if_false]
    rw [ih (fun h => hdot (by simp [h])) (fun h => hsep (by simp [h]))]
    simp

theorem filepathExt_of_dot (a b : List Char) (hdot : '.' ∉ b) (hsep : '/' ∉ b) :
    filepathExt ⟨a ++ '.' :: b⟩ = ⟨'.' :: b⟩ := by
  simp only [filepathExt, List.reverse_append, List.reverse_cons, List.append_assoc,
    List.singleton_append]
  rw [extAux_of_dot b hdot hsep a.reverse []]
  simp

/-- Go `filepath.Ext` of a name without a dot is empty. -/
theorem extAux_of_no_dot (l : List Char) (hdot : '.' ∉ l) : ∀ acc, extAux l acc = [] := by
  induction l with
  | nil => intro acc; rfl
  | cons c l ih =>
    intro acc
    have hc : c ≠ '.' := fun h => hdot (by simp [h])
    simp only [extAux, hc, if_false]
    split
    · rfl
    · exact ih (fun h => hdot (by simp [h])) _

theorem filepathExt_of_no_dot (name : String) (hdot : '.' ∉ name.data) :
    filepathExt name = "" := by
  simp only [filepathExt]
  rw [extAux_of_no_dot name.data.reverse (by simpa using hdot) []]

theorem findEventConfig_eq (w : World) (pfx : String) (files : List String)
    (hdir : w.ReadDir w.workspace = .ok files) :
    findEventConfig w pfx =
      ⟨(findEventConfigLoop w pfx files).outcome,
        .readDir w.workspace :: (findEventConfigLoop w pfx files).trace⟩ := by
  simp only [findEventConfig, Run.bind_eq, Run.call_bind, hdir]

/-- A source that `findEventConfig` returns was read from the first entry of
the listing that has the prefix, under the extension of its name. -/
theorem findEventConfig_ok_inv (w : World) (pfx : String) (files : List String)
    (hdir : w.ReadDir w.workspace = .ok files) (sub : Viper) (tr : List Effect)
    (h : findEventConfig w pfx = ⟨.ok (.ok sub), tr⟩) :
    ∃ pre name post doc, files = pre ++ name :: post ∧
      (∀ f ∈ pre, stringsHasPrefix f pfx = false) ∧ stringsHasPrefix name pfx = true ∧
      (filepathExt name).data = '.' :: sub.configType.data ∧
      w.ReadInConfig name sub.configType = .ok doc ∧
      sub = ⟨sub.configType, [("configtype", .str sub.configType)], doc⟩ ∧
      tr = [.readDir w.workspace, .readInConfig name] := by
  rw [findEventConfig_eq w pfx files hdir] at h
  simp only [Run.mk.injEq] at h
  obtain ⟨hout, htr⟩ := h
  obtain ⟨pre, name, post, doc, hfiles, hpre, hname, hext, hread, hsub, htr2⟩ :=
    findEventConfigLoop_ok_inv w pfx files sub _ (Run.eq_of_outcome _ _ hout)
  refine ⟨pre, name, post, doc, hfiles, hpre, hname, hext, hread, hsub, ?_⟩
  rw [← htr, htr2]

/-- What `findEventConfig` does when the first entry with the prefix has an
extension. -/
theorem findEventConfig_at_first (w : World) (pfx : String) (pre post : List String)
    (name : String) (b : List Char) (hdir : w.ReadDir w.workspace = .ok (pre ++ name :: post))
    (hpre : ∀ f ∈ pre, stringsHasPrefix f pfx = false)
    (hname : stringsHasPrefix name pfx = true)
    (hext : (filepathExt name).data = '.' :: b) :
    findEventConfig w pfx =
      match w.ReadInConfig name ⟨b⟩ with
      | .error err =>
        ⟨.fatal ("Fail to read event config: err:  " ++ err ++ "\n"),
          [.readDir w.workspace, .readInConfig name]⟩
      | .ok doc =>
        ⟨.ok (.ok ⟨⟨b⟩, [("configtype", .str ⟨b⟩)], doc⟩),
          [.readDir w.workspace, .readInConfig name]⟩ := by
  rw [findEventConfig_eq w pfx _ hdir, findEventConfigLoop_skip w pfx pre _ hpre,
    findEventConfigLoop_match w pfx name post hname, hext]
  simp only [List.length_cons, List.drop_succ_cons, List.drop_zero]
  rw [if_neg (by omega)]
  cases w.ReadInConfig name ⟨b⟩ <;> rfl

/-- `findEventConfig` panics when the first entry with the prefix has no
extension. -/
theorem findEventConfig_panic (w : World) (pfx : String) (pre post : List String)
    (name : String) (hdir : w.ReadDir w.workspace = .ok (pre ++ name :: post))
    (hpre : ∀ f ∈ pre, stringsHasPrefix f pfx = false)
    (hname : stringsHasPrefix name pfx = true)
    (hext : filepathExt name = "") :
    findEventConfig w pfx =
      ⟨.panic "runtime error: slice bounds out of range [1:0]", [.readDir w.workspace]⟩ := by
  rw [findEventConfig_eq w pfx _ hdir, findEventConfigLoop_skip w pfx pre _ hpre,
    findEventConfigLoop_match w pfx name post hname, hext]
  rfl

/-! ## Trimming -/

theorem contains_space (c : Char) : (" ".data.contains c) = true ↔ c = ' ' := by
  by_cases h : c = ' '
  · subst h
    simp [List.contains, List.elem]
  · have hb : (c == ' ') = false := by simpa using h
    simp [List.contains, List.elem, hb, h]

/-- Go `strings.Trim(s, " ")` does not see runs of spaces around a text. -/
theorem stringsTrim_spaces (w1 t w2 : List Char) (h1 : ∀ c ∈ w1, c = ' ')
    (h2 : ∀ c ∈ w2, c = ' ') :
    stringsTrim ⟨w1 ++ t ++ w2⟩ " " = stringsTrim ⟨t⟩ " " := by
  have hp1 : ∀ c ∈ w1, (" ".data.contains c) = true := fun c hc =>
    (contains_space c).2 (h1 c hc)
  have hp2 : ∀ c ∈ w2.reverse, (" ".data.contains c) = true := fun c hc =>
    (contains_space c).2 (h2 c (by simpa using hc))
  have hp3 : ∀ c ∈ w2, (" ".data.contains c) = true := fun c hc =>
    (contains_space c).2 (h2 c hc)
  unfold stringsTrim
  simp only [List.append_assoc]
  rw [List.dropWhile_append_of_pos hp1, List.dropWhile_append]
  split
  · rename_i hempty
    have h0 : List.dropWhile (fun c => " ".data.contains c) t = [] := by
      simpa using hempty
    have h3 : List.dropWhile (fun c => " ".data.contains c) w2 = [] := by
      rw [List.dropWhile_eq_nil_iff]
      exact hp3
    rw [h0, h3]
  · rw [List.reverse_append, List.dropWhile_append_of_pos hp2]

/-! ## The claims, continued -/

/-- Claim C11: the `Schedule` of an event that `NewEvent` returns has exactly one
child per identifier of the "schedule" list, and the i-th child is the event
that the recursive call returned for the source the i-th identifier resolves
to (the inline source, or the one `findEventConfig` loads): order is kept, no
entry is skipped or doubled. -/
theorem schedule_in_order (fuel : Nat) (w : World) (ev : Viper) (b : Bool) (e : Event)
    (h : (NewEvent (fuel + 1) w ev b).outcome = .ok e) :
    e.Schedule.toList.length = (ev.GetStringSlice "schedule").toList.length ∧
    List.Forall₂
      (fun id c => ∃ sub, Resolves w (ev.Set "isRoot" (.bool b)) id sub ∧
        (NewEvent fuel w sub false).outcome = .ok c)
      (ev.GetStringSlice "schedule").toList e.Schedule.toList := by
  have h2 := NewEvent_schedule_forall2 fuel w ev b e h
  exact ⟨h2.length_eq.symm, h2⟩

/-- Claim C11 on the test document: four identifiers, four children, in the
order of the list; and on the nested identifier "days.one", whose child is
built from the map under "days", key "one", not from the file `days.one.yaml`
of the workspace. -/
theorem schedule_in_order_witness :
    (expectedEvent.Schedule.toList.length = 4 ∧
      List.Forall₂
        (fun id c => ∃ sub, Resolves testWorld (testSource.Set "isRoot" (.bool true)) id sub ∧
          (NewEvent 1 testWorld sub false).outcome = .ok c)
        ["event1", "event2", "event3", "event4"] expectedEvent.Schedule.toList) ∧
    Resolves nestedWorld (nestedSource.Set "isRoot" (.bool true)) "days.one"
      (inlineSource "" [("title", .str "day one"), ("time", .str "2016-01-21 09:00")]) ∧
    List.Forall₂
      (fun id c => ∃ sub, Resolves nestedWorld (nestedSource.Set "isRoot" (.bool true)) id sub ∧
        (NewEvent 1 nestedWorld sub false).outcome = .ok c)
      ["days.one"] [leafEvent "day one" ⟨2016, 1, 21, 9, 0, 0, 0, TimeLocation.Local⟩] :=
  ⟨schedule_in_order 1 testWorld testSource true expectedEvent rfl,
    Or.inl ⟨by decide, rfl⟩,
    (schedule_in_order 1 nestedWorld nestedSource true
      (Event.mk "trip"
        { Start := ⟨2016, 1, 20, 10, 0, 0, 0, TimeLocation.Local⟩, End := GoTime.zero,
          Period := false }
        (.items []) (.items [])
        (.items [leafEvent "day one" ⟨2016, 1, 21, 9, 0, 0, 0, TimeLocation.Local⟩])
        { Times := .null } (.items []) true) rfl).2⟩

/-- Every descendant of an event that `NewEvent` returns is the result of a call
below that call. -/
theorem descendant_reached (w : World) :
    ∀ fuel ev b e, (NewEvent fuel w ev b).outcome = .ok e →
      ∀ d, Descendant e d → ∃ fuel1 sub,
        Reaches w fuel ev b fuel1 sub false ∧ (NewEvent fuel1 w sub false).outcome = .ok d := by
  intro fuel
  induction fuel with
  | zero => intro ev b e h; simp [NewEvent] at h
  | succ fuel ih =>
    intro ev b e h d hd
    have h2 := NewEvent_schedule_forall2 fuel w ev b e h
    have hids := GetStringSlice_setRoot ev b "schedule" (by decide)
    cases hd with
    | child hc =>
      obtain ⟨id, hid, sub, hres, hsub⟩ := forall2_of_mem_right h2 d hc
      exact ⟨fuel, sub, Reaches.entry (by rw [hids]; exact hid) hres (Reaches.self _ _ _), hsub⟩
    | deeper hc hcd =>
      obtain ⟨id, hid, sub, hres, hsub⟩ := forall2_of_mem_right h2 _ hc
      obtain ⟨fuel1, sub1, hreach, hbuilt⟩ := ih sub false _ hsub d hcd
      exact ⟨fuel1, sub1, Reaches.entry (by rw [hids]; exact hid) hres hreach, hbuilt⟩

/-- Claim C12: fail-fast, no partial tree. When a call of `NewEvent` for a
schedule entry, at any depth below the root call, returns no event, the root
call returns no event either; the first entry that fails ends the parent with
the same fatal error; and whenever `NewEvent` returns an event, every node of
its `Schedule` tree is the result of a call below the root that returned. -/
theorem fail_fast (w : World) (ev : Viper) (b : Bool) :
    (∀ fuel fuel1 sub1 b1, Reaches w fuel ev b fuel1 sub1 b1 →
      (∀ x, (NewEvent fuel1 w sub1 b1).outcome ≠ .ok x) →
      ∀ x, (NewEvent fuel w ev b).outcome ≠ .ok x) ∧
    (∀ fuel pre id post msg,
      (ev.GetStringSlice "schedule").toList = pre ++ id :: post →
      (∃ t, (getTitle ev).outcome = .ok t) →
      (∃ t, (getTime w ev).outcome = .ok t) →
      (∃ a, (getAlerts w ev).outcome = .ok a) →
      (∀ x ∈ pre, ∃ c,
        (scheduleEntry (NewEvent fuel w) w (ev.Set "isRoot" (.bool b)) x).outcome = .ok c) →
      (scheduleEntry (NewEvent fuel w) w (ev.Set "isRoot" (.bool b)) id).outcome = .fatal msg →
      (NewEvent (fuel + 1) w ev b).outcome = .fatal msg) ∧
    (∀ fuel e, (NewEvent fuel w ev b).outcome = .ok e →
      ∀ d, Descendant e d → ∃ fuel1 sub,
        Reaches w fuel ev b fuel1 sub false ∧ (NewEvent fuel1 w sub false).outcome = .ok d) := by
  refine ⟨?_, ?_, ?_⟩
  · intro fuel fuel1 sub1 b1 hr hno
    exact NewEvent_not_ok_of_reaches w fuel ev b fuel1 sub1 b1 hr hno
  · intro fuel pre id post msg hs ⟨t, ht⟩ ⟨tm, htm⟩ ⟨a, ha⟩ hpre hfail
    rw [← getTitle_setRoot ev b] at ht
    rw [← getTime_setRoot w ev b] at htm
    rw [← getAlerts_setRoot w ev b] at ha
    rw [NewEvent_outcome_of_fields fuel w ev b t tm a ht htm ha]
    have hloop := (getScheduleLoop_first_failure (NewEvent fuel w) w _ id post pre hpre
      (.items [])).1 msg hfail
    simp only [getSchedule, Run.bind_eq, Run.call_bind,
      GetStringSlice_setRoot ev b "schedule" (by decide), hs]
    exact Run.bind_outcome_of_fatal ⟨_, _⟩ _ msg hloop
  · intro fuel e h d hd
    exact descendant_reached w fuel ev b e h d hd

/-- Claim C12 on `brokenChildSource`: the inline child "bad" has no title, and
the root call returns no event. -/
theorem fail_fast_witness :
    (NewEvent 1 emptyWorld
      (inlineSource "" [("time", .str "2016-01-20 10:00")]) false).outcome
        = .fatal "No title for event" ∧
    ¬ ∃ x, (NewEvent 2 emptyWorld brokenChildSource true).outcome = .ok x :=
  ⟨rfl, fun ⟨x, hx⟩ =>
    (fail_fast emptyWorld brokenChildSource true).1 2 1
      (inlineSource "" [("time", .str "2016-01-20 10:00")]) false
      (Reaches.entry (e := "bad") (by decide) (Or.inl ⟨by decide, rfl⟩) (Reaches.self _ _ _))
      (fun y hy => by cases hy) x hx⟩

/-- Claim C13: an inline child does not inherit the timezone of its parent.
Whatever "timezone" the parent source `ev` declares, when the nested map of
identifier `e` is non-empty and binds no key "timezone" (keys compare without
regard to case, as in the reader), `getSchedule` builds the child from a
source for which `getTimezone` gives `time.Local`, and the start, the end of a
period and every alert time of the child that is built are in `time.Local`. -/
theorem inline_child_zone (w : World) (ev : Viper) (e : String)
    (hmap : 1 ≤ (ev.GetStringMap e).length)
    (hno : ∀ kv ∈ ev.GetStringMap e, lcase kv.1 ≠ "timezone") :
    (∀ build, (scheduleEntry build w ev e).outcome =
      (build (inlineSource (ev.GetString "configType") (ev.GetStringMap e)) false).outcome) ∧
    getTimezone w (inlineSource (ev.GetString "configType") (ev.GetStringMap e))
      = ⟨.ok TimeLocation.Local, [.get "timezone"]⟩ ∧
    ∀ fuel c, (scheduleEntry (NewEvent fuel w) w ev e).outcome = .ok c →
      c.Time.Start.loc = TimeLocation.Local ∧
      (c.Time.Period = true → c.Time.End.loc = TimeLocation.Local) ∧
      ∀ t ∈ c.Alert.Times.toList, t.loc = TimeLocation.Local := by
  have hres : Resolves w ev e (inlineSource (ev.GetString "configType") (ev.GetStringMap e)) :=
    Or.inl ⟨hmap, rfl⟩
  have hget : (inlineSource (ev.GetString "configType") (ev.GetStringMap e)).GetString "timezone"
      = "" := by
    have hl : lcase "timezone" = "timezone" := by decide
    exact inlineSource_GetString_empty _ "timezone" (ev.GetStringMap e) (by decide)
      (by rw [hl]; exact hno)
  have hzone := getTimezone_of_empty w _ hget
  refine ⟨fun build => scheduleEntry_of_resolves build w ev e _ hres, hzone, ?_⟩
  intro fuel c hc
  rw [scheduleEntry_of_resolves (NewEvent fuel w) w ev e _ hres] at hc
  exact NewEvent_times_loc fuel w _ false TimeLocation.Local (by rw [hzone]) c hc

/-- Claim C13 on the test document: the parent is in Asia/Taipei, and the
child built for "event1" is in `time.Local`. -/
theorem inline_child_zone_witness :
    (getTimezone testWorld testSource).outcome = .ok taipei ∧
    (∃ c, (scheduleEntry (NewEvent 1 testWorld) testWorld testSource "event1").outcome
      = .ok c) ∧
    ∀ fuel c, (scheduleEntry (NewEvent fuel testWorld) testWorld testSource "event1").outcome
        = .ok c →
      c.Time.Start.loc = TimeLocation.Local ∧
      (c.Time.Period = true → c.Time.End.loc = TimeLocation.Local) ∧
      ∀ t ∈ c.Alert.Times.toList, t.loc = TimeLocation.Local :=
  ⟨rfl, ⟨_, rfl⟩,
    (inline_child_zone testWorld testSource "event1" (by decide) (by decide)).2.2⟩

/-- Claim C16: alerts. When every raw text under "alerts" / "time" parses,
`getAlerts` returns; the `Alert.Times` it returns (which is the `Alert` of the
event `NewEvent` returns) has the length of that list and its i-th element is
what `stringToTime` gives for the i-th raw text. When "alerts" or its "time"
entry is absent, `getAlerts` returns the empty (nil) sequence without error and
the build goes on to the schedule. When some raw text does not parse,
`getAlerts` is fatal and so is `NewEvent`. -/
theorem alerts_in_order (w : World) (ev : Viper) :
    ((∀ v ∈ alertTexts ev, ∃ t, (stringToTime w v ev).outcome = .ok (.ok t)) →
      ∃ a, (getAlerts w ev).outcome = .ok a) ∧
    (∀ a, (getAlerts w ev).outcome = .ok a →
      a.Times.toList.length = (alertTexts ev).length ∧
      List.Forall₂ (fun v t => (stringToTime w v ev).outcome = .ok (.ok t))
        (alertTexts ev) a.Times.toList) ∧
    (∀ fuel b e, (NewEvent fuel w ev b).outcome = .ok e →
      (getAlerts w ev).outcome = .ok e.Alert) ∧
    ((ev.Get "alerts" = .null → alertTexts ev = []) ∧
      (lookupKey "time" (ev.GetStringMapStringSlice "alerts") = none → alertTexts ev = [])) ∧
    (alertTexts ev = [] →
      getAlerts w ev = ⟨.ok { Times := .null }, [.get "alerts"]⟩ ∧
      (∀ fuel b e, (NewEvent fuel w ev b).outcome = .ok e → e.Alert.Times = .null) ∧
      ∀ fuel b t tm, (getTitle ev).outcome = .ok t → (getTime w ev).outcome = .ok tm →
        (NewEvent (fuel + 1) w ev b).outcome =
          (Run.bind (getSchedule (NewEvent fuel w) w (ev.Set "isRoot" (.bool b)))
            (fun schedule => Run.ret (Event.mk t tm (.items [])
              (Slice.appendAll (.items [])
                (((ev.Set "isRoot" (.bool b)).GetStringSlice "members").toList.map
                  (fun v => { Name := v })))
              schedule { Times := .null }
              (if ((ev.Set "isRoot" (.bool b)).GetStringSlice "notes").len = 0 then .items []
                else (ev.Set "isRoot" (.bool b)).GetStringSlice "notes") b))).outcome) ∧
    ((∃ v ∈ alertTexts ev, ∀ t, (stringToTime w v ev).outcome ≠ .ok (.ok t)) →
      (∃ msg, (getAlerts w ev).outcome = .fatal msg) ∧
      ∀ fuel b, ∃ msg, (NewEvent (fuel + 1) w ev b).outcome = .fatal msg) := by
  have hbuilt : ∀ fuel b e, (NewEvent fuel w ev b).outcome = .ok e →
      (getAlerts w ev).outcome = .ok e.Alert := by
    intro fuel b e h
    cases fuel with
    | zero => simp [NewEvent] at h
    | succ fuel =>
      obtain ⟨title, time, members, alert, notes, schedule, _, _, _, h5, _, _, rfl⟩ :=
        NewEvent_ok_inv fuel w ev b e h
      rw [getAlerts_setRoot] at h5
      exact h5
  refine ⟨fun hall => ?_, fun a h => ?_, hbuilt, alertTexts_of_absent ev, fun hnone => ?_,
    fun hbad => ?_⟩
  · rw [getAlerts_eq]
    exact getAlertsLoop_returns w ev _ hall _
  · rw [getAlerts_eq] at h
    obtain ⟨ts, hts, hall⟩ := getAlertsLoop_ok w ev _ _ a h
    have hts2 : a.Times.toList = ts := by rw [hts]; rfl
    rw [hts2]
    exact ⟨hall.length_eq.symm, hall⟩
  · have hget := getAlerts_of_no_texts w ev hnone
    refine ⟨hget, fun fuel b e h => ?_, fun fuel b t tm ht htm => ?_⟩
    · have h2 := hbuilt fuel b e h
      rw [hget] at h2
      simp only [Outcome.ok.injEq] at h2
      rw [← h2]
    · exact NewEvent_outcome_of_fields fuel w ev b t tm { Times := .null }
        (by rw [getTitle_setRoot]; exact ht) (by rw [getTime_setRoot]; exact htm)
        (by rw [getAlerts_setRoot, hget])
  · have hfatal : ∃ msg, (getAlerts w ev).outcome = .fatal msg := by
      rw [getAlerts_eq]
      exact getAlertsLoop_fatal w ev _ hbad _
    exact ⟨hfatal, fun fuel b => NewEvent_fatal_of_alerts fuel w ev b hfatal⟩

/-- Claim C16 on the test document: one raw alert text, one alert time, the
one `stringToTime` gives for it. -/
theorem alerts_in_order_witness :
    alertTexts testSource = ["2016.01.19 10:00:00"] ∧
    expectedEvent.Alert.Times.toList.length = (alertTexts testSource).length ∧
      List.Forall₂ (fun v t => (stringToTime testWorld v testSource).outcome = .ok (.ok t))
        (alertTexts testSource) expectedEvent.Alert.Times.toList :=
  ⟨rfl, (alerts_in_order testWorld testSource).2.1 expectedEvent.Alert rfl⟩

/-- Claim C17: `getTimezone`. A source whose "timezone" is absent or empty gets
`time.Local`. A non-empty name that `time.LoadLocation` knows gets the zone
loaded for it, and every timestamp `stringToTime` parses for the source, hence
the start, the end and the alert times of the event built from it, is in that
zone. A non-empty name that `time.LoadLocation` rejects makes `getTimezone`
fatal, and with it every build of the source. -/
theorem timezone_resolution (w : World) (ev : Viper) :
    ((ev.Get "timezone" = .null ∨ ev.GetString "timezone" = "") →
      getTimezone w ev = ⟨.ok TimeLocation.Local, [.get "timezone"]⟩) ∧
    (∀ z, ev.GetString "timezone" ≠ "" → w.LoadLocation (ev.GetString "timezone") = .ok z →
      getTimezone w ev
        = ⟨.ok z, [.get "timezone", .loadLocation (ev.GetString "timezone")]⟩ ∧
      (∀ s t, (stringToTime w s ev).outcome = .ok (.ok t) → t.loc = z) ∧
      ∀ fuel b e, (NewEvent fuel w ev b).outcome = .ok e →
        e.Time.Start.loc = z ∧ (e.Time.Period = true → e.Time.End.loc = z) ∧
        ∀ t ∈ e.Alert.Times.toList, t.loc = z) ∧
    (∀ err, ev.GetString "timezone" ≠ "" →
      w.LoadLocation (ev.GetString "timezone") = .error err →
      getTimezone w ev
        = ⟨.fatal ("Invalid timezone name: " ++ ev.GetString "timezone" ++ " (" ++ err ++ ")\n"),
            [.get "timezone", .loadLocation (ev.GetString "timezone")]⟩ ∧
      (∀ s, ∃ msg, (stringToTime w s ev).outcome = .fatal msg) ∧
      ∀ fuel b, ∃ msg, (NewEvent (fuel + 1) w ev b).outcome = .fatal msg) := by
  refine ⟨fun h => ?_, fun z hne hz => ?_, fun err hne herr => ?_⟩
  · apply getTimezone_of_empty
    rcases h with h | h
    · simp only [Viper.GetString, h]
      rfl
    · exact h
  · have hzone : getTimezone w ev
        = ⟨.ok z, [.get "timezone", .loadLocation (ev.GetString "timezone")]⟩ := by
      rw [getTimezone_eq, if_pos hne, hz]
    have hout : (getTimezone w ev).outcome = .ok z := by rw [hzone]
    exact ⟨hzone, fun s t h => stringToTime_loc w s ev z hout t h,
      fun fuel b e h => NewEvent_times_loc fuel w ev b z hout e h⟩
  · have hzone : getTimezone w ev
        = ⟨.fatal ("Invalid timezone name: " ++ ev.GetString "timezone" ++ " (" ++ err ++ ")\n"),
            [.get "timezone", .loadLocation (ev.GetString "timezone")]⟩ := by
      rw [getTimezone_eq, if_pos hne, herr]
    have hout : (getTimezone w ev).outcome
        = .fatal ("Invalid timezone name: " ++ ev.GetString "timezone" ++ " (" ++ err ++ ")\n") := by
      rw [hzone]
    exact ⟨hzone, fun s => ⟨_, stringToTime_fatal_of_zone w s ev _ hout⟩,
      fun fuel b => NewEvent_fatal_of_time fuel w ev b (getTime_fatal_of_zone w ev _ hout)⟩

/-- Claim C17 on the test document (zone Asia/Taipei, every timestamp of the
root in it), on a source without "timezone" and on a source with an unknown
zone name. -/
theorem timezone_resolution_witness :
    (getTimezone testWorld testSource).outcome = .ok taipei ∧
    (expectedEvent.Time.Start.loc = taipei ∧
      (expectedEvent.Time.Period = true → expectedEvent.Time.End.loc = taipei) ∧
      ∀ t ∈ expectedEvent.Alert.Times.toList, t.loc = taipei) ∧
    getTimezone testWorld (plainSource "trip" "2016-01-20 10:00")
      = ⟨.ok TimeLocation.Local, [.get "timezone"]⟩ ∧
    ∃ msg, (NewEvent 1 testWorld badZoneSource true).outcome = .fatal msg :=
  ⟨rfl,
    ((timezone_resolution testWorld testSource).2.1 taipei (by decide) rfl).2.2
      2 true expectedEvent rfl,
    (timezone_resolution testWorld (plainSource "trip" "2016-01-20 10:00")).1 (Or.inl rfl),
    ((timezone_resolution testWorld badZoneSource).2.2 "unknown time zone" (by decide) rfl).2.2
      0 true⟩

/-- Claim C14, on the root of `TestNewEvent`: the source is read from a buffer
with declared format "yaml", yet the child source that `getSchedule` builds
for the inline entry "event1" has declared format "". The child gets the
value of the key "configType" of its parent, a key that only
`findEventConfig` assigns (as it does for `event4.yaml`), not the declared
format. The bindings of the nested map are assigned to the child as they
are, and the child is built with isRoot = false. -/
theorem inline_child_format :
    testSource.configType = "yaml" ∧
    (testSource.Set "isRoot" (.bool true)).configType = "yaml" ∧
    (testSource.Set "isRoot" (.bool true)).GetString "configType" = "" ∧
    (testSource.Set "isRoot" (.bool true)).GetStringMap "event1"
      = [("title", .str "event1"), ("time", .str "2016-01-20 10:00")] ∧
    (∀ build,
      (scheduleEntry build testWorld (testSource.Set "isRoot" (.bool true)) "event1").outcome
        = (build (inlineSource ""
            [("title", .str "event1"), ("time", .str "2016-01-20 10:00")]) false).outcome) ∧
    (inlineSource "" [("title", .str "event1"), ("time", .str "2016-01-20 10:00")]).configType
      = "" ∧
    (inlineSource "" [("title", .str "event1"), ("time", .str "2016-01-20 10:00")]).Get "title"
      = .str "event1" ∧
    (inlineSource "" [("title", .str "event1"), ("time", .str "2016-01-20 10:00")]).Get "time"
      = .str "2016-01-20 10:00" ∧
    (inlineSource "" [("title", .str "event1"), ("time", .str "2016-01-20 10:00")]).GetString
      "configType" = "" ∧
    (findEventConfig testWorld "event4").outcome
      = .ok (.ok ⟨"yaml", [("configtype", .str "yaml")], event4Doc⟩) :=
  ⟨rfl, rfl, rfl, rfl,
    fun build => scheduleEntry_of_resolves build testWorld _ "event1" _ (Or.inl ⟨by decide, rfl⟩),
    rfl, rfl, rfl, rfl, rfl⟩

/-- Claim C15 as stated fails on a listing whose first entry with the prefix
cannot be read: `findEventConfig` neither returns the "not found" error nor
loads the entry, it ends with a fatal error. -/
theorem findEventConfig_counterexample :
    malformedWorld.ReadDir malformedWorld.workspace = .ok ["event1.yaml"] ∧
    stringsHasPrefix "event1.yaml" "event1" = true ∧
    findEventConfig malformedWorld "event1" =
      ⟨.fatal ("Fail to read event config: err:  " ++
          "While parsing config: yaml: did not find expected key" ++ "\n"),
        [.readDir "/ws", .readInConfig "event1.yaml"]⟩ ∧
    ¬ ∃ r, (findEventConfig malformedWorld "event1").outcome = .ok r :=
  ⟨rfl, by decide, rfl, fun ⟨r, hr⟩ => by cases hr⟩

/-- Claim C15, amended: on a listing `files`, `findEventConfig` returns the
"not found" error exactly when no entry name starts with the prefix. When the
first entry that starts with the prefix, in listing order, has an extension
(its name ends in a dot followed by `b`, with neither dot nor separator in
`b`), that entry is read under the format `b`: if the read succeeds the loaded
source is returned with declared format `b`, if it fails `findEventConfig`
ends with a fatal error. -/
theorem findEventConfig_first_match (w : World) (pfx : String) (files : List String)
    (hdir : w.ReadDir w.workspace = .ok files) :
    ((findEventConfig w pfx).outcome = .ok (.error "Can\x27t find event config file") ↔
      ∀ f ∈ files, stringsHasPrefix f pfx = false) ∧
    (∀ m, (findEventConfig w pfx).outcome = .ok (.error m) →
      m = "Can\x27t find event config file") ∧
    (∀ pre name post a b, files = pre ++ name :: post →
      (∀ f ∈ pre, stringsHasPrefix f pfx = false) → stringsHasPrefix name pfx = true →
      name.data = a ++ '.' :: b → '.' ∉ b → '/' ∉ b →
      (∀ doc, w.ReadInConfig name ⟨b⟩ = .ok doc →
        findEventConfig w pfx =
          ⟨.ok (.ok ⟨⟨b⟩, [("configtype", .str ⟨b⟩)], doc⟩),
            [.readDir w.workspace, .readInConfig name]⟩) ∧
      (∀ err, w.ReadInConfig name ⟨b⟩ = .error err →
        findEventConfig w pfx =
          ⟨.fatal ("Fail to read event config: err:  " ++ err ++ "\n"),
            [.readDir w.workspace, .readInConfig name]⟩)) := by
  have hinv : ∀ m, (findEventConfig w pfx).outcome = .ok (.error m) →
      ∀ f ∈ files, stringsHasPrefix f pfx = false := by
    intro m h
    rw [findEventConfig_eq w pfx files hdir] at h
    exact findEventConfigLoop_error_inv w pfx files m h
  refine ⟨⟨hinv _, fun h => ?_⟩, fun m hm => ?_, ?_⟩
  · rw [findEventConfig_no_match w pfx files hdir h]
  · rw [findEventConfig_no_match w pfx files hdir (hinv m hm)] at hm
    simp only [Outcome.ok.injEq, Except.error.injEq] at hm
    exact hm.symm
  · intro pre name post a b hfiles hpre hname hdata hdot hsep
    have hext : (filepathExt name).data = '.' :: b := by
      have hn : name = ⟨a ++ '.' :: b⟩ := by
        cases name
        simp only at hdata
        rw [hdata]
      rw [hn, filepathExt_of_dot a b hdot hsep]
    have hfirst := findEventConfig_at_first w pfx pre post name b (by rw [hdir, hfiles]) hpre hname
      hext
    constructor
    · intro doc hdoc
      rw [hfirst, hdoc]
    · intro err herr
      rw [hfirst, herr]

/-- Claim C15, amended, on the workspace of the test: "event4" is loaded from
`event4.yaml`, the first entry of the listing that starts with it, under the
format "yaml". -/
theorem findEventConfig_first_match_witness :
    testWorld.ReadDir testWorld.workspace = .ok ["base.go", "base_test.go", "event4.yaml"] ∧
    findEventConfig testWorld "event4" =
      ⟨.ok (.ok ⟨"yaml", [("configtype", .str "yaml")], event4Doc⟩),
        [.readDir "/pwd", .readInConfig "event4.yaml"]⟩ :=
  ⟨rfl,
    ((findEventConfig_first_match testWorld "event4" ["base.go", "base_test.go", "event4.yaml"]
      rfl).2.2 ["base.go", "base_test.go"] "event4.yaml" [] "event4".data "yaml".data rfl
      (by decide) (by decide) rfl (by decide) (by decide)).1 event4Doc rfl⟩

/-- Claim C18 as stated fails for a tab: `stringToTime` trims spaces only, so
a text with a leading tab, or a trailing newline, is rejected although the
text itself parses. -/
theorem trim_counterexample :
    (stringToTime testWorld "2016-01-20 10:00" testSource).outcome
      = .ok (.ok ⟨2016, 1, 20, 10, 0, 0, 0, taipei⟩) ∧
    (stringToTime testWorld "\t2016-01-20 10:00" testSource).outcome
      = .ok (.error (cantParse "\t2016-01-20 10:00")) ∧
    (stringToTime testWorld "2016-01-20 10:00\n" testSource).outcome
      = .ok (.error (cantParse "2016-01-20 10:00\n")) :=
  ⟨rfl, rfl, rfl⟩

/-- Claim C18, amended: spaces on either side of a datetime are ignored. For
every text `t` and all runs of spaces `w1`, `w2`, `stringToTime` on
`w1 ++ t ++ w2` is the same run as on `t`: the same timestamp, the same
failure, the same calls. -/
theorem trim_spaces (w : World) (ev : Viper) (w1 t w2 : List Char)
    (h1 : ∀ c ∈ w1, c = ' ') (h2 : ∀ c ∈ w2, c = ' ') :
    stringsTrim ⟨w1 ++ t ++ w2⟩ " " = stringsTrim ⟨t⟩ " " ∧
    stringToTime w ⟨w1 ++ t ++ w2⟩ ev = stringToTime w ⟨t⟩ ev := by
  have h := stringsTrim_spaces w1 t w2 h1 h2
  refine ⟨h, ?_⟩
  simp only [stringToTime, h]

/-- Claim C18, amended, on the two sides of the period of the test document. -/
theorem trim_spaces_witness :
    stringsSplit "2016-01-20 10:00 ~ 2016-01-21 11:03PM" '~'
      = ["2016-01-20 10:00 ", " 2016-01-21 11:03PM"] ∧
    stringToTime testWorld "2016-01-20 10:00 " testSource
      = stringToTime testWorld "2016-01-20 10:00" testSource ∧
    stringToTime testWorld " 2016-01-21 11:03PM" testSource
      = stringToTime testWorld "2016-01-21 11:03PM" testSource :=
  ⟨by decide,
    (trim_spaces testWorld testSource [] "2016-01-20 10:00".data [' ']
      (by decide) (by decide)).2,
    (trim_spaces testWorld testSource [' '] "2016-01-21 11:03PM".data []
      (by decide) (by decide)).2⟩

/-- Claim C19 as stated fails on a workspace that holds `event1-old.yaml`
next to `event1.yaml`: the identifier "event1", not defined inline, is loaded
from `event1-old.yaml`, the first entry whose name starts with it. -/
theorem file_entry_counterexample :
    fileEntrySource.GetStringMapE "event1" = .ok [] ∧
    crowdedWorld.ReadDir crowdedWorld.workspace = .ok ["event1-old.yaml", "event1.yaml"] ∧
    findEventConfig crowdedWorld "event1" =
      ⟨.ok (.ok ⟨"yaml", [("configtype", .str "yaml")],
          [("title", .str "old draft"), ("time", .str "2015-12-01 09:00")]⟩),
        [.readDir "/ws", .readInConfig "event1-old.yaml"]⟩ ∧
    (¬ ∃ ext : String, "event1-old.yaml" = "event1" ++ "." ++ ext) ∧
    (NewEvent 2 crowdedWorld fileEntrySource true).outcome =
      .ok (Event.mk "trip"
        { Start := ⟨2016, 1, 20, 10, 0, 0, 0, TimeLocation.Local⟩, End := GoTime.zero,
          Period := false }
        (.items []) (.items [])
        (.items [leafEvent "old draft" ⟨2015, 12, 1, 9, 0, 0, 0, TimeLocation.Local⟩])
        { Times := .null } (.items []) true) := by
  refine ⟨rfl, rfl, rfl, ?_, rfl⟩
  rintro ⟨ext, h⟩
  have h2 := congrArg String.data h
  simp only [String.data_append] at h2
  simp only [List.cons_append, List.nil_append, List.cons.injEq, true_and] at h2
  exact absurd h2.1 (by decide)

/-- Claim C19, amended: for an identifier `e` without inline map (the read of
`e`, as a key path, returns no binding), the file
that `getSchedule` loads is the first entry of the listing whose name starts
with `e`, and it is parsed under the format given by the extension of that
name. Every child built for `e` is built from a source loaded this way. -/
theorem file_entry_first_listed (build : Viper → Bool → Run Event) (w : World) (ev : Viper)
    (e : String) (files : List String) (hmap : ev.GetStringMapE e = .ok [])
    (hdir : w.ReadDir w.workspace = .ok files) :
    (∀ sub tr, findEventConfig w e = ⟨.ok (.ok sub), tr⟩ →
      scheduleEntry build w ev e =
        ⟨(build sub false).outcome, .get e :: (tr ++ (build sub false).trace)⟩ ∧
      ∃ pre name post doc, files = pre ++ name :: post ∧
        (∀ f ∈ pre, stringsHasPrefix f e = false) ∧ stringsHasPrefix name e = true ∧
        (filepathExt name).data = '.' :: sub.configType.data ∧
        w.ReadInConfig name sub.configType = .ok doc ∧
        sub = ⟨sub.configType, [("configtype", .str sub.configType)], doc⟩ ∧
        tr = [.readDir w.workspace, .readInConfig name]) ∧
    (∀ c, (scheduleEntry build w ev e).outcome = .ok c →
      ∃ sub tr, findEventConfig w e = ⟨.ok (.ok sub), tr⟩ ∧ (build sub false).outcome = .ok c) := by
  constructor
  · intro sub tr h
    exact ⟨scheduleEntry_file build w ev e sub tr hmap h,
      findEventConfig_ok_inv w e files hdir sub tr h⟩
  · intro c hc
    obtain ⟨sub, hres, hsub⟩ := scheduleEntry_ok_resolves build w ev e c hc
    rcases hres with ⟨hlen, _⟩ | ⟨_, tr, hfind⟩
    · rw [Viper.GetStringMap_of_E ev e [] hmap] at hlen
      simp at hlen
    · exact ⟨sub, tr, hfind, hsub⟩

/-- Claim C19, amended, on the workspace of the test: "event4" is loaded from
the first entry that starts with it, `event4.yaml`, under the format "yaml". -/
theorem file_entry_first_listed_witness :
    (testSource.Set "isRoot" (.bool true)).GetStringMapE "event4" = .ok [] ∧
    ∃ pre name post doc, ["base.go", "base_test.go", "event4.yaml"] = pre ++ name :: post ∧
      (∀ f ∈ pre, stringsHasPrefix f "event4" = false) ∧ stringsHasPrefix name "event4" = true ∧
      (filepathExt name).data = '.' :: "yaml".data ∧
      testWorld.ReadInConfig name "yaml" = .ok doc ∧
      (⟨"yaml", [("configtype", .str "yaml")], event4Doc⟩ : Viper)
        = ⟨"yaml", [("configtype", .str "yaml")], doc⟩ ∧
      [Effect.readDir "/pwd", Effect.readInConfig "event4.yaml"]
        = [.readDir testWorld.workspace, .readInConfig name] :=
  ⟨rfl,
    ((file_entry_first_listed (NewEvent 1 testWorld) testWorld
      (testSource.Set "isRoot" (.bool true)) "event4" ["base.go", "base_test.go", "event4.yaml"]
      rfl rfl).1 ⟨"yaml", [("configtype", .str "yaml")], event4Doc⟩
      [.readDir "/pwd", .readInConfig "event4.yaml"] rfl).2⟩

/-- Claim C20, on a workspace that holds a directory `event1` next to the file
`event1.yaml`: the first entry that starts with "event1" has no extension,
`filepath.Ext` gives "" and the slice `[1:]` of it is out of range, so
`findEventConfig` panics, and with it the build of a source whose schedule
names "event1". The same happens on every listing whose first entry with the
prefix has no dot in its name. -/
theorem findEventConfig_slice_panic :
    bareNameWorld.ReadDir bareNameWorld.workspace = .ok ["event1", "event1.yaml"] ∧
    stringsHasPrefix "event1" "event1" = true ∧
    filepathExt "event1" = "" ∧
    findEventConfig bareNameWorld "event1" =
      ⟨.panic "runtime error: slice bounds out of range [1:0]", [.readDir "/ws"]⟩ ∧
    (NewEvent 2 bareNameWorld fileEntrySource true).outcome
      = .panic "runtime error: slice bounds out of range [1:0]" ∧
    (∀ (w : World) (pfx : String) (pre post : List String) (name : String),
      w.ReadDir w.workspace = .ok (pre ++ name :: post) →
      (∀ f ∈ pre, stringsHasPrefix f pfx = false) → stringsHasPrefix name pfx = true →
      '.' ∉ name.data →
      findEventConfig w pfx =
        ⟨.panic "runtime error: slice bounds out of range [1:0]", [.readDir w.workspace]⟩) :=
  ⟨rfl, by decide, rfl, rfl, rfl,
    fun w pfx pre post name hdir hpre hname hdot =>
      findEventConfig_panic w pfx pre post name hdir hpre hname
        (filepathExt_of_no_dot name hdot)⟩

end Xchedule
